import Mathlib

/-!
# JStatics: the drawing layer of `TMainWindow.cpp`

A shallow embedding of the numeric code of `src/GUI/TMainWindow.cpp`:
`initializeLoadScales`, `drawReactions`, `populateAppliedLoadsScene`, the three diagram
builders and `populateDisplacement`.  The analysis engine these functions call
(`TNode` bodies, `TElement`, `TStructure`) is not among the sources; the parts of it the
properties need are modelled from the specification and marked as such.

Conventions of the embedding.

* C++ `double` / `qreal` values are elements of a linearly ordered field `K`
  (exact arithmetic); every definition is computable and can be evaluated at
  `K = ℚ`, and every theorem also holds at `K = ℝ`.
* The bounds of the drawing scales depend on rounding: for them `initializeLoadScales`
  and the constant coefficient of the diagrams are embedded a second time, in binary64
  arithmetic (`roundDouble`, `initializeLoadScalesDouble`, `endOrdinate`), where a finite
  `double` is the rational number it denotes and every operation rounds its exact result
  to nearest, ties to even.
* Division by zero has no value in exact arithmetic (`x / 0 = 0` in a Lean field is a
  convention, not the behaviour of the program): every theorem whose truth depends on the
  value of a quotient assumes that the divisor is non-zero.
* `abs` and `fabs` applied to a `double` are the absolute value `|x|`.
* C++ `int` ids and counters are `Int` / `Nat`.
* The classes `TSupport`, `TDistributedLoad`, `TElement` are only used through
  their getters in the sources; they are records whose fields carry the getter
  names.
* `sin`, `cos`, `QLineF::angle`, `QLineF::length` and the macro `PI` are defined
  outside the sources; they are the fields of `TGraphicsEnv`.
-/

namespace JStatics

/-! ## Data model -/

/-- Support record, read through `getNodeID`, `RestrictsFx`, `RestrictsFy`, `RestrictsM`. -/
structure TSupport where
  nodeID : Int
  restrictsFx : Bool
  restrictsFy : Bool
  restrictsM : Bool
deriving DecidableEq, Repr

/-- Enumeration `LoadType` of `TReactionLoadGraphics`. -/
inductive LoadType where
  | Fx
  | Fy
  | M
deriving DecidableEq, Repr

/-- Items that `drawReactions` adds to the scene.  A reaction arrow is placed at the
drawing position of node `nodeID`; a label shows `value` at that position plus the
offset `(dx, dy)`. -/
inductive ReactionItem (K : Type) where
  | arrow (nodeID : Int) (type : LoadType) (orientation : Bool)
  | label (value : K) (nodeID : Int) (dx dy : K)
deriving DecidableEq, Repr

/-- One evaluation site `reactions[CDOF]` of `drawReactions`: the restraint flag whose
block performs the access and the value of `CDOF` at that moment. -/
structure ReactionRead where
  type : LoadType
  pos : Nat
deriving DecidableEq, Repr

/-- Running state of `drawReactions`: the counter `CDOF`, the log of the positions at
which `reactions[CDOF]` was evaluated, and the items added to the scene so far. -/
structure ReactionsState (K : Type) where
  CDOF : Nat
  reads : List ReactionRead
  scene : List (ReactionItem K)
deriving DecidableEq, Repr

section Reactions

variable {K : Type} [LinearOrderedField K]

/-- The body of one `if (support.RestrictsXX()) { ... CDOF++; }` block of
`drawReactions` (lines 475-492, 494-511, 513-531).  `off` is the label offset and
`offNeg` the offset used when the reaction is negative: `-1 * labelOffset` for
Fx and Fy, `labelOffset - QPointF(100, 0)` for M. -/
def reactionBlock (reactions : Nat → K) (nodeID : Int) (type : LoadType)
    (off offNeg : K × K) (st : ReactionsState K) : ReactionsState K :=
  let r := reactions st.CDOF
  let scene :=
    if |r| > 0.00001 then
      let orientation := if r < 0 then false else true
      let labelOffset := if r < 0 then offNeg else off
      st.scene ++ [ReactionItem.arrow nodeID type orientation,
                   ReactionItem.label |r| nodeID labelOffset.1 labelOffset.2]
    else st.scene
  { CDOF := st.CDOF + 1, reads := st.reads ++ [⟨type, st.CDOF⟩], scene := scene }

/-- One iteration of the loop `for (auto &support : supports)` of `drawReactions`. -/
def drawSupport (reactions : Nat → K) (st : ReactionsState K) (support : TSupport) :
    ReactionsState K :=
  let st1 := if support.restrictsFx
    then reactionBlock reactions support.nodeID LoadType.Fx (-40, 0) (-1 * -40, -1 * 0) st
    else st
  let st2 := if support.restrictsFy
    then reactionBlock reactions support.nodeID LoadType.Fy (0, 40) (-1 * 0, -1 * 40) st1
    else st1
  if support.restrictsM
    then reactionBlock reactions support.nodeID LoadType.M (40, -20) (40 - 100, -20 - 0) st2
    else st2

/-- Embedding of `TMainWindow::drawReactions` (lines 461-533): `CDOF` starts at 0 and the
supports are visited in the order of `fStructure->getSupports()`. -/
def drawReactions (reactions : Nat → K) (supports : List TSupport) : ReactionsState K :=
  supports.foldl (drawSupport reactions) { CDOF := 0, reads := [], scene := [] }

end Reactions

/-- Number of restraint flags that are set in one support. -/
def restrainedCount (s : TSupport) : Nat :=
  (if s.restrictsFx then 1 else 0) + (if s.restrictsFy then 1 else 0) +
    (if s.restrictsM then 1 else 0)

/-- Total number of set restraint flags over a list of supports (the restrained-DOF
count, i.e. the length of the reaction vector). -/
def totalRestrained (supports : List TSupport) : Nat :=
  (supports.map restrainedCount).sum

/-- The reads of one support whose first set flag is read at position `base`: each set
flag, taken in the order Fx, Fy, M, is read at `base` plus the number of set flags before
it in the same support. -/
def flagReads (base : Nat) (s : TSupport) : List ReactionRead :=
  (if s.restrictsFx then [⟨LoadType.Fx, base⟩] else []) ++
  (if s.restrictsFy then [⟨LoadType.Fy, base + (if s.restrictsFx then 1 else 0)⟩] else []) ++
  (if s.restrictsM then
    [⟨LoadType.M, base + (if s.restrictsFx then 1 else 0) + (if s.restrictsFy then 1 else 0)⟩]
   else [])

/-- Reads of a run that starts with counter `c`, by recursion on the supports. -/
def readsFrom (c : Nat) : List TSupport → List ReactionRead
  | [] => []
  | s :: rest => flagReads c s ++ readsFrom (c + restrainedCount s) rest

/-! ## Diagram builders -/

/-- Functions and constants the drawing code uses but that are defined outside the
sources: the macro `PI`, `sin` and `cos` of the C library, and `QLineF(p0, p1).angle()`
(degrees) and `QLineF(p0, p1).length()` of Qt, as functions of `x0 y0 x1 y1`. -/
structure TGraphicsEnv (K : Type) where
  PI : K
  sin : K → K
  cos : K → K
  lineAngle : K → K → K → K → K
  lineLength : K → K → K → K → K

/-- Distributed load record, read through `getElementID`, `getNode0Load`, `getNode1Load`
and `getLoadPlane`. -/
structure TDistributedLoad (K : Type) where
  elementID : Int
  node0Load : K
  node1Load : K
  loadPlane : Bool
deriving DecidableEq, Repr

/-- The C array `double coefficients[4]`; field `ck` is `coefficients[k]`. -/
@[ext]
structure Coefficients (K : Type) where
  c0 : K
  c1 : K
  c2 : K
  c3 : K
deriving DecidableEq, Repr

/-- What one iteration of the element loop reads about element `i`: the drawing
coordinates of its end nodes (`fStructureGraphics->getNodeCoordinates()`), its length
`elements[i].getL()` and its internal-load vector `(*fInternalLoads)[i]`. -/
structure DrawnElement (K : Type) where
  x0 : K
  y0 : K
  x1 : K
  y1 : K
  L : K
  internalLoads : Fin 6 → K

/-- Values an axial or shear diagram iteration holds after the orientation test: the
coefficients handed to `TDiagramLoadGraphics` and the two end values used by the labels. -/
structure DiagramValues (K : Type) where
  coefficients : Coefficients K
  loadAtNode0 : K
  loadAtNode1 : K
deriving DecidableEq, Repr

section Diagrams

variable {K : Type} [LinearOrderedField K]

/-- Value of the polynomial with coefficients `c` at `u`, in the form used at lines
1291-1292: `c0 * u * u * u + c1 * u * u + c2 * u + c3` (`coefficients[0]` is the cubic
coefficient, `coefficients[3]` the constant). -/
def evalCubic (c : Coefficients K) (u : K) : K :=
  c.c0 * u * u * u + c.c1 * u * u + c.c2 * u + c.c3

/-- Formal derivative of `evalCubic c` at `u`. -/
def evalCubicDeriv (c : Coefficients K) (u : K) : K :=
  3 * c.c0 * u * u + 2 * c.c1 * u + c.c2

/-- Multiplication of the four coefficients by `-1` (lines 789-792, 959-962). -/
def Coefficients.flip (c : Coefficients K) : Coefficients K :=
  { c0 := -1 * c.c0, c1 := -1 * c.c1, c2 := -1 * c.c2, c3 := -1 * c.c3 }

/-- Body of the loop over `*fDistributedLoads` in `populateAxialForceDiagramScene`
(lines 761-785) for element `i`. -/
def axialLoadStep (env : TGraphicsEnv K) (loadScale : K) (i : Int) (e : DrawnElement K)
    (c : Coefficients K) (ld : TDistributedLoad K) : Coefficients K :=
  if ld.elementID = i then
    if ld.loadPlane = true then
      let elementAngle := env.lineAngle e.x0 e.y0 e.x1 e.y1
      let distributedLoadAtNode0 := ld.node0Load * env.sin (elementAngle * env.PI / 180)
      let distributedLoadAtNode1 := ld.node1Load * env.sin (elementAngle * env.PI / 180)
      { c with
        c1 := c.c1 + -loadScale * (distributedLoadAtNode1 - distributedLoadAtNode0) / (e.L * 2)
        c2 := c.c2 + -loadScale * distributedLoadAtNode0 }
    else c
  else c

/-- Axial coefficients before the orientation test (lines 752-785). -/
def axialCoefficients (env : TGraphicsEnv K) (loadScale : K) (i : Int) (e : DrawnElement K)
    (loads : List (TDistributedLoad K)) : Coefficients K :=
  loads.foldl (axialLoadStep env loadScale i e)
    { c0 := 0, c1 := 0, c2 := 0, c3 := loadScale * -(e.internalLoads 0) }

/-- The orientation test and sign change shared, with the same text, by the axial builder
(lines 787-797) and the shear builder (lines 957-967). -/
def orientationFlip (e : DrawnElement K) (v : DiagramValues K) : DiagramValues K :=
  if e.x1 < e.x0 ∨ e.y1 > e.y0 then
    if ¬ (e.x1 > e.x0 ∧ e.y1 > e.y0) then
      { coefficients := v.coefficients.flip
        loadAtNode0 := -1 * v.loadAtNode0
        loadAtNode1 := -1 * v.loadAtNode1 }
    else v
  else v

/-- Element iteration of `populateAxialForceDiagramScene` up to the construction of
`TDiagramLoadGraphics` (lines 752-797). -/
def axialDiagram (env : TGraphicsEnv K) (loadScale : K) (i : Int) (e : DrawnElement K)
    (loads : List (TDistributedLoad K)) : DiagramValues K :=
  orientationFlip e
    { coefficients := axialCoefficients env loadScale i e loads
      loadAtNode0 := e.internalLoads 0
      loadAtNode1 := e.internalLoads 3 }

/-- Body of the loop over `*fDistributedLoads` in `populateShearForceDiagramScene`
(lines 933-955); the loop of `populateBendingMomentDiagramScene` (lines 1101-1123) has
the same text. -/
def shearLoadStep (env : TGraphicsEnv K) (loadScale : K) (i : Int) (e : DrawnElement K)
    (c : Coefficients K) (ld : TDistributedLoad K) : Coefficients K :=
  if ld.elementID = i then
    let elementAngle := env.lineAngle e.x0 e.y0 e.x1 e.y1 * env.PI / 180
    let distributedLoadAtNode0 :=
      if ld.loadPlane = true then ld.node0Load * env.cos elementAngle else ld.node0Load
    let distributedLoadAtNode1 :=
      if ld.loadPlane = true then ld.node1Load * env.cos elementAngle else ld.node1Load
    { c with
      c1 := c.c1 + loadScale * (distributedLoadAtNode1 - distributedLoadAtNode0) / (e.L * 2)
      c2 := c.c2 + loadScale * distributedLoadAtNode0 }
  else c

/-- Shear coefficients before the orientation test (lines 924-955, and 1092-1123 in the
bending-moment builder). -/
def shearCoefficients (env : TGraphicsEnv K) (loadScale : K) (i : Int) (e : DrawnElement K)
    (loads : List (TDistributedLoad K)) : Coefficients K :=
  loads.foldl (shearLoadStep env loadScale i e)
    { c0 := 0, c1 := 0, c2 := 0, c3 := loadScale * e.internalLoads 1 }

/-- Element iteration of `populateShearForceDiagramScene` up to the construction of
`TDiagramLoadGraphics` (lines 924-967). -/
def shearDiagram (env : TGraphicsEnv K) (loadScale : K) (i : Int) (e : DrawnElement K)
    (loads : List (TDistributedLoad K)) : DiagramValues K :=
  orientationFlip e
    { coefficients := shearCoefficients env loadScale i e loads
      loadAtNode0 := e.internalLoads 1
      loadAtNode1 := e.internalLoads 4 }

/-- The array `bendingMomentCoefficients` of `populateBendingMomentDiagramScene`
(lines 1125-1132), built from the shear coefficients of the same function. -/
def bendingMomentCoefficients (env : TGraphicsEnv K) (loadScale : K) (i : Int)
    (e : DrawnElement K) (loads : List (TDistributedLoad K)) : Coefficients K :=
  let sc := shearCoefficients env loadScale i e loads
  { c0 := -sc.c1 / 3
    c1 := -sc.c2 / 2
    c2 := -sc.c3
    c3 := loadScale * e.internalLoads 2 }

/-- Values the functions of `TGraphicsEnv` take on a horizontal element drawn from left
to right: the angle is 0, its sine 0, its cosine 1 and the length is `x1 - x0`.  Used to
evaluate the builders on concrete horizontal elements over `ℚ`. -/
def horizontalEnv : TGraphicsEnv ℚ :=
  { PI := 355 / 113
    sin := fun _ => 0
    cos := fun _ => 1
    lineAngle := fun _ _ _ _ => 0
    lineLength := fun x0 _ x1 _ => x1 - x0 }

/-! ## Displaced shape -/

/-- The array `vCoefficients` of `populateDisplacement` (lines 1264-1272) from the element
length `L` and the local end displacements `d` (the vector after `d = getT() * d`). -/
def vCoefficients (L : K) (d : Fin 6 → K) : Coefficients K :=
  { c0 := d 1 * 2 / (L * L * L) + d 2 / (L * L) - d 4 * 2 / (L * L * L) + d 5 / (L * L)
    c1 := -d 1 * 3 / (L * L) - d 2 * 2 / L + d 4 * 3 / (L * L) - d 5 / L
    c2 := d 2
    c3 := d 1 }

/-- The transverse deflection `v` of one sample of the curve (lines 1284-1292), with
`scaledU = u * uScale`. -/
def transverseDeflection (L : K) (d : Fin 6 → K) (uScale u : K) : K :=
  evalCubic (vCoefficients L d) (u * uScale)

/-! ## Element stiffness -/

/-- Modelled from the spec: `TElement::getLocalStiffness`, whose class is not among the
sources.  The classical 2-node Euler-Bernoulli beam-column matrix in the local degrees of
freedom `[u0, v0, r0, u1, v1, r1]`: axial terms `EA/L` on rows/columns 0 and 3, bending
terms `12EI/L^3`, `6EI/L^2`, `4EI/L`, `2EI/L` on rows/columns 1, 2, 4, 5. -/
def getLocalStiffness (EA EI L : K) : Matrix (Fin 6) (Fin 6) K :=
  !![EA / L, 0, 0, -(EA / L), 0, 0;
     0, 12 * EI / L ^ 3, 6 * EI / L ^ 2, 0, -(12 * EI / L ^ 3), 6 * EI / L ^ 2;
     0, 6 * EI / L ^ 2, 4 * EI / L, 0, -(6 * EI / L ^ 2), 2 * EI / L;
     -(EA / L), 0, 0, EA / L, 0, 0;
     0, -(12 * EI / L ^ 3), -(6 * EI / L ^ 2), 0, 12 * EI / L ^ 3, -(6 * EI / L ^ 2);
     0, 6 * EI / L ^ 2, 2 * EI / L, 0, -(6 * EI / L ^ 2), 4 * EI / L]

end Diagrams

/-! ## Applied loads scene (`populateAppliedLoadsScene`) -/

/-- Nodal load record, read through `getNodeID`, `getFx`, `getFy` and `getM`. -/
structure TNodalLoad (K : Type) where
  nodeID : Int
  Fx : K
  Fy : K
  M : K
deriving DecidableEq, Repr

/-- Items the nodal-load and end-moment loops add to the scene: a
`TNodalLoadGraphics(loadPos, type, orientation)` (its `LoadType` has the same three
values as the one of the reactions) and a `TLabel` showing `value` at `loadPos` plus the
offset `(dx, dy)`.  `loadPos` is `none` when the node row is outside the coordinate
matrix. -/
inductive LoadItem (K : Type) where
  | arrow (loadPos : Option (K × K)) (type : LoadType) (orientation : Bool)
  | label (value : K) (loadPos : Option (K × K)) (dx dy : K)
deriving DecidableEq, Repr

/-- The position an item was given. -/
def LoadItem.loadPos {K : Type} : LoadItem K → Option (K × K)
  | LoadItem.arrow p _ _ => p
  | LoadItem.label _ p _ _ => p

section AppliedLoads

variable {K : Type} [LinearOrderedField K]

/-- The pair `GetVal(nodeID, 0)`, `GetVal(nodeID, 1)` read from the node-coordinate matrix
`fStructureGraphics->getNodeCoordinates()`, whose rows are `coords`; `none` stands for a
row index outside the matrix. -/
def getNodeCoordinates (coords : List (K × K)) (nodeID : Int) : Option (K × K) :=
  if 0 ≤ nodeID then coords.get? nodeID.toNat else none

/-- One `if (nodalLoad.getXX() != 0) { ... }` block of the nodal-load loop (lines
642-657, 659-674, 676-691).  `off` is the label offset, `offNeg` the one used for a
negative component. -/
def nodalLoadBlock (loadPos : Option (K × K)) (type : LoadType) (component : K)
    (off offNeg : K × K) : List (LoadItem K) :=
  if component ≠ 0 then
    let orientation := if component < 0 then false else true
    let labelOffset := if component < 0 then offNeg else off
    [LoadItem.arrow loadPos type orientation,
     LoadItem.label |component| loadPos labelOffset.1 labelOffset.2]
  else []

/-- One iteration of the loop `for (auto &nodalLoad : *fNodalLoads)` (lines 635-692): the
items it adds, in order. -/
def drawNodalLoad (coords : List (K × K)) (nodalLoad : TNodalLoad K) : List (LoadItem K) :=
  let loadPos := getNodeCoordinates coords nodalLoad.nodeID
  nodalLoadBlock loadPos LoadType.Fx nodalLoad.Fx (-40, 0) (-1 * -40, -1 * 0) ++
  nodalLoadBlock loadPos LoadType.Fy nodalLoad.Fy (0, 40) (-1 * 0, -1 * 40) ++
  nodalLoadBlock loadPos LoadType.M nodalLoad.M (40, 0) (40 - 100, 0 - 0)

end AppliedLoads

/-! ## Drawing scales (`initializeLoadScales`) -/

section Scales

variable {K : Type} [LinearOrderedField K]

/-- The statement `if (fabs(x) > max) { max = fabs(x); }`. -/
def updateMax (m x : K) : K :=
  if |x| > m then |x| else m

/-- The loop over `*fDistributedLoads` of `initializeLoadScales` (lines 377-385). -/
def maxDistributedLoad (loads : List (TDistributedLoad K)) : K :=
  loads.foldl (fun m load => updateMax (updateMax m load.node0Load) load.node1Load) 0

/-- The loop over `*fInternalLoads` (lines 387-410); the state is the triple
`(maxAxialForce, maxShearForce, maxMoment)`. -/
def maxInternalLoads (internalLoads : List (Fin 6 → K)) : K × K × K :=
  internalLoads.foldl
    (fun m elemMatrix =>
      (updateMax (updateMax m.1 (elemMatrix 0)) (elemMatrix 3),
       updateMax (updateMax m.2.1 (elemMatrix 1)) (elemMatrix 4),
       updateMax (updateMax m.2.2 (elemMatrix 2)) (elemMatrix 5)))
    (0, 0, 0)

/-- The loop over the rows of `*fDisplacementVector` (lines 411-416). -/
def maxDisplacement (D : List K) : K :=
  D.foldl updateMax 0

/-- Division that records a zero divisor: `none` when the divisor is 0. -/
def checkedDiv (a b : K) : Option K :=
  if b = 0 then none else some (a / b)

/-- The statement `(max == 0) ? scale = 0 : scale = 1. / max` (lines 418-427). -/
def scaleOfMax (m : K) : Option K :=
  if m = 0 then some 0 else checkedDiv 1 m

/-- Embedding of `initializeLoadScales` (lines 377-427): the five entries of
`fLoadDrawingScales`, or `none` if a division by zero is reached.  The assignments to
`fSavedDrawingSizes` (lines 371-375) do not enter the scales and are left out. -/
def initializeLoadScales (loads : List (TDistributedLoad K))
    (internalLoads : List (Fin 6 → K)) (D : List K) : Option (Fin 5 → K) :=
  let m := maxInternalLoads internalLoads
  match scaleOfMax (maxDistributedLoad loads), scaleOfMax m.1, scaleOfMax m.2.1,
      scaleOfMax m.2.2, scaleOfMax (maxDisplacement D) with
  | some s0, some s1, some s2, some s3, some s4 => some ![s0, s1, s2, s3, s4]
  | _, _, _, _, _ => none

/-- The maximum of the magnitudes of the entries of a list, 0 for the empty list. -/
def maxAbs (l : List K) : K :=
  (l.map fun x => |x|).foldr max 0

/-- The scale the claim words: the reciprocal of the maximum, 0 when the maximum is 0. -/
def reciprocalOrZero (m : K) : K :=
  if m = 0 then 0 else 1 / m

/-! ## Orientation test of the axial and shear builders -/

/-- The condition under which the nested `if`s of lines 787-788 and 957-958 reach the sign
change: `(x1 < x0 || y1 > y0)` and then `!(x1 > x0 && y1 > y0)`. -/
def orientationTest (e : DrawnElement K) : Bool :=
  decide ((e.x1 < e.x0 ∨ e.y1 > e.y0) ∧ ¬ (e.x1 > e.x0 ∧ e.y1 > e.y0))

/-- The simplified condition: `x1 < x0 || (x1 == x0 && y1 > y0)`. -/
def orientationTestSimplified (e : DrawnElement K) : Bool :=
  decide (e.x1 < e.x0 ∨ (e.x1 = e.x0 ∧ e.y1 > e.y0))

/-- The outer condition alone: `x1 < x0 || y1 > y0`. -/
def orientationTestOuter (e : DrawnElement K) : Bool :=
  decide (e.x1 < e.x0 ∨ e.y1 > e.y0)

/-- All six values of a diagram iteration multiplied by `-1`. -/
def DiagramValues.negate (v : DiagramValues K) : DiagramValues K :=
  { coefficients := v.coefficients.flip
    loadAtNode0 := -1 * v.loadAtNode0
    loadAtNode1 := -1 * v.loadAtNode1 }

end Scales

/-! ## Node -/

/-- The class `TNode` of `TNode.h`: its only data member is `double fCoordinates[2]`. -/
structure TNode (K : Type) where
  fCoordinates : Fin 2 → K

section Node

variable {K : Type} [LinearOrderedField K]

/-- Modelled from the spec: the constructor `TNode(double X = 0, double Y = 0)`, whose body
(`TNode.cpp`) is not among the sources; it stores `X` and `Y` as the coordinates. -/
def TNode.new (X Y : K) : TNode K :=
  { fCoordinates := ![X, Y] }

/-- Modelled from the spec: the constructor called without arguments, `TNode()`; both
parameters take their default 0. -/
def TNode.default : TNode K :=
  TNode.new 0 0

/-- Modelled from the spec: `TNode::getX`, body not among the sources; accesses the X
coordinate. -/
def TNode.getX (n : TNode K) : K :=
  n.fCoordinates 0

/-- Modelled from the spec: `TNode::getY`, body not among the sources; accesses the Y
coordinate. -/
def TNode.getY (n : TNode K) : K :=
  n.fCoordinates 1

/-- Modelled from the spec: `TNode::setX`, body not among the sources; modifies the X
coordinate only. -/
def TNode.setX (n : TNode K) (X : K) : TNode K :=
  { fCoordinates := ![X, n.fCoordinates 1] }

/-- Modelled from the spec: `TNode::setY`, body not among the sources; modifies the Y
coordinate only. -/
def TNode.setY (n : TNode K) (Y : K) : TNode K :=
  { fCoordinates := ![n.fCoordinates 0, Y] }

end Node

/-! ## Degrees of freedom -/

/-- Modelled from the spec: the DOF numbering of `TStructure`, whose class is not among the
sources (section 3, "DOF numbering invariant").  The nodes are visited in increasing order
and each one takes the next three equation numbers, for Fx, Fy and M in that order.  The
result is the table of the equations of each node and the next free number. -/
def assignEquations (nodeCount : Nat) : List (Nat × Nat × Nat) × Nat :=
  (List.range nodeCount).foldl
    (fun st _ => (st.1 ++ [(st.2, st.2 + 1, st.2 + 2)], st.2 + 3)) ([], 0)

/-- Modelled from the spec: the three equations (Fx, Fy, M) owned by node `i`. -/
def nodeEquations (nodeCount i : Nat) : Option (Nat × Nat × Nat) :=
  (assignEquations nodeCount).1.get? i

/-- Modelled from the spec: the total system size, the number of equations assigned. -/
def systemSize (nodeCount : Nat) : Nat :=
  (assignEquations nodeCount).2

/-- Modelled from the spec: `TElement::getEquations`, the sequence
`[Fx0, Fy0, M0, Fx1, Fy1, M1]` of the global indices of node 0 followed by those of
node 1. -/
def getEquations (nodeCount node0ID node1ID : Nat) : Option (Fin 6 → Nat) :=
  match nodeEquations nodeCount node0ID, nodeEquations nodeCount node1ID with
  | some a, some b => some ![a.1, a.2.1, a.2.2, b.1, b.2.1, b.2.2]
  | _, _ => none

/-- The vector `d` that `populateDisplacement` fills from `D` at the six equations of an
element (lines 1242-1258); `none` when an index is outside `D`. -/
def gatherDisplacements {K : Type} (D : List K) (equations : Fin 6 → Nat) :
    Option (Fin 6 → K) :=
  match D.get? (equations 0), D.get? (equations 1), D.get? (equations 2),
      D.get? (equations 3), D.get? (equations 4), D.get? (equations 5) with
  | some d0, some d1, some d2, some d3, some d4, some d5 => some ![d0, d1, d2, d3, d4, d5]
  | _, _, _, _, _, _ => none

/-! ## Element transformation -/

section Transformation

variable {K : Type} [LinearOrderedField K]

/-- Modelled from the spec: the 3x3 block of the transformation matrix, the rotation by
the orientation angle of the element with `c` its cosine and `s` its sine; the rotational
degree of freedom is left unchanged. -/
def rotationBlock (c s : K) : Matrix (Fin 3) (Fin 3) K :=
  !![c, s, 0;
     -s, c, 0;
     0, 0, 1]

/-- Modelled from the spec: the block-diagonal 6x6 matrix with the same rotation block for
both end nodes. -/
def rotationMatrix (c s : K) : Matrix (Fin 6) (Fin 6) K :=
  !![c, s, 0, 0, 0, 0;
     -s, c, 0, 0, 0, 0;
     0, 0, 1, 0, 0, 0;
     0, 0, 0, c, s, 0;
     0, 0, 0, -s, c, 0;
     0, 0, 0, 0, 0, 1]

/-- Modelled from the spec: `TElement::getT` (section 4.1, `getTransform`), whose class is
not among the sources, for an element of length `L` from node 0 at `(x0, y0)` to node 1 at
`(x1, y1)`: the orientation angle `atan2(Δy, Δx)` has cosine `Δx / L` and sine `Δy / L`. -/
def getT (x0 y0 x1 y1 L : K) : Matrix (Fin 6) (Fin 6) K :=
  rotationMatrix ((x1 - x0) / L) ((y1 - y0) / L)

end Transformation

/-! ## Structure, assembly and solve -/

/-- Modelled from the spec: the element record of section 3 (`TElement`, not among the
sources): the ids of its end nodes, its axial stiffness `EA`, its bending stiffness `EI`
and its length. -/
structure TElement (K : Type) where
  node0ID : Nat
  node1ID : Nat
  axialStiffness : K
  bendingStiffness : K
  L : K

/-- Modelled from the spec: the structure of section 3 (`TStructure`, not among the
sources), owner of the node list, the element list and the support list. -/
structure TStructure (K : Type) where
  nodes : List (TNode K)
  elements : List (TElement K)
  supports : List TSupport

/-- Modelled from the spec: the error taxonomy of section 7. -/
inductive SolveError where
  | InvalidGeometry
  | UnstableStructure
  | InvalidLoadReference
deriving DecidableEq, Repr

section Solve

variable {K : Type} [LinearOrderedField K]

/-- Modelled from the spec: X coordinate of node `i` of the structure. -/
def TStructure.nodeX (S : TStructure K) (i : Nat) : K :=
  (S.nodes.getD i TNode.default).getX

/-- Modelled from the spec: Y coordinate of node `i` of the structure. -/
def TStructure.nodeY (S : TStructure K) (i : Nat) : K :=
  (S.nodes.getD i TNode.default).getY

/-- Modelled from the spec: total system size, `3 * nodeCount`. -/
def TStructure.size (S : TStructure K) : Nat :=
  3 * S.nodes.length

/-- Modelled from the spec: the `equations` of an element, the global indices of its
node 0 followed by those of its node 1. -/
def TElement.equations (e : TElement K) : Fin 6 → Nat :=
  ![3 * e.node0ID, 3 * e.node0ID + 1, 3 * e.node0ID + 2,
    3 * e.node1ID, 3 * e.node1ID + 1, 3 * e.node1ID + 2]

/-- Modelled from the spec: `getGlobalStiffness() -> T^t * Klocal * T` (section 4.1). -/
def getGlobalStiffness (S : TStructure K) (e : TElement K) : Matrix (Fin 6) (Fin 6) K :=
  (getT (S.nodeX e.node0ID) (S.nodeY e.node0ID) (S.nodeX e.node1ID) (S.nodeY e.node1ID)
      e.L).transpose *
    getLocalStiffness e.axialStiffness e.bendingStiffness e.L *
    getT (S.nodeX e.node0ID) (S.nodeY e.node0ID) (S.nodeX e.node1ID) (S.nodeY e.node1ID) e.L

/-- Modelled from the spec: the positions given by the `equations` of an element, as the
6 x N matrix with a 1 in row `a` at column `equations a`. -/
def gatherMatrix (S : TStructure K) (e : TElement K) : Matrix (Fin 6) (Fin S.size) K :=
  Matrix.of fun a J => if e.equations a = J.val then 1 else 0

/-- Modelled from the spec: the global stiffness matrix of one element scattered into the
N x N system at the positions given by its `equations`. -/
def scatterElement (S : TStructure K) (e : TElement K) :
    Matrix (Fin S.size) (Fin S.size) K :=
  (gatherMatrix S e).transpose * getGlobalStiffness S e * gatherMatrix S e

/-- Modelled from the spec: `K` of `assemble` (section 4.3), the superposition of the
scattered global stiffness matrices of all elements. -/
def assembleK (S : TStructure K) : Matrix (Fin S.size) (Fin S.size) K :=
  (S.elements.map (scatterElement S)).sum

/-- Modelled from the spec: whether global equation `d` is restrained, that is whether a
support of node `d / 3` has the flag of component `d % 3` (Fx, Fy, M) set. -/
def isRestrained (S : TStructure K) (d : Nat) : Bool :=
  S.supports.any fun s =>
    decide (s.nodeID = ((d / 3 : Nat) : Int)) &&
      (if d % 3 = 0 then s.restrictsFx else if d % 3 = 1 then s.restrictsFy
       else s.restrictsM)

/-- Modelled from the spec: the block `K_UU` of the free equations (section 4.3, step 2). -/
def reducedStiffness (S : TStructure K) :
    Matrix {I : Fin S.size // isRestrained S I.val = false}
      {I : Fin S.size // isRestrained S I.val = false} K :=
  (assembleK S).submatrix Subtype.val Subtype.val

/-- Modelled from the spec: `TStructure::solve` (section 4.3), not among the sources, from
the assembled load vector `F`.  If `K_UU` is singular the solve fails with
`UnstableStructure`; otherwise the free displacements solve `K_UU * D_U = F_U` and the
restrained ones are 0.  The checks of the other two error kinds are not modelled. -/
def solve (S : TStructure K) (F : Fin S.size → K) : Except SolveError (Fin S.size → K) :=
  if (reducedStiffness S).det = 0 then Except.error SolveError.UnstableStructure
  else
    Except.ok fun I =>
      if h : isRestrained S I.val = false then
        (((reducedStiffness S).det)⁻¹ • (reducedStiffness S).adjugate).mulVec
          (fun J => F J.val) ⟨I, h⟩
      else 0

/-- The part of `setCurrentFile` that runs the analysis (lines 332-343): `solve` is called
and then the displacement vector `getD()` is stored.  The call has no result to test, so a
failure of `solve` can only leave it as a C++ exception, and the statements after the call
are not executed. -/
def storeDisplacements (S : TStructure K) (F : Fin S.size → K) :
    Except SolveError (List K) :=
  match solve S F with
  | Except.error err => Except.error err
  | Except.ok D => Except.ok (List.ofFn D)

/-- Modelled from the spec: the components of a rigid-body motion `m = (a, b, w)`
(translation `(a, b)`, rotation `w` about the origin) that the set flags of the supports
prescribe to be zero: `a - w*y` for Fx, `b + w*x` for Fy and `w` for M at a node
`(x, y)`; one row of coefficients per restrained component. -/
def restraintRows (S : TStructure K) : List (Fin 3 → K) :=
  S.supports.flatMap fun s =>
    (if s.restrictsFx then [![1, 0, -(S.nodeY s.nodeID.toNat)]] else []) ++
    (if s.restrictsFy then [![0, 1, S.nodeX s.nodeID.toNat]] else []) ++
    (if s.restrictsM then [![0, 0, 1]] else [])

/-- Modelled from the spec: the matrix of the restraint rows; its rank is the number of
independent restraint components. -/
def restraintMatrix (S : TStructure K) : Matrix (Fin (restraintRows S).length) (Fin 3) K :=
  Matrix.of fun r => (restraintRows S).get r

/-- The displacement of global equation `d` in the rigid-body motion `m = (a, b, w)`. -/
def rigidDisplacement (S : TStructure K) (m : Fin 3 → K) (d : Nat) : K :=
  if d % 3 = 0 then m 0 - m 2 * S.nodeY (d / 3)
  else if d % 3 = 1 then m 1 + m 2 * S.nodeX (d / 3)
  else m 2

end Solve

section Geometry

variable {K : Type} [LinearOrderedField K]

/-- Validity of the geometry of a structure: every element joins two nodes of the node
list and its length is the (positive) distance of these nodes. -/
def ValidGeometry (S : TStructure K) : Prop :=
  ∀ e ∈ S.elements, e.node0ID < S.nodes.length ∧ e.node1ID < S.nodes.length ∧ 0 < e.L ∧
    e.L * e.L =
      (S.nodeX e.node1ID - S.nodeX e.node0ID) * (S.nodeX e.node1ID - S.nodeX e.node0ID) +
      (S.nodeY e.node1ID - S.nodeY e.node0ID) * (S.nodeY e.node1ID - S.nodeY e.node0ID)

end Geometry

/-! ## Labels of the axial and shear diagrams -/

/-- The code block that adds a label of a diagram: the single label in the middle of the
element, the label at node 0 or the label at node 1. -/
inductive LabelPlace where
  | middle
  | node0
  | node1
deriving DecidableEq, Repr

/-- A `TLabel` of a diagram: the block that adds it, the number handed to
`QString::number(..., 'g', 3)` and the position `(x, y)`. -/
structure DiagramLabel (K : Type) where
  place : LabelPlace
  value : K
  x : K
  y : K
deriving DecidableEq, Repr

section Labels

variable {K : Type} [LinearOrderedField K]

/-- The label part of an element iteration of `populateAxialForceDiagramScene` (lines
805-892); `v` holds the coefficients and the end values after the orientation test. -/
def axialLabels (env : TGraphicsEnv K) (loadScale : K) (e : DrawnElement K)
    (v : DiagramValues K) : List (DiagramLabel K) :=
  let axialLoadAtNode0 := v.loadAtNode0
  let axialLoadAtNode1 := v.loadAtNode1
  let elementAngle := env.lineAngle e.x0 e.y0 e.x1 e.y1 * env.PI / 180
  if |axialLoadAtNode0 + axialLoadAtNode1| < 0.0001 ∧ |v.coefficients.c1| < 0.0001 then
    [{ place := LabelPlace.middle
       value :=
         if e.x1 < e.x0 ∨ e.y1 > e.y0 then
           if ¬ (e.x1 > e.x0 ∧ e.y1 > e.y0) then axialLoadAtNode0 else -axialLoadAtNode0
         else -axialLoadAtNode0
       x := (e.x0 - axialLoadAtNode0 * loadScale * env.cos (elementAngle + env.PI / 2) +
              e.x1 + axialLoadAtNode1 * loadScale * env.cos (elementAngle + env.PI / 2)) / 2
       y := (e.y0 + axialLoadAtNode0 * loadScale * env.sin (elementAngle + env.PI / 2) +
              e.y1 - axialLoadAtNode1 * loadScale * env.sin (elementAngle + env.PI / 2)) / 2 }]
  else
    (if |axialLoadAtNode0| > 0.00001 then
      [{ place := LabelPlace.node0
         value :=
           if e.x1 < e.x0 ∨ e.y1 > e.y0 then
             if ¬ (e.x1 > e.x0 ∧ e.y1 > e.y0) then axialLoadAtNode0 else -axialLoadAtNode0
           else -axialLoadAtNode0
         x := e.x0 - axialLoadAtNode0 * loadScale * env.cos (elementAngle + env.PI / 2)
         y := e.y0 + axialLoadAtNode0 * loadScale * env.sin (elementAngle + env.PI / 2) }]
     else []) ++
    (if |axialLoadAtNode1| > 0.00001 then
      [{ place := LabelPlace.node1
         value :=
           if e.x1 < e.x0 ∨ e.y1 > e.y0 then
             if ¬ (e.x1 > e.x0 ∧ e.y1 > e.y0) then -axialLoadAtNode1 else axialLoadAtNode1
           else axialLoadAtNode1
         x := e.x1 + axialLoadAtNode1 * loadScale * env.cos (elementAngle + env.PI / 2)
         y := e.y1 - axialLoadAtNode1 * loadScale * env.sin (elementAngle + env.PI / 2) }]
     else [])

/-- The label part of an element iteration of `populateShearForceDiagramScene` (lines
975-1059); `v` holds the coefficients and the end values after the orientation test. -/
def shearLabels (env : TGraphicsEnv K) (loadScale : K) (e : DrawnElement K)
    (v : DiagramValues K) : List (DiagramLabel K) :=
  let shearLoadAtNode0 := v.loadAtNode0
  let shearLoadAtNode1 := v.loadAtNode1
  let elementAngle := env.lineAngle e.x0 e.y0 e.x1 e.y1 * env.PI / 180
  if |shearLoadAtNode0 + shearLoadAtNode1| < 0.0001 ∧ |v.coefficients.c1| < 0.0001 then
    [{ place := LabelPlace.middle
       value :=
         if e.x1 < e.x0 ∨ e.y1 > e.y0 then
           if ¬ (e.x1 > e.x0 ∧ e.y1 > e.y0) then -shearLoadAtNode0 else shearLoadAtNode0
         else shearLoadAtNode0
       x := (e.x0 + shearLoadAtNode0 * loadScale * env.cos (elementAngle + env.PI / 2) +
              e.x1 - shearLoadAtNode1 * loadScale * env.cos (elementAngle + env.PI / 2)) / 2
       y := (e.y0 - shearLoadAtNode0 * loadScale * env.sin (elementAngle + env.PI / 2) +
              e.y1 + shearLoadAtNode1 * loadScale * env.sin (elementAngle + env.PI / 2)) / 2 }]
  else
    (if |shearLoadAtNode0| > 0.00001 then
      [{ place := LabelPlace.node0
         value :=
           if e.x1 < e.x0 ∨ e.y1 > e.y0 then
             if ¬ (e.x1 > e.x0 ∧ e.y1 > e.y0) then -shearLoadAtNode0 else shearLoadAtNode0
           else shearLoadAtNode0
         x := e.x0 + shearLoadAtNode0 * loadScale * env.cos (elementAngle + env.PI / 2)
         y := e.y0 - shearLoadAtNode0 * loadScale * env.sin (elementAngle + env.PI / 2) }]
     else []) ++
    (if |shearLoadAtNode1| > 0.00001 then
      [{ place := LabelPlace.node1
         value :=
           if e.x1 < e.x0 ∨ e.y1 > e.y0 then
             if ¬ (e.x1 > e.x0 ∧ e.y1 > e.y0) then shearLoadAtNode1 else -shearLoadAtNode1
           else -shearLoadAtNode1
         x := e.x1 - shearLoadAtNode1 * loadScale * env.cos (elementAngle + env.PI / 2)
         y := e.y1 + shearLoadAtNode1 * loadScale * env.sin (elementAngle + env.PI / 2) }]
     else [])

/-! ## The element loops of the three diagram builders -/

/-- Embedding of `populateAxialForceDiagramScene` (lines 731-893): for each element, in
the order of the loop `for (int i = 0; ...)`, the values handed to `TDiagramLoadGraphics`
and the labels added.  The reactions drawn afterwards are those of `drawReactions`. -/
def populateAxialForceDiagramScene (env : TGraphicsEnv K) (drawingSize : K)
    (fLoadDrawingScales : Fin 5 → K) (elements : List (DrawnElement K))
    (loads : List (TDistributedLoad K)) :
    List (DiagramValues K × List (DiagramLabel K)) :=
  let loadScale := drawingSize * fLoadDrawingScales 1
  elements.mapIdx fun i e =>
    (axialDiagram env loadScale i e loads,
     axialLabels env loadScale e (axialDiagram env loadScale i e loads))

/-- Embedding of `populateShearForceDiagramScene` (lines 903-1060), as for the axial
builder. -/
def populateShearForceDiagramScene (env : TGraphicsEnv K) (drawingSize : K)
    (fLoadDrawingScales : Fin 5 → K) (elements : List (DrawnElement K))
    (loads : List (TDistributedLoad K)) :
    List (DiagramValues K × List (DiagramLabel K)) :=
  let loadScale := drawingSize * fLoadDrawingScales 2
  elements.mapIdx fun i e =>
    (shearDiagram env loadScale i e loads,
     shearLabels env loadScale e (shearDiagram env loadScale i e loads))

/-- Embedding of the coefficient part of `populateBendingMomentDiagramScene` (lines
1071-1138): the array `bendingMomentCoefficients` of each element. -/
def populateBendingMomentDiagramScene (env : TGraphicsEnv K) (drawingSize : K)
    (fLoadDrawingScales : Fin 5 → K) (elements : List (DrawnElement K))
    (loads : List (TDistributedLoad K)) : List (Coefficients K) :=
  let loadScale := drawingSize * fLoadDrawingScales 3
  elements.mapIdx fun i e => bendingMomentCoefficients env loadScale i e loads

/-- The four coefficients multiplied by `k`. -/
def Coefficients.scale (k : K) (c : Coefficients K) : Coefficients K :=
  { c0 := k * c.c0, c1 := k * c.c1, c2 := k * c.c2, c3 := k * c.c3 }

/-! ## Arrows of the distributed loads -/

/-- The divisor of the branch taken at lines 557-566: the end intensity of larger
magnitude, `getNode0Load()` when the magnitudes are equal. -/
def arrowDivisor (distributedLoad : TDistributedLoad K) : K :=
  if |distributedLoad.node0Load| ≥ |distributedLoad.node1Load| then distributedLoad.node0Load
  else distributedLoad.node1Load

/-- The pair `(arrow0Length, arrow1Length)` of `populateAppliedLoadsScene` (lines
556-566), with `loadScale = drawingSize * fLoadDrawingScales[0]`; `none` when the division
has a zero divisor. -/
def arrowLengths (loadScale : K) (distributedLoad : TDistributedLoad K) : Option (K × K) :=
  if |distributedLoad.node0Load| ≥ |distributedLoad.node1Load| then
    let arrow0Length := loadScale * distributedLoad.node0Load
    (checkedDiv (arrow0Length * distributedLoad.node1Load) distributedLoad.node0Load).map
      fun arrow1Length => (arrow0Length, arrow1Length)
  else
    let arrow1Length := loadScale * distributedLoad.node1Load
    (checkedDiv (arrow1Length * distributedLoad.node0Load) distributedLoad.node1Load).map
      fun arrow0Length => (arrow0Length, arrow1Length)

end Labels

/-! ## The curve of the displaced shape -/

/-- One pass of the body of the sampling loop of `populateDisplacement` (lines 1284-1303):
the parameter `u`, the scaled coordinate, the point `(x, -y)` given to the path, and
whether the point is given to `moveTo` (`u == 0`) rather than to `lineTo`. -/
structure CurvePoint (K : Type) where
  u : K
  scaledU : K
  x : K
  y : K
  isMoveTo : Bool
deriving DecidableEq, Repr

section Curve

variable {K : Type} [LinearOrderedField K]

/-- The body of the sampling loop (lines 1284-1303) at parameter `u`. -/
def curvePoint (env : TGraphicsEnv K) (L : K) (d : Fin 6 → K)
    (displacementLength uScale angle u : K) : CurvePoint K :=
  let scaledU := u * uScale
  let v := evalCubic (vCoefficients L d) scaledU
  let du := d 0 + (d 3 - d 0) * (u / displacementLength)
  let x := (u + du) * env.cos angle - v * env.sin angle
  let y := (u + du) * env.sin angle + v * env.cos angle
  { u := u, scaledU := scaledU, x := x, y := -y, isMoveTo := decide (u = 0) }

/-- The loop `for (qreal u = ...; u <= displacementLength; u = u + step)` (line 1283)
started at `u`, run for at most `fuel` evaluations of its condition: the samples taken, or
`none` when the condition is still true after `fuel` evaluations. -/
def curveLoop (env : TGraphicsEnv K) (L : K) (d : Fin 6 → K)
    (displacementLength step uScale angle : K) : Nat → K → Option (List (CurvePoint K))
  | 0, _ => none
  | fuel + 1, u =>
    if u ≤ displacementLength then
      (curveLoop env L d displacementLength step uScale angle fuel (u + step)).map
        fun rest => curvePoint env L d displacementLength uScale angle u :: rest
    else some []

/-- The curve of one element in `populateDisplacement` (lines 1276-1304): the drawn length,
the step, the scale and the angle, and the loop started at `u = 0`. -/
def displacementCurve (env : TGraphicsEnv K) (e : DrawnElement K) (d : Fin 6 → K)
    (fuel : Nat) : Option (List (CurvePoint K)) :=
  let displacementLength := env.lineLength e.x0 e.y0 e.x1 e.y1
  let step := displacementLength / 1000
  let uScale := e.L / displacementLength
  let angle := env.lineAngle e.x0 e.y0 e.x1 e.y1 * env.PI / 180
  curveLoop env e.L d displacementLength step uScale angle fuel 0

end Curve

/-! ## Binary64 arithmetic of the drawing scales

Whether a normalised quantity reaches 1 and whether an end ordinate stays below
`drawingSize` depends on how `1. / max` and the products with the scale are rounded, so
`initializeLoadScales` and the constant coefficient of the diagrams are also embedded in
binary64 arithmetic (round to nearest, ties to even).  A finite `double` is the rational
number it denotes, the two zeros being one value; a result that is not a finite double
(an overflow, a division by zero) is `none`.  Comparison, `fabs` and the unary minus are
exact in binary64, so the maxima are those of `maxDistributedLoad`, `maxInternalLoads` and
`maxDisplacement` at `K = ℚ`. -/

/-- Rounding of a rational to the nearest integer, a tie going to the even neighbour. -/
def roundHalfEven (q : ℚ) : ℤ :=
  if q - ⌊q⌋ < 1 / 2 then ⌊q⌋
  else if 1 / 2 < q - ⌊q⌋ then ⌊q⌋ + 1
  else if ⌊q⌋ % 2 = 0 then ⌊q⌋ else ⌊q⌋ + 1

/-- Exponent of the unit in the last place of the binary64 numbers around the magnitude
`a`: 52 below the binary exponent `⌊log2 a⌋`, and `-1074` for every magnitude below
`2^-1022` (the subnormal numbers). -/
def ulpExponent (a : ℚ) : ℤ :=
  max (Int.log 2 a) (-1022) - 52

/-- Rounding of a magnitude `a >= 0` to the nearest multiple of its unit in the last place,
ties to even, with no bound on the exponent. -/
def roundMagnitude (a : ℚ) : ℚ :=
  roundHalfEven (a / 2 ^ ulpExponent a) * 2 ^ ulpExponent a

/-- Rounding of a signed value: binary64 is a sign-magnitude format, the magnitude is
rounded and the sign kept. -/
def roundValue (q : ℚ) : ℚ :=
  if q < 0 then -roundMagnitude (-q) else roundMagnitude q

/-- The binary64 value of the exact result `q` of an operation: the rounded value when it is
finite, `none` when the rounded value reaches `2^1024` (overflow to infinity). -/
def roundDouble (q : ℚ) : Option ℚ :=
  if |roundValue q| < 2 ^ 1024 then some (roundValue q) else none

/-- Binary64 product `a * b` of two finite doubles. -/
def mulDouble (a b : ℚ) : Option ℚ :=
  roundDouble (a * b)

/-- Binary64 quotient `a / b` of two finite doubles; a zero divisor gives no finite
value. -/
def divDouble (a b : ℚ) : Option ℚ :=
  if b = 0 then none else roundDouble (a / b)

/-- The statement `(max == 0) ? scale = 0 : scale = 1. / max` (lines 418-427) in
binary64. -/
def scaleOfMaxDouble (m : ℚ) : Option ℚ :=
  if m = 0 then some 0 else divDouble 1 m

/-- Embedding of `initializeLoadScales` (lines 377-427) in binary64: the maxima are found
by the same loops as in `initializeLoadScales`, every quotient `1. / max` is rounded; `none`
when one of the five scales is not a finite double. -/
def initializeLoadScalesDouble (loads : List (TDistributedLoad ℚ))
    (internalLoads : List (Fin 6 → ℚ)) (D : List ℚ) : Option (Fin 5 → ℚ) :=
  let m := maxInternalLoads internalLoads
  match scaleOfMaxDouble (maxDistributedLoad loads), scaleOfMaxDouble m.1,
      scaleOfMaxDouble m.2.1, scaleOfMaxDouble m.2.2,
      scaleOfMaxDouble (maxDisplacement D) with
  | some s0, some s1, some s2, some s3, some s4 => some ![s0, s1, s2, s3, s4]
  | _, _, _, _, _ => none

/-- The normalised quantity `scale * |x|` of an entry `x`, as the binary64 product of the
scale and `fabs(x)`. -/
def normalised (scale x : ℚ) : Option ℚ :=
  mulDouble scale |x|

/-- The constant coefficient of a diagram in binary64:
`loadScale = drawingSize * fLoadDrawingScales[k]` (lines 733, 905, 1073) followed by
`coefficients[3] = loadScale * value` (lines 759, 931, 1132), where `value` is
`-axialLoadAtNode0`, `shearLoadAtNode0` or `bendingMomentAtNode0`. -/
def endOrdinate (drawingSize scale value : ℚ) : Option ℚ :=
  (mulDouble drawingSize scale).bind fun loadScale => mulDouble loadScale value

/-- The magnitudes `2^-1022 <= |x| <= 2^1022`: `x` is a normal binary64 magnitude and so is
its reciprocal. -/
def NormalRange (x : ℚ) : Prop :=
  (2 : ℚ) ^ (-1022 : ℤ) ≤ |x| ∧ |x| ≤ 2 ^ (1022 : ℤ)

/-! ## Reaction indexing (`drawReactions`) -/

section ReactionLemmas

variable {K : Type} [LinearOrderedField K]

theorem reactionBlock_CDOF (reactions : Nat → K) (n : Int) (t : LoadType) (o o2 : K × K)
    (st : ReactionsState K) : (reactionBlock reactions n t o o2 st).CDOF = st.CDOF + 1 := rfl

theorem reactionBlock_reads (reactions : Nat → K) (n : Int) (t : LoadType) (o o2 : K × K)
    (st : ReactionsState K) :
    (reactionBlock reactions n t o o2 st).reads = st.reads ++ [⟨t, st.CDOF⟩] := rfl

theorem drawSupport_CDOF (reactions : Nat → K) (st : ReactionsState K) (s : TSupport) :
    (drawSupport reactions st s).CDOF = st.CDOF + restrainedCount s := by
  unfold drawSupport restrainedCount
  cases s.restrictsFx <;> cases s.restrictsFy <;> cases s.restrictsM <;>
    simp [reactionBlock_CDOF]

theorem drawSupport_reads (reactions : Nat → K) (st : ReactionsState K) (s : TSupport) :
    (drawSupport reactions st s).reads = st.reads ++ flagReads st.CDOF s := by
  unfold drawSupport flagReads
  cases s.restrictsFx <;> cases s.restrictsFy <;> cases s.restrictsM <;>
    simp [reactionBlock_CDOF, reactionBlock_reads]

theorem foldl_drawSupport_reads (reactions : Nat → K) (l : List TSupport)
    (st : ReactionsState K) :
    (l.foldl (drawSupport reactions) st).reads = st.reads ++ readsFrom st.CDOF l := by
  induction l generalizing st with
  | nil => simp [readsFrom]
  | cons s rest ih =>
    simp only [List.foldl_cons, readsFrom]
    rw [ih, drawSupport_reads, drawSupport_CDOF, List.append_assoc]

end ReactionLemmas

theorem flagReads_pos (c : Nat) (s : TSupport) :
    (flagReads c s).map ReactionRead.pos = List.range' c (restrainedCount s) := by
  unfold flagReads restrainedCount
  cases s.restrictsFx <;> cases s.restrictsFy <;> cases s.restrictsM <;>
    simp [List.range', List.range'_succ]

theorem readsFrom_pos (c : Nat) (l : List TSupport) :
    (readsFrom c l).map ReactionRead.pos = List.range' c (totalRestrained l) := by
  induction l generalizing c with
  | nil => simp [readsFrom, totalRestrained]
  | cons s rest ih =>
    have h : totalRestrained (s :: rest) = restrainedCount s + totalRestrained rest := by
      simp [totalRestrained]
    simp only [readsFrom, List.map_append, flagReads_pos, ih, h]
    rw [Nat.add_comm (restrainedCount s) (totalRestrained rest)]
    exact List.range'_append_1 c (restrainedCount s) (totalRestrained rest)

section ReactionClaims

variable {K : Type} [LinearOrderedField K]

/-- C10: for every list of supports, the positions `drawReactions` reads from the reaction
vector are exactly 0, 1, ..., R-1 in this order, each once, where R is the total number
of set restraint flags; hence every read position is below R, the length of the reaction
vector. -/
theorem drawReactions_positions_range (reactions : Nat → K) (supports : List TSupport) :
    (drawReactions reactions supports).reads.map ReactionRead.pos =
        List.range (totalRestrained supports) ∧
    ((drawReactions reactions supports).reads.map ReactionRead.pos).Nodup ∧
    ∀ rd ∈ (drawReactions reactions supports).reads, rd.pos < totalRestrained supports := by
  have h : (drawReactions reactions supports).reads.map ReactionRead.pos =
      List.range (totalRestrained supports) := by
    unfold drawReactions
    rw [foldl_drawSupport_reads]
    simp [readsFrom_pos, List.range_eq_range']
  refine ⟨h, ?_, ?_⟩
  · rw [h]; exact List.nodup_range _
  · intro rd hrd
    have hm : rd.pos ∈ (drawReactions reactions supports).reads.map ReactionRead.pos :=
      List.mem_map_of_mem _ hrd
    rw [h] at hm
    exact List.mem_range.mp hm

end ReactionClaims

/-! ## Polynomials of the diagrams -/

section CubicLemmas

variable {K : Type} [LinearOrderedField K]

theorem evalCubic_zero (c : Coefficients K) : evalCubic c 0 = c.c3 := by
  simp [evalCubic]

theorem evalCubicDeriv_zero (c : Coefficients K) : evalCubicDeriv c 0 = c.c2 := by
  simp [evalCubicDeriv]

end CubicLemmas

/-- Over the reals `evalCubicDeriv c` is the derivative of `evalCubic c`. -/
theorem evalCubic_hasDerivAt (c : Coefficients ℝ) (u : ℝ) :
    HasDerivAt (evalCubic c) (evalCubicDeriv c u) u := by
  have h1 : HasDerivAt (fun x : ℝ => x) 1 u := hasDerivAt_id u
  have h := ((((((hasDerivAt_const u c.c0).mul h1).mul h1).mul h1).add
    (((hasDerivAt_const u c.c1).mul h1).mul h1)).add ((hasDerivAt_const u c.c2).mul h1)).add
    (hasDerivAt_const u c.c3)
  have hf : evalCubic c = fun x : ℝ => c.c0 * x * x * x + c.c1 * x * x + c.c2 * x + c.c3 := by
    funext x; rfl
  rw [hf]
  convert h using 1
  simp only [evalCubicDeriv]
  ring

theorem deriv_evalCubic (c : Coefficients ℝ) (u : ℝ) :
    deriv (evalCubic c) u = evalCubicDeriv c u :=
  (evalCubic_hasDerivAt c u).deriv

/-! ## Displaced shape (`populateDisplacement`) -/

section DisplacementClaims

variable {K : Type} [LinearOrderedField K]

end DisplacementClaims

/-! ## Element stiffness (`getLocalStiffness`) -/

theorem vec6_val_five {α : Type} (a b c d e f : α) :
    (![a, b, c, d, e, f] : Fin 6 → α) 5 = f :=
  rfl

section StiffnessClaims

variable {K : Type} [LinearOrderedField K]

theorem getLocalStiffness_mulVec (EA EI L : K) (v : Fin 6 → K) :
    (getLocalStiffness EA EI L).mulVec v =
      ![EA / L * v 0 + -(EA / L) * v 3,
        12 * EI / L ^ 3 * v 1 + 6 * EI / L ^ 2 * v 2 + -(12 * EI / L ^ 3) * v 4 +
          6 * EI / L ^ 2 * v 5,
        6 * EI / L ^ 2 * v 1 + 4 * EI / L * v 2 + -(6 * EI / L ^ 2) * v 4 + 2 * EI / L * v 5,
        -(EA / L) * v 0 + EA / L * v 3,
        -(12 * EI / L ^ 3) * v 1 + -(6 * EI / L ^ 2) * v 2 + 12 * EI / L ^ 3 * v 4 +
          -(6 * EI / L ^ 2) * v 5,
        6 * EI / L ^ 2 * v 1 + 2 * EI / L * v 2 + -(6 * EI / L ^ 2) * v 4 + 4 * EI / L * v 5] := by
  funext i
  simp only [Matrix.mulVec, Matrix.dotProduct, Fin.sum_univ_six]
  fin_cases i
  · show EA / L * v 0 + 0 * v 1 + 0 * v 2 + -(EA / L) * v 3 + 0 * v 4 + 0 * v 5 = _
    simp
  · show 0 * v 0 + 12 * EI / L ^ 3 * v 1 + 6 * EI / L ^ 2 * v 2 + 0 * v 3 +
      -(12 * EI / L ^ 3) * v 4 + 6 * EI / L ^ 2 * v 5 = _
    simp
  · show 0 * v 0 + 6 * EI / L ^ 2 * v 1 + 4 * EI / L * v 2 + 0 * v 3 +
      -(6 * EI / L ^ 2) * v 4 + 2 * EI / L * v 5 = _
    simp
  · show -(EA / L) * v 0 + 0 * v 1 + 0 * v 2 + EA / L * v 3 + 0 * v 4 + 0 * v 5 = _
    simp
  · show 0 * v 0 + -(12 * EI / L ^ 3) * v 1 + -(6 * EI / L ^ 2) * v 2 + 0 * v 3 +
      12 * EI / L ^ 3 * v 4 + -(6 * EI / L ^ 2) * v 5 = _
    simp
  · show 0 * v 0 + 6 * EI / L ^ 2 * v 1 + 2 * EI / L * v 2 + 0 * v 3 +
      -(6 * EI / L ^ 2) * v 4 + 4 * EI / L * v 5 = 
      6 * EI / L ^ 2 * v 1 + 2 * EI / L * v 2 + -(6 * EI / L ^ 2) * v 4 + 4 * EI / L * v 5
    simp

theorem vec6_eq_zero (a b c d e f : K) (ha : a = 0) (hb : b = 0) (hc : c = 0) (hd : d = 0)
    (he : e = 0) (hf : f = 0) : (![a, b, c, d, e, f] : Fin 6 → K) = 0 := by
  subst ha hb hc hd he hf
  funext i
  fin_cases i <;> rfl


/-- C3: for every element with length `L > 0`, axial stiffness `EA` and bending stiffness
`EI`, `getLocalStiffness` is the symmetric 6x6 Euler-Bernoulli beam-column matrix: `EA/L` on
rows/columns 0 and 3 with `-EA/L` off the diagonal, the `12EI/L^3`, `6EI/L^2`, `4EI/L`,
`2EI/L` terms on rows/columns 1, 2, 4, 5, and no coupling between the axial and the bending
degrees of freedom.  The three rigid-body motions of the element (two translations and the
rotation about node 0) produce no end forces. -/
theorem getLocalStiffness_euler_bernoulli (EA EI L : K) (hL : 0 < L) :
    (getLocalStiffness EA EI L).IsSymm ∧
    (getLocalStiffness EA EI L 0 0 = EA / L ∧ getLocalStiffness EA EI L 3 3 = EA / L ∧
      getLocalStiffness EA EI L 0 3 = -(EA / L)) ∧
    (getLocalStiffness EA EI L 1 1 = 12 * EI / L ^ 3 ∧
      getLocalStiffness EA EI L 4 4 = 12 * EI / L ^ 3 ∧
      getLocalStiffness EA EI L 1 4 = -(12 * EI / L ^ 3) ∧
      getLocalStiffness EA EI L 1 2 = 6 * EI / L ^ 2 ∧
      getLocalStiffness EA EI L 1 5 = 6 * EI / L ^ 2 ∧
      getLocalStiffness EA EI L 2 4 = -(6 * EI / L ^ 2) ∧
      getLocalStiffness EA EI L 4 5 = -(6 * EI / L ^ 2) ∧
      getLocalStiffness EA EI L 2 2 = 4 * EI / L ∧
      getLocalStiffness EA EI L 5 5 = 4 * EI / L ∧
      getLocalStiffness EA EI L 2 5 = 2 * EI / L) ∧
    (∀ a ∈ ([0, 3] : List (Fin 6)), ∀ b ∈ ([1, 2, 4, 5] : List (Fin 6)),
      getLocalStiffness EA EI L a b = 0 ∧ getLocalStiffness EA EI L b a = 0) ∧
    (getLocalStiffness EA EI L).mulVec ![1, 0, 0, 1, 0, 0] = 0 ∧
    (getLocalStiffness EA EI L).mulVec ![0, 1, 0, 0, 1, 0] = 0 ∧
    (getLocalStiffness EA EI L).mulVec ![0, 0, 1, 0, L, 1] = 0 := by
  have h : L ≠ 0 := ne_of_gt hL
  refine ⟨?_, ⟨rfl, rfl, rfl⟩, ⟨rfl, rfl, rfl, rfl, rfl, rfl, rfl, rfl, rfl, rfl⟩, ?_, ?_, ?_, ?_⟩
  · apply Matrix.IsSymm.ext
    intro i j
    fin_cases i <;> fin_cases j <;> rfl
  · intro a ha b hb
    simp only [List.mem_cons, List.mem_singleton, List.not_mem_nil, or_false] at ha hb
    rcases ha with rfl | rfl <;> rcases hb with rfl | rfl | rfl | rfl <;> exact ⟨rfl, rfl⟩
  · rw [getLocalStiffness_mulVec]
    apply vec6_eq_zero <;> simp [vec6_val_five]
  · rw [getLocalStiffness_mulVec]
    apply vec6_eq_zero <;> simp [vec6_val_five]
  · rw [getLocalStiffness_mulVec]
    apply vec6_eq_zero <;> simp [vec6_val_five] <;> field_simp <;> ring

theorem getLocalStiffness_euler_bernoulli_witness :
    (0 : ℚ) < 2 ∧ (getLocalStiffness (3 : ℚ) 5 2).IsSymm ∧
    getLocalStiffness (3 : ℚ) 5 2 0 3 = -(3 / 2) ∧
    getLocalStiffness (3 : ℚ) 5 2 1 1 = 12 * 5 / 2 ^ 3 ∧
    getLocalStiffness (3 : ℚ) 5 2 2 5 = 2 * 5 / 2 ∧
    (getLocalStiffness (3 : ℚ) 5 2).mulVec ![0, 0, 1, 0, 2, 1] = 0 :=
  have h := getLocalStiffness_euler_bernoulli (3 : ℚ) 5 2 (by norm_num)
  ⟨by norm_num, h.1, h.2.1.2.2, h.2.2.1.1, h.2.2.1.2.2.2.2.2.2.2.2.2, h.2.2.2.2.2.2⟩

end StiffnessClaims

/-! ## Accumulation of the distributed loads -/

section LoadLoop

variable {K : Type} [LinearOrderedField K]

theorem shearLoadStep_c0 (env : TGraphicsEnv K) (s : K) (i : Int) (e : DrawnElement K)
    (c : Coefficients K) (ld : TDistributedLoad K) :
    (shearLoadStep env s i e c ld).c0 = c.c0 := by
  unfold shearLoadStep; split_ifs <;> rfl

theorem shearLoadStep_c3 (env : TGraphicsEnv K) (s : K) (i : Int) (e : DrawnElement K)
    (c : Coefficients K) (ld : TDistributedLoad K) :
    (shearLoadStep env s i e c ld).c3 = c.c3 := by
  unfold shearLoadStep; split_ifs <;> rfl

theorem shearLoadStep_c1 (env : TGraphicsEnv K) (s : K) (i : Int) (e : DrawnElement K)
    (c : Coefficients K) (ld : TDistributedLoad K) :
    (shearLoadStep env s i e c ld).c1 = c.c1 + (shearLoadStep env s i e ⟨0, 0, 0, 0⟩ ld).c1 := by
  unfold shearLoadStep; split_ifs <;> simp

theorem shearLoadStep_c2 (env : TGraphicsEnv K) (s : K) (i : Int) (e : DrawnElement K)
    (c : Coefficients K) (ld : TDistributedLoad K) :
    (shearLoadStep env s i e c ld).c2 = c.c2 + (shearLoadStep env s i e ⟨0, 0, 0, 0⟩ ld).c2 := by
  unfold shearLoadStep; split_ifs <;> simp

theorem axialLoadStep_c0 (env : TGraphicsEnv K) (s : K) (i : Int) (e : DrawnElement K)
    (c : Coefficients K) (ld : TDistributedLoad K) :
    (axialLoadStep env s i e c ld).c0 = c.c0 := by
  unfold axialLoadStep; split_ifs <;> rfl

theorem axialLoadStep_c3 (env : TGraphicsEnv K) (s : K) (i : Int) (e : DrawnElement K)
    (c : Coefficients K) (ld : TDistributedLoad K) :
    (axialLoadStep env s i e c ld).c3 = c.c3 := by
  unfold axialLoadStep; split_ifs <;> rfl

theorem axialLoadStep_c1 (env : TGraphicsEnv K) (s : K) (i : Int) (e : DrawnElement K)
    (c : Coefficients K) (ld : TDistributedLoad K) :
    (axialLoadStep env s i e c ld).c1 = c.c1 + (axialLoadStep env s i e ⟨0, 0, 0, 0⟩ ld).c1 := by
  unfold axialLoadStep; split_ifs <;> simp

theorem axialLoadStep_c2 (env : TGraphicsEnv K) (s : K) (i : Int) (e : DrawnElement K)
    (c : Coefficients K) (ld : TDistributedLoad K) :
    (axialLoadStep env s i e c ld).c2 = c.c2 + (axialLoadStep env s i e ⟨0, 0, 0, 0⟩ ld).c2 := by
  unfold axialLoadStep; split_ifs <;> simp

/-- A loop whose body leaves `coefficients[0]` and `coefficients[3]` alone and adds to
`coefficients[1]` and `coefficients[2]` an amount that depends on the load only ends with
the initial values plus the sums of those amounts. -/
theorem foldl_accumulate (step : Coefficients K → TDistributedLoad K → Coefficients K)
    (h0 : ∀ c ld, (step c ld).c0 = c.c0) (h3 : ∀ c ld, (step c ld).c3 = c.c3)
    (h1 : ∀ c ld, (step c ld).c1 = c.c1 + (step ⟨0, 0, 0, 0⟩ ld).c1)
    (h2 : ∀ c ld, (step c ld).c2 = c.c2 + (step ⟨0, 0, 0, 0⟩ ld).c2)
    (loads : List (TDistributedLoad K)) (c : Coefficients K) :
    loads.foldl step c =
      { c0 := c.c0
        c1 := c.c1 + (loads.map fun ld => (step ⟨0, 0, 0, 0⟩ ld).c1).sum
        c2 := c.c2 + (loads.map fun ld => (step ⟨0, 0, 0, 0⟩ ld).c2).sum
        c3 := c.c3 } := by
  induction loads generalizing c with
  | nil => simp
  | cons ld rest ih =>
    simp only [List.foldl_cons, List.map_cons, List.sum_cons]
    rw [ih, h0, h3, h1 c ld, h2 c ld]
    simp [add_assoc]

theorem shearCoefficients_eq (env : TGraphicsEnv K) (s : K) (i : Int) (e : DrawnElement K)
    (loads : List (TDistributedLoad K)) :
    shearCoefficients env s i e loads =
      { c0 := 0
        c1 := (loads.map fun ld => (shearLoadStep env s i e ⟨0, 0, 0, 0⟩ ld).c1).sum
        c2 := (loads.map fun ld => (shearLoadStep env s i e ⟨0, 0, 0, 0⟩ ld).c2).sum
        c3 := s * e.internalLoads 1 } := by
  unfold shearCoefficients
  rw [foldl_accumulate _ (shearLoadStep_c0 env s i e) (shearLoadStep_c3 env s i e)
    (shearLoadStep_c1 env s i e) (shearLoadStep_c2 env s i e)]
  simp

theorem axialCoefficients_eq (env : TGraphicsEnv K) (s : K) (i : Int) (e : DrawnElement K)
    (loads : List (TDistributedLoad K)) :
    axialCoefficients env s i e loads =
      { c0 := 0
        c1 := (loads.map fun ld => (axialLoadStep env s i e ⟨0, 0, 0, 0⟩ ld).c1).sum
        c2 := (loads.map fun ld => (axialLoadStep env s i e ⟨0, 0, 0, 0⟩ ld).c2).sum
        c3 := s * -(e.internalLoads 0) } := by
  unfold axialCoefficients
  rw [foldl_accumulate _ (axialLoadStep_c0 env s i e) (axialLoadStep_c3 env s i e)
    (axialLoadStep_c1 env s i e) (axialLoadStep_c2 env s i e)]
  simp

/-- The loops only look at the loads whose `getElementID()` is `i`. -/
theorem shearCoefficients_filter (env : TGraphicsEnv K) (s : K) (i : Int) (e : DrawnElement K)
    (loads : List (TDistributedLoad K)) :
    shearCoefficients env s i e loads =
      shearCoefficients env s i e (loads.filter fun ld => ld.elementID = i) := by
  unfold shearCoefficients
  generalize ({ c0 := 0, c1 := 0, c2 := 0, c3 := s * e.internalLoads 1 } : Coefficients K) = c
  induction loads generalizing c with
  | nil => rfl
  | cons ld rest ih =>
    by_cases h : ld.elementID = i
    · simp only [List.foldl_cons, List.filter_cons, h, decide_True, if_true]
      exact ih _
    · have hs : shearLoadStep env s i e c ld = c := by simp [shearLoadStep, h]
      simp only [List.foldl_cons, List.filter_cons, h, decide_False, hs]
      exact ih _

theorem axialCoefficients_filter (env : TGraphicsEnv K) (s : K) (i : Int) (e : DrawnElement K)
    (loads : List (TDistributedLoad K)) :
    axialCoefficients env s i e loads =
      axialCoefficients env s i e (loads.filter fun ld => ld.elementID = i) := by
  unfold axialCoefficients
  generalize ({ c0 := 0, c1 := 0, c2 := 0, c3 := s * -(e.internalLoads 0) } : Coefficients K) = c
  induction loads generalizing c with
  | nil => rfl
  | cons ld rest ih =>
    by_cases h : ld.elementID = i
    · simp only [List.foldl_cons, List.filter_cons, h, decide_True, if_true]
      exact ih _
    · have hs : axialLoadStep env s i e c ld = c := by simp [axialLoadStep, h]
      simp only [List.foldl_cons, List.filter_cons, h, decide_False, hs]
      exact ih _

end LoadLoop

/-! ## Shear, axial and bending-moment polynomials -/

section DiagramClaims

variable {K : Type} [LinearOrderedField K]

/-- C6: for every element and every set of distributed loads, the constant of integration
of the moment polynomial is fixed by the end moment at node 0:
`M(0) = loadScale * (row 2 of the internal-load vector)`, whatever the distributed loads
and the end shear are. -/
theorem bendingMoment_at_zero (env : TGraphicsEnv K) (loadScale : K) (i : Int)
    (e : DrawnElement K) (loads : List (TDistributedLoad K)) :
    evalCubic (bendingMomentCoefficients env loadScale i e loads) 0 =
      loadScale * e.internalLoads 2 := by
  rw [evalCubic_zero]
  rfl

end DiagramClaims

theorem shearCoefficients_local_single {K : Type} [LinearOrderedField K]
    (env : TGraphicsEnv K) (s : K) (i : Int) (e : DrawnElement K)
    (loads : List (TDistributedLoad K)) (ld : TDistributedLoad K)
    (hon : (loads.filter fun l => l.elementID = i) = [ld]) (hplane : ld.loadPlane = false) :
    shearCoefficients env s i e loads =
      { c0 := 0
        c1 := s * (ld.node1Load - ld.node0Load) / (e.L * 2)
        c2 := s * ld.node0Load
        c3 := s * e.internalLoads 1 } := by
  have hmem : ld ∈ loads.filter fun l => l.elementID = i := by rw [hon]; simp
  have hid : ld.elementID = i := by simpa using (List.mem_filter.mp hmem).2
  rw [shearCoefficients_filter, hon]
  simp [shearCoefficients, shearLoadStep, hid, hplane]

theorem shearCoefficients_no_load {K : Type} [LinearOrderedField K]
    (env : TGraphicsEnv K) (s : K) (i : Int) (e : DrawnElement K)
    (loads : List (TDistributedLoad K))
    (hnone : (loads.filter fun l => l.elementID = i) = []) :
    shearCoefficients env s i e loads =
      { c0 := 0, c1 := 0, c2 := 0, c3 := s * e.internalLoads 1 } := by
  rw [shearCoefficients_filter, hnone]
  rfl

/-- C5: in `populateShearForceDiagramScene`, for an element of length `L ≠ 0` whose only
distributed load is a local-plane load with end intensities `w0` and `w1`, the shear
polynomial before the orientation test is
`Shear(u) = loadScale * (V0 + w0*u + (w1 - w0)*u^2 / (2L))`, so `Shear(0) = loadScale*V0`
and `d/du Shear(u) = loadScale * (w0 + (w1 - w0)*u/L)`; with no distributed load on the
element it is the constant `loadScale*V0`. -/
theorem shear_polynomial (env : TGraphicsEnv ℝ) (loadScale : ℝ) (i : Int)
    (e : DrawnElement ℝ) (loads : List (TDistributedLoad ℝ)) (hL : e.L ≠ 0) :
    (∀ ld, (loads.filter fun l => l.elementID = i) = [ld] → ld.loadPlane = false →
      (∀ u, evalCubic (shearCoefficients env loadScale i e loads) u =
        loadScale * (e.internalLoads 1 + ld.node0Load * u +
          (ld.node1Load - ld.node0Load) * u ^ 2 / (2 * e.L))) ∧
      evalCubic (shearCoefficients env loadScale i e loads) 0 =
        loadScale * e.internalLoads 1 ∧
      (∀ u, deriv (evalCubic (shearCoefficients env loadScale i e loads)) u =
        loadScale * (ld.node0Load + (ld.node1Load - ld.node0Load) * u / e.L))) ∧
    ((loads.filter fun l => l.elementID = i) = [] →
      ∀ u, evalCubic (shearCoefficients env loadScale i e loads) u =
        loadScale * e.internalLoads 1) := by
  constructor
  · intro ld hon hplane
    rw [shearCoefficients_local_single env loadScale i e loads ld hon hplane]
    refine ⟨?_, ?_, ?_⟩
    · intro u
      simp only [evalCubic]
      field_simp
      ring
    · simp [evalCubic]
    · intro u
      rw [deriv_evalCubic]
      simp only [evalCubicDeriv]
      field_simp
      ring
  · intro hnone u
    rw [shearCoefficients_no_load env loadScale i e loads hnone]
    simp [evalCubic]

theorem shear_polynomial_witness :
    (2 : ℝ) ≠ 0 ∧
    (∀ u : ℝ, evalCubic (shearCoefficients
        ⟨Real.pi, Real.sin, Real.cos, fun _ _ _ _ => 0, fun x0 _ x1 _ => x1 - x0⟩ 10 0
        ⟨0, 0, 2, 0, 2, ![0, 3, 5, 0, -7, 0]⟩ [⟨1, 9, 9, true⟩, ⟨0, 1, 3, false⟩]) u =
      10 * (3 + 1 * u + (3 - 1) * u ^ 2 / (2 * 2))) ∧
    (∀ u : ℝ, evalCubic (shearCoefficients
        ⟨Real.pi, Real.sin, Real.cos, fun _ _ _ _ => 0, fun x0 _ x1 _ => x1 - x0⟩ 10 0
        ⟨0, 0, 2, 0, 2, ![0, 3, 5, 0, -3, -1]⟩ [⟨1, 9, 9, true⟩]) u = 10 * 3) :=
  ⟨by norm_num,
    ((shear_polynomial ⟨Real.pi, Real.sin, Real.cos, fun _ _ _ _ => 0, fun x0 _ x1 _ => x1 - x0⟩
      10 0 ⟨0, 0, 2, 0, 2, ![0, 3, 5, 0, -7, 0]⟩ [⟨1, 9, 9, true⟩, ⟨0, 1, 3, false⟩]
      (by norm_num)).1 ⟨0, 1, 3, false⟩ (by simp [List.filter]) rfl).1,
    (shear_polynomial ⟨Real.pi, Real.sin, Real.cos, fun _ _ _ _ => 0, fun x0 _ x1 _ => x1 - x0⟩
      10 0 ⟨0, 0, 2, 0, 2, ![0, 3, 5, 0, -3, -1]⟩ [⟨1, 9, 9, true⟩]
      (by norm_num)).2 (by simp [List.filter])⟩

theorem axialDiagram_coefficients_cases {K : Type} [LinearOrderedField K]
    (env : TGraphicsEnv K) (s : K) (i : Int) (e : DrawnElement K)
    (loads : List (TDistributedLoad K)) :
    (axialDiagram env s i e loads).coefficients = axialCoefficients env s i e loads ∨
    (axialDiagram env s i e loads).coefficients = (axialCoefficients env s i e loads).flip := by
  unfold axialDiagram orientationFlip
  split_ifs <;> simp

/-- C7 (amended): in `populateAxialForceDiagramScene`, for every element and every set of
distributed loads, the axial-force polynomial has degree at most 2 in `u`: its cubic
coefficient is zero, and, for an element of non-zero length, its quadratic coefficient is
zero whenever the sine of the drawing angle of the element is zero or every global-plane
load on the element has equal end intensities (in particular when the element carries no
global-plane load). -/
theorem axial_degree_le_two {K : Type} [LinearOrderedField K]
    (env : TGraphicsEnv K) (loadScale : K) (i : Int) (e : DrawnElement K)
    (loads : List (TDistributedLoad K)) :
    (axialDiagram env loadScale i e loads).coefficients.c0 = 0 ∧
    (e.L ≠ 0 →
      (env.sin (env.lineAngle e.x0 e.y0 e.x1 e.y1 * env.PI / 180) = 0 ∨
        ∀ ld ∈ loads, ld.elementID = i → ld.loadPlane = true →
          ld.node0Load = ld.node1Load) →
      (axialDiagram env loadScale i e loads).coefficients.c1 = 0) := by
  have h0 : (axialCoefficients env loadScale i e loads).c0 = 0 := by
    rw [axialCoefficients_eq]
  constructor
  · rcases axialDiagram_coefficients_cases env loadScale i e loads with h | h <;>
      rw [h] <;> simp [Coefficients.flip, h0]
  · intro _ hu
    have h1 : (axialCoefficients env loadScale i e loads).c1 = 0 := by
      rw [axialCoefficients_eq]
      apply List.sum_eq_zero
      intro x hx
      obtain ⟨ld, hld, rfl⟩ := List.mem_map.mp hx
      unfold axialLoadStep
      split_ifs with hid hpl
      · rcases hu with hsin | heq
        · simp [hsin]
        · simp [heq ld hld hid hpl]
      · rfl
      · rfl
    rcases axialDiagram_coefficients_cases env loadScale i e loads with h | h <;>
      rw [h] <;> simp [Coefficients.flip, h1]

theorem axial_degree_le_two_witness :
    (2 : ℚ) ≠ 0 ∧
    (∀ ld ∈ ([⟨0, 3, 3, true⟩, ⟨0, 1, 2, false⟩, ⟨1, 0, 5, true⟩] : List (TDistributedLoad ℚ)),
      ld.elementID = 0 → ld.loadPlane = true → ld.node0Load = ld.node1Load) ∧
    (axialDiagram horizontalEnv 10 0 ⟨0, 0, 2, 0, 2, ![4, 0, 0, -4, 0, 0]⟩
      [⟨0, 3, 3, true⟩, ⟨0, 1, 2, false⟩, ⟨1, 0, 5, true⟩]).coefficients.c1 = 0 :=
  have hu : ∀ ld ∈ ([⟨0, 3, 3, true⟩, ⟨0, 1, 2, false⟩, ⟨1, 0, 5, true⟩] :
      List (TDistributedLoad ℚ)),
      ld.elementID = 0 → ld.loadPlane = true → ld.node0Load = ld.node1Load := by
    intro ld hld
    simp only [List.mem_cons, List.mem_singleton, List.not_mem_nil, or_false] at hld
    rcases hld with rfl | rfl | rfl <;> simp
  ⟨by norm_num, hu,
    (axial_degree_le_two horizontalEnv 10 0 ⟨0, 0, 2, 0, 2, ![4, 0, 0, -4, 0, 0]⟩
      [⟨0, 3, 3, true⟩, ⟨0, 1, 2, false⟩, ⟨1, 0, 5, true⟩]).2 (by norm_num) (Or.inr hu)⟩

theorem qt_angle_vertical :
    Complex.arg ⟨(0 : ℝ) - 0, -((-1 : ℝ) - 0)⟩ * 180 / Real.pi = 90 := by
  have h : (⟨(0 : ℝ) - 0, -((-1 : ℝ) - 0)⟩ : ℂ) = Complex.I := by
    apply Complex.ext <;> simp
  rw [h, Complex.arg_I]
  have hpi : Real.pi ≠ 0 := Real.pi_ne_zero
  field_simp
  ring

/-- C7, counterexample: a vertical element of length 1 drawn from (0,0) up to (0,-1) in
scene coordinates (`QLineF::angle` is 90 degrees, its sine is 1), internal loads
`[1, 0, 0, 0, 0, 0]`, `loadScale = 50`, and one global-plane load on it with end
intensities 0 and 2.  The quadratic coefficient of the axial polynomial is
`-50 * (2 - 0) / (1 * 2) = -50`, not 0. -/
theorem axial_quadratic_counterexample :
    (axialDiagram
      (⟨Real.pi, Real.sin, Real.cos,
        fun x0 y0 x1 y1 =>
          if Complex.arg ⟨x1 - x0, -(y1 - y0)⟩ * 180 / Real.pi < 0
          then Complex.arg ⟨x1 - x0, -(y1 - y0)⟩ * 180 / Real.pi + 360
          else Complex.arg ⟨x1 - x0, -(y1 - y0)⟩ * 180 / Real.pi,
        fun x0 y0 x1 y1 => Real.sqrt ((x1 - x0) ^ 2 + (y1 - y0) ^ 2)⟩ : TGraphicsEnv ℝ)
      50 0 ⟨0, 0, 0, -1, 1, ![1, 0, 0, 0, 0, 0]⟩ [⟨0, 0, 2, true⟩]).coefficients.c1 ≠ 0 := by
  have hs : Real.sin (90 * Real.pi / 180) = 1 := by
    have h2 : (90 : ℝ) * Real.pi / 180 = Real.pi / 2 := by ring
    rw [h2, Real.sin_pi_div_two]
  simp only [axialDiagram, orientationFlip, axialCoefficients, axialLoadStep, List.foldl_cons,
    List.foldl_nil, qt_angle_vertical]
  norm_num [hs]

/-! ## Drawing scales (`initializeLoadScales`) -/

section ScaleLemmas

variable {K : Type} [LinearOrderedField K]

theorem updateMax_eq_max (m x : K) : updateMax m x = max m |x| := by
  unfold updateMax
  split_ifs with h
  · exact (max_eq_right (le_of_lt h)).symm
  · exact (max_eq_left (not_lt.mp h)).symm

theorem maxAbs_nonneg (l : List K) : 0 ≤ maxAbs l := by
  induction l with
  | nil => simp [maxAbs]
  | cons x rest ih =>
    have h : maxAbs (x :: rest) = max |x| (maxAbs rest) := rfl
    rw [h]
    exact le_max_of_le_right ih

theorem maxAbs_append (a b : List K) : maxAbs (a ++ b) = max (maxAbs a) (maxAbs b) := by
  induction a with
  | nil =>
    have h : maxAbs ([] : List K) = 0 := rfl
    rw [List.nil_append, h, max_eq_right (maxAbs_nonneg b)]
  | cons x rest ih =>
    have h1 : maxAbs (x :: rest ++ b) = max |x| (maxAbs (rest ++ b)) := rfl
    have h2 : maxAbs (x :: rest) = max |x| (maxAbs rest) := rfl
    rw [h1, h2, ih, max_assoc]

/-- Every magnitude is below `maxAbs`. -/
theorem abs_le_maxAbs (l : List K) (x : K) (hx : x ∈ l) : |x| ≤ maxAbs l := by
  induction l with
  | nil => cases hx
  | cons y rest ih =>
    have h : maxAbs (y :: rest) = max |y| (maxAbs rest) := rfl
    rw [h]
    rcases List.mem_cons.mp hx with rfl | hmem
    · exact le_max_left _ _
    · exact le_max_of_le_right (ih hmem)

/-- The value `maxAbs` is 0 for a list without non-zero entry and else the magnitude of
an entry. -/
theorem maxAbs_attained (l : List K) : maxAbs l = 0 ∨ ∃ x ∈ l, |x| = maxAbs l := by
  induction l with
  | nil => left; rfl
  | cons y rest ih =>
    have h : maxAbs (y :: rest) = max |y| (maxAbs rest) := rfl
    rcases le_total (maxAbs rest) |y| with hle | hle
    · right
      exact ⟨y, List.mem_cons_self _ _, by rw [h, max_eq_left hle]⟩
    · rw [h, max_eq_right hle]
      rcases ih with h0 | ⟨x, hx, hxe⟩
      · left; exact h0
      · right; exact ⟨x, List.mem_cons_of_mem _ hx, hxe⟩

theorem foldl_updateMax (l : List K) (m : K) (hm : 0 ≤ m) :
    l.foldl updateMax m = max m (maxAbs l) := by
  induction l generalizing m with
  | nil =>
    have h : maxAbs ([] : List K) = 0 := rfl
    rw [List.foldl_nil, h, max_eq_left hm]
  | cons x rest ih =>
    have h : maxAbs (x :: rest) = max |x| (maxAbs rest) := rfl
    rw [List.foldl_cons, ih _ (by rw [updateMax_eq_max]; exact le_max_of_le_left hm),
      updateMax_eq_max, h, max_assoc]

/-- A loop that applies `updateMax` to the entries `f a` of each record `a` computes the
maximum magnitude over all those entries. -/
theorem foldl_updateMax_entries {α : Type} (f : α → List K) (l : List α) (m : K)
    (hm : 0 ≤ m) :
    l.foldl (fun m a => (f a).foldl updateMax m) m = max m (maxAbs (l.flatMap f)) := by
  induction l generalizing m with
  | nil =>
    have h : maxAbs ([] : List K) = 0 := rfl
    simp only [List.foldl_nil, List.flatMap_nil, h]
    exact (max_eq_left hm).symm
  | cons a rest ih =>
    have h0 : 0 ≤ (f a).foldl updateMax m := by
      rw [foldl_updateMax _ _ hm]; exact le_max_of_le_left hm
    rw [List.foldl_cons, ih _ h0, foldl_updateMax _ _ hm, List.flatMap_cons, maxAbs_append,
      max_assoc]

theorem maxDistributedLoad_eq (loads : List (TDistributedLoad K)) :
    maxDistributedLoad loads =
      maxAbs (loads.flatMap fun load => [load.node0Load, load.node1Load]) := by
  have h := foldl_updateMax_entries
    (fun load : TDistributedLoad K => [load.node0Load, load.node1Load]) loads 0 le_rfl
  rw [max_eq_right (maxAbs_nonneg _)] at h
  exact h

theorem maxDisplacement_eq (D : List K) : maxDisplacement D = maxAbs D := by
  unfold maxDisplacement
  rw [foldl_updateMax _ _ le_rfl, max_eq_right (maxAbs_nonneg _)]

theorem foldl_maxInternalLoads (l : List (Fin 6 → K)) (t : K × K × K) :
    l.foldl
      (fun m elemMatrix =>
        (updateMax (updateMax m.1 (elemMatrix 0)) (elemMatrix 3),
         updateMax (updateMax m.2.1 (elemMatrix 1)) (elemMatrix 4),
         updateMax (updateMax m.2.2 (elemMatrix 2)) (elemMatrix 5))) t =
    (l.foldl (fun m em => ([em 0, em 3] : List K).foldl updateMax m) t.1,
     l.foldl (fun m em => ([em 1, em 4] : List K).foldl updateMax m) t.2.1,
     l.foldl (fun m em => ([em 2, em 5] : List K).foldl updateMax m) t.2.2) := by
  induction l generalizing t with
  | nil => rfl
  | cons em rest ih =>
    simp only [List.foldl_cons]
    rw [ih]
    rfl

theorem maxInternalLoads_eq (internalLoads : List (Fin 6 → K)) :
    maxInternalLoads internalLoads =
      (maxAbs (internalLoads.flatMap fun em => [em 0, em 3]),
       maxAbs (internalLoads.flatMap fun em => [em 1, em 4]),
       maxAbs (internalLoads.flatMap fun em => [em 2, em 5])) := by
  unfold maxInternalLoads
  rw [foldl_maxInternalLoads]
  have h : ∀ a b : Fin 6,
      internalLoads.foldl (fun m em => ([em a, em b] : List K).foldl updateMax m) 0 =
        maxAbs (internalLoads.flatMap fun em => [em a, em b]) := by
    intro a b
    rw [foldl_updateMax_entries (fun em : Fin 6 → K => [em a, em b]) internalLoads 0 le_rfl,
      max_eq_right (maxAbs_nonneg _)]
  rw [h 0 3, h 1 4, h 2 5]

theorem scaleOfMax_eq (m : K) : scaleOfMax m = some (reciprocalOrZero m) := by
  unfold scaleOfMax reciprocalOrZero checkedDiv
  split_ifs <;> rfl

/-- C14: `initializeLoadScales` reaches no division by zero (it returns a value) and its
five scales are: the reciprocal of the maximum magnitude over both end intensities of
every distributed load; over rows 0 and 3 of every internal-load vector (axial); over
rows 1 and 4 (shear); over rows 2 and 5 (moment); over every entry of `D`; each scale is 0
instead of a reciprocal when its maximum is 0. -/
theorem initializeLoadScales_spec (loads : List (TDistributedLoad K))
    (internalLoads : List (Fin 6 → K)) (D : List K) :
    initializeLoadScales loads internalLoads D =
      some ![reciprocalOrZero
               (maxAbs (loads.flatMap fun load => [load.node0Load, load.node1Load])),
             reciprocalOrZero (maxAbs (internalLoads.flatMap fun em => [em 0, em 3])),
             reciprocalOrZero (maxAbs (internalLoads.flatMap fun em => [em 1, em 4])),
             reciprocalOrZero (maxAbs (internalLoads.flatMap fun em => [em 2, em 5])),
             reciprocalOrZero (maxAbs D)] := by
  unfold initializeLoadScales
  simp only [scaleOfMax_eq, maxDistributedLoad_eq, maxInternalLoads_eq, maxDisplacement_eq]

end ScaleLemmas

/-! ## Applied loads scene (`populateAppliedLoadsScene`) -/

section AppliedLoadsClaims

variable {K : Type} [LinearOrderedField K]

theorem nodalLoadBlock_eq (loadPos : Option (K × K)) (type : LoadType) (c : K)
    (off offNeg : K × K) :
    nodalLoadBlock loadPos type c off offNeg =
      if c ≠ 0 then
        [LoadItem.arrow loadPos type (decide (0 < c)),
         LoadItem.label |c| loadPos (if c < 0 then offNeg else off).1
           (if c < 0 then offNeg else off).2]
      else [] := by
  unfold nodalLoadBlock
  by_cases hc : c = 0
  · simp [hc]
  · rcases lt_or_gt_of_ne hc with hneg | hpos
    · simp [hc, hneg, not_lt.mpr (le_of_lt hneg)]
    · simp [hc, hpos, not_lt.mpr (le_of_lt hpos)]

/-- C19: in `populateAppliedLoadsScene`, for every nodal load, an arrow and a label are
added for a component (Fx, then Fy, then M) if and only if that component is non-zero,
the arrow with orientation true exactly when the component is positive and the label
showing its absolute value; a nodal load whose three components are zero adds nothing. -/
theorem drawNodalLoad_items (coords : List (K × K)) (nodalLoad : TNodalLoad K) :
    (∃ oFx oFy oM : K × K,
      drawNodalLoad coords nodalLoad =
        (if nodalLoad.Fx ≠ 0 then
          [LoadItem.arrow (getNodeCoordinates coords nodalLoad.nodeID) LoadType.Fx
             (decide (0 < nodalLoad.Fx)),
           LoadItem.label |nodalLoad.Fx| (getNodeCoordinates coords nodalLoad.nodeID)
             oFx.1 oFx.2]
         else []) ++
        (if nodalLoad.Fy ≠ 0 then
          [LoadItem.arrow (getNodeCoordinates coords nodalLoad.nodeID) LoadType.Fy
             (decide (0 < nodalLoad.Fy)),
           LoadItem.label |nodalLoad.Fy| (getNodeCoordinates coords nodalLoad.nodeID)
             oFy.1 oFy.2]
         else []) ++
        (if nodalLoad.M ≠ 0 then
          [LoadItem.arrow (getNodeCoordinates coords nodalLoad.nodeID) LoadType.M
             (decide (0 < nodalLoad.M)),
           LoadItem.label |nodalLoad.M| (getNodeCoordinates coords nodalLoad.nodeID)
             oM.1 oM.2]
         else [])) ∧
    drawNodalLoad coords ⟨nodalLoad.nodeID, 0, 0, 0⟩ = [] := by
  constructor
  · refine ⟨if nodalLoad.Fx < 0 then (-1 * -40, -1 * 0) else (-40, 0),
      if nodalLoad.Fy < 0 then (-1 * 0, -1 * 40) else (0, 40),
      if nodalLoad.M < 0 then (40 - 100, 0 - 0) else (40, 0), ?_⟩
    simp only [drawNodalLoad, nodalLoadBlock_eq]
  · simp [drawNodalLoad, nodalLoadBlock]

end AppliedLoadsClaims

/-! ## Node (`TNode`) -/

section NodeClaims

variable {K : Type} [LinearOrderedField K]

/-- C17: for every node, `setX(X)` followed by `getX()` returns `X` and leaves `getY()`
unchanged, `setY(Y)` followed by `getY()` returns `Y` and leaves `getX()` unchanged; a
node built by `TNode(X, Y)` reports `getX() = X` and `getY() = Y`, and `TNode()` reports
`(0, 0)`. -/
theorem TNode_accessors (n : TNode K) (X Y : K) :
    ((n.setX X).getX = X ∧ (n.setX X).getY = n.getY) ∧
    ((n.setY Y).getY = Y ∧ (n.setY Y).getX = n.getX) ∧
    ((TNode.new X Y).getX = X ∧ (TNode.new X Y).getY = Y) ∧
    ((TNode.default : TNode K).getX = 0 ∧ (TNode.default : TNode K).getY = 0) :=
  ⟨⟨rfl, rfl⟩, ⟨rfl, rfl⟩, ⟨rfl, rfl⟩, ⟨rfl, rfl⟩⟩

end NodeClaims

/-! ## Orientation test of the axial and shear builders -/

section OrientationClaims

variable {K : Type} [LinearOrderedField K]

theorem orientationFlip_eq (e : DrawnElement K) (v : DiagramValues K) :
    orientationFlip e v = if orientationTest e then v.negate else v := by
  unfold orientationFlip orientationTest DiagramValues.negate
  by_cases h1 : e.x1 < e.x0 ∨ e.y1 > e.y0 <;> by_cases h2 : e.x1 > e.x0 ∧ e.y1 > e.y0 <;>
    simp [h1, h2]

theorem orientationTest_eq_simplified (e : DrawnElement K) :
    orientationTest e = orientationTestSimplified e := by
  unfold orientationTest orientationTestSimplified
  rw [decide_eq_decide]
  constructor
  · rintro ⟨h | h, hn⟩
    · exact Or.inl h
    · rcases lt_trichotomy e.x1 e.x0 with hlt | heq | hgt
      · exact Or.inl hlt
      · exact Or.inr ⟨heq, h⟩
      · exact absurd ⟨hgt, h⟩ hn
  · rintro (h | ⟨heq, h⟩)
    · exact ⟨Or.inl h, fun hc => absurd hc.1 (not_lt.mpr (le_of_lt h))⟩
    · exact ⟨Or.inr h, fun hc => absurd hc.1 (by rw [heq]; exact lt_irrefl _)⟩

/-- C18 (amended): in the axial and shear diagram builders, the four polynomial
coefficients and both end values of an element are multiplied by -1 exactly when
`(x1 < x0 || y1 > y0) && !(x1 > x0 && y1 > y0)` holds for its drawn end points, and are
left unchanged otherwise. -/
theorem diagram_flip_condition (env : TGraphicsEnv K) (loadScale : K) (i : Int)
    (e : DrawnElement K) (loads : List (TDistributedLoad K)) :
    axialDiagram env loadScale i e loads =
      (if orientationTest e then
        DiagramValues.negate
          ⟨axialCoefficients env loadScale i e loads, e.internalLoads 0, e.internalLoads 3⟩
       else ⟨axialCoefficients env loadScale i e loads, e.internalLoads 0, e.internalLoads 3⟩) ∧
    shearDiagram env loadScale i e loads =
      (if orientationTest e then
        DiagramValues.negate
          ⟨shearCoefficients env loadScale i e loads, e.internalLoads 1, e.internalLoads 4⟩
       else ⟨shearCoefficients env loadScale i e loads, e.internalLoads 1, e.internalLoads 4⟩) :=
  ⟨orientationFlip_eq e _, orientationFlip_eq e _⟩

/-- C20: the nested orientation test of the axial and shear builders,
`(x1 < x0 || y1 > y0) && !(x1 > x0 && y1 > y0)`, is equivalent for all coordinates to
`x1 < x0 || (x1 == x0 && y1 > y0)`; both builders negate their values exactly under this
one predicate; the bending-moment builder applies no sign change: whatever the end points
are, its linear and constant coefficients are `-(loadScale * V0)` and `loadScale * M0`
and its cubic and quadratic ones come from the shear coefficients as they were before any
sign change. -/
theorem orientation_test_simplified (env : TGraphicsEnv K) (loadScale : K) (i : Int)
    (e : DrawnElement K) (loads : List (TDistributedLoad K)) :
    orientationTest e = orientationTestSimplified e ∧
    axialDiagram env loadScale i e loads =
      (if orientationTestSimplified e then
        DiagramValues.negate
          ⟨axialCoefficients env loadScale i e loads, e.internalLoads 0, e.internalLoads 3⟩
       else ⟨axialCoefficients env loadScale i e loads, e.internalLoads 0, e.internalLoads 3⟩) ∧
    shearDiagram env loadScale i e loads =
      (if orientationTestSimplified e then
        DiagramValues.negate
          ⟨shearCoefficients env loadScale i e loads, e.internalLoads 1, e.internalLoads 4⟩
       else ⟨shearCoefficients env loadScale i e loads, e.internalLoads 1, e.internalLoads 4⟩) ∧
    bendingMomentCoefficients env loadScale i e loads =
      { c0 := -(shearCoefficients env loadScale i e loads).c1 / 3
        c1 := -(shearCoefficients env loadScale i e loads).c2 / 2
        c2 := -(loadScale * e.internalLoads 1)
        c3 := loadScale * e.internalLoads 2 } := by
  refine ⟨orientationTest_eq_simplified e, ?_, ?_, ?_⟩
  · rw [← orientationTest_eq_simplified]; exact orientationFlip_eq e _
  · rw [← orientationTest_eq_simplified]; exact orientationFlip_eq e _
  · have h3 : (shearCoefficients env loadScale i e loads).c3 = loadScale * e.internalLoads 1 := by
      rw [shearCoefficients_eq]
    simp only [bendingMomentCoefficients, h3]

end OrientationClaims

/-- C18, counterexample: an element drawn from (0,0) to (1,1), so that `y1 > y0` and the
condition `x1 < x0 || y1 > y0` holds, with internal loads `[2, 1, 0, -2, -1, 0]`, no
distributed load and `loadScale = 50`.  Since also `x1 > x0`, the builders change no
sign: the axial values stay `coefficients[3] = 50 * -2 = -100`, `2` and `-2`, and
the shear values stay `50`, `1` and `-1`. -/
theorem diagram_flip_outer_counterexample :
    orientationTestOuter (⟨0, 0, 1, 1, 1, ![2, 1, 0, -2, -1, 0]⟩ : DrawnElement ℝ) = true ∧
    axialDiagram
      (⟨Real.pi, Real.sin, Real.cos,
        fun x0 y0 x1 y1 =>
          if Complex.arg ⟨x1 - x0, -(y1 - y0)⟩ * 180 / Real.pi < 0
          then Complex.arg ⟨x1 - x0, -(y1 - y0)⟩ * 180 / Real.pi + 360
          else Complex.arg ⟨x1 - x0, -(y1 - y0)⟩ * 180 / Real.pi,
        fun x0 y0 x1 y1 => Real.sqrt ((x1 - x0) ^ 2 + (y1 - y0) ^ 2)⟩ : TGraphicsEnv ℝ)
      50 0 ⟨0, 0, 1, 1, 1, ![2, 1, 0, -2, -1, 0]⟩ [] = ⟨⟨0, 0, 0, -100⟩, 2, -2⟩ ∧
    shearDiagram
      (⟨Real.pi, Real.sin, Real.cos,
        fun x0 y0 x1 y1 =>
          if Complex.arg ⟨x1 - x0, -(y1 - y0)⟩ * 180 / Real.pi < 0
          then Complex.arg ⟨x1 - x0, -(y1 - y0)⟩ * 180 / Real.pi + 360
          else Complex.arg ⟨x1 - x0, -(y1 - y0)⟩ * 180 / Real.pi,
        fun x0 y0 x1 y1 => Real.sqrt ((x1 - x0) ^ 2 + (y1 - y0) ^ 2)⟩ : TGraphicsEnv ℝ)
      50 0 ⟨0, 0, 1, 1, 1, ![2, 1, 0, -2, -1, 0]⟩ [] = ⟨⟨0, 0, 0, 50⟩, 1, -1⟩ := by
  refine ⟨?_, ?_, ?_⟩
  · simp [orientationTestOuter]
  · simp only [axialDiagram, orientationFlip, axialCoefficients, List.foldl_nil]
    norm_num
  · simp only [shearDiagram, orientationFlip, shearCoefficients, List.foldl_nil]
    norm_num

/-! ## Degrees of freedom -/

theorem foldl_assignEquations (l : List Nat) (tbl : List (Nat × Nat × Nat)) (next : Nat) :
    l.foldl (fun st _ => (st.1 ++ [(st.2, st.2 + 1, st.2 + 2)], st.2 + 3)) (tbl, next) =
      (tbl ++ (List.range l.length).map
          (fun k => (next + 3 * k, next + 3 * k + 1, next + 3 * k + 2)),
        next + 3 * l.length) := by
  induction l generalizing tbl next with
  | nil => simp
  | cons x rest ih =>
    simp only [List.foldl_cons, List.length_cons]
    rw [ih, List.range_succ_eq_map, List.map_cons, List.map_map]
    simp only [List.append_assoc, List.singleton_append, Nat.mul_zero, Nat.add_zero]
    refine Prod.ext ?_ (by simp only; omega)
    simp only
    congr 2
    apply List.map_congr_left
    intro k _
    simp only [Function.comp, Nat.succ_eq_add_one]
    refine Prod.ext (by simp only; omega) (Prod.ext (by simp only; omega) (by simp only; omega))

theorem assignEquations_eq (nodeCount : Nat) :
    assignEquations nodeCount =
      ((List.range nodeCount).map (fun k => (3 * k, 3 * k + 1, 3 * k + 2)), 3 * nodeCount) := by
  unfold assignEquations
  rw [foldl_assignEquations]
  simp

theorem nodeEquations_eq (nodeCount i : Nat) (hi : i < nodeCount) :
    nodeEquations nodeCount i = some (3 * i, 3 * i + 1, 3 * i + 2) := by
  unfold nodeEquations
  rw [assignEquations_eq]
  simp [hi]

theorem getEquations_eq (nodeCount node0ID node1ID : Nat) (h0 : node0ID < nodeCount)
    (h1 : node1ID < nodeCount) :
    getEquations nodeCount node0ID node1ID =
      some ![3 * node0ID, 3 * node0ID + 1, 3 * node0ID + 2,
             3 * node1ID, 3 * node1ID + 1, 3 * node1ID + 2] := by
  unfold getEquations
  rw [nodeEquations_eq _ _ h0, nodeEquations_eq _ _ h1]

/-- C11: for every structure, node `i` (in increasing node order) owns the three global
equations `3i`, `3i+1`, `3i+2` for Fx, Fy, M, the total system size is `3 * nodeCount`,
the equations of an element are those of its node 0 followed by those of its node 1, every
one of them is below `3 * nodeCount`, and so the gather of `populateDisplacement` from a
vector `D` of that length reads inside `D`. -/
theorem equations_numbering (nodeCount node0ID node1ID : Nat) (h0 : node0ID < nodeCount)
    (h1 : node1ID < nodeCount) :
    (∀ i, i < nodeCount → nodeEquations nodeCount i = some (3 * i, 3 * i + 1, 3 * i + 2)) ∧
    systemSize nodeCount = 3 * nodeCount ∧
    getEquations nodeCount node0ID node1ID =
      some ![3 * node0ID, 3 * node0ID + 1, 3 * node0ID + 2,
             3 * node1ID, 3 * node1ID + 1, 3 * node1ID + 2] ∧
    (∀ eq, getEquations nodeCount node0ID node1ID = some eq →
      (∀ k, eq k < 3 * nodeCount) ∧
      ∀ (K : Type) (D : List K), D.length = 3 * nodeCount →
        (gatherDisplacements D eq).isSome = true) := by
  refine ⟨fun i hi => nodeEquations_eq nodeCount i hi, ?_, getEquations_eq _ _ _ h0 h1, ?_⟩
  · unfold systemSize; rw [assignEquations_eq]
  · intro eq heq
    rw [getEquations_eq _ _ _ h0 h1] at heq
    have heq2 := (Option.some.inj heq).symm
    subst heq2
    have hk : ∀ k : Fin 6, (![3 * node0ID, 3 * node0ID + 1, 3 * node0ID + 2,
        3 * node1ID, 3 * node1ID + 1, 3 * node1ID + 2] : Fin 6 → Nat) k < 3 * nodeCount := by
      intro k
      fin_cases k
      · show 3 * node0ID < 3 * nodeCount; omega
      · show 3 * node0ID + 1 < 3 * nodeCount; omega
      · show 3 * node0ID + 2 < 3 * nodeCount; omega
      · show 3 * node1ID < 3 * nodeCount; omega
      · show 3 * node1ID + 1 < 3 * nodeCount; omega
      · show 3 * node1ID + 2 < 3 * nodeCount; omega
    refine ⟨hk, ?_⟩
    intro K D hD
    unfold gatherDisplacements
    have hget : ∀ k : Fin 6, ∃ d, D.get? ((![3 * node0ID, 3 * node0ID + 1, 3 * node0ID + 2,
        3 * node1ID, 3 * node1ID + 1, 3 * node1ID + 2] : Fin 6 → Nat) k) = some d := by
      intro k
      have hlt := hk k
      rw [← hD] at hlt
      exact ⟨D.get ⟨_, hlt⟩, List.get?_eq_get hlt⟩
    obtain ⟨d0, e0⟩ := hget 0
    obtain ⟨d1, e1⟩ := hget 1
    obtain ⟨d2, e2⟩ := hget 2
    obtain ⟨d3, e3⟩ := hget 3
    obtain ⟨d4, e4⟩ := hget 4
    obtain ⟨d5, e5⟩ := hget 5
    rw [e0, e1, e2, e3, e4, e5]
    rfl

theorem equations_numbering_witness :
    (0 : Nat) < 3 ∧ (2 : Nat) < 3 ∧
    nodeEquations 3 1 = some (3, 4, 5) ∧
    systemSize 3 = 9 ∧
    getEquations 3 0 2 = some ![0, 1, 2, 6, 7, 8] :=
  have h := equations_numbering 3 0 2 (by decide) (by decide)
  ⟨by decide, by decide, h.1 1 (by decide), h.2.1, h.2.2.1⟩

/-! ## Element transformation (`getT`) -/

section TransformationClaims

variable {K : Type} [LinearOrderedField K]

theorem rotationMatrix_eq_blocks (c s : K) :
    rotationMatrix c s = Matrix.reindex finSumFinEquiv finSumFinEquiv
      (Matrix.fromBlocks (rotationBlock c s) 0 0 (rotationBlock c s)) := by
  ext i j
  fin_cases i <;> fin_cases j <;> rfl

theorem rotationBlock_orthogonal (c s : K) (h : c * c + s * s = 1) :
    (rotationBlock c s).transpose * rotationBlock c s = 1 ∧
    rotationBlock c s * (rotationBlock c s).transpose = 1 := by
  constructor
  · ext i j
    simp only [Matrix.mul_apply, Matrix.transpose_apply, Fin.sum_univ_three]
    fin_cases i <;> fin_cases j <;> simp [rotationBlock] <;>
      first | ring1 | linear_combination h
  · ext i j
    simp only [Matrix.mul_apply, Matrix.transpose_apply, Fin.sum_univ_three]
    fin_cases i <;> fin_cases j <;> simp [rotationBlock] <;>
      first | ring1 | linear_combination h

theorem rotationMatrix_orthogonal (c s : K) (h : c * c + s * s = 1) :
    (rotationMatrix c s).transpose * rotationMatrix c s = 1 ∧
    rotationMatrix c s * (rotationMatrix c s).transpose = 1 := by
  obtain ⟨h1, h2⟩ := rotationBlock_orthogonal c s h
  rw [rotationMatrix_eq_blocks]
  constructor
  · simp [Matrix.fromBlocks_transpose, Matrix.fromBlocks_multiply, h1, Matrix.fromBlocks_one]
  · simp [Matrix.fromBlocks_transpose, Matrix.fromBlocks_multiply, h2, Matrix.fromBlocks_one]

/-- The cosine and sine of the orientation angle of an element with distinct end nodes
satisfy `c^2 + s^2 = 1`. -/
theorem direction_cosines (x0 y0 x1 y1 L : K) (hne : (x0, y0) ≠ (x1, y1)) (hL : 0 ≤ L)
    (hdist : L * L = (x1 - x0) * (x1 - x0) + (y1 - y0) * (y1 - y0)) :
    0 < L ∧
    (x1 - x0) / L * ((x1 - x0) / L) + (y1 - y0) / L * ((y1 - y0) / L) = 1 := by
  have hpos : 0 < L := by
    rcases eq_or_lt_of_le hL with h0 | h0
    · exfalso
      rw [← h0] at hdist
      have hx : (x1 - x0) * (x1 - x0) = 0 := by
        nlinarith [mul_self_nonneg (x1 - x0), mul_self_nonneg (y1 - y0)]
      have hy : (y1 - y0) * (y1 - y0) = 0 := by
        nlinarith [mul_self_nonneg (x1 - x0), mul_self_nonneg (y1 - y0)]
      have hx0 : x1 - x0 = 0 := mul_self_eq_zero.mp hx
      have hy0 : y1 - y0 = 0 := mul_self_eq_zero.mp hy
      apply hne
      rw [Prod.mk.injEq]
      exact ⟨(sub_eq_zero.mp hx0).symm, (sub_eq_zero.mp hy0).symm⟩
    · exact h0
  refine ⟨hpos, ?_⟩
  have hLne : L ≠ 0 := ne_of_gt hpos
  field_simp
  linear_combination -hdist

/-- C12: for every element with distinct end nodes (so that its length `L`, the distance
of the end nodes, is positive), the 6x6 transformation matrix `T` of `getT` is
block-diagonal with the same 3x3 rotation block for both end nodes, and it is orthogonal:
`T^t * T = T * T^t = I`, so `T^-1 = T^t`. -/
theorem getT_orthogonal (x0 y0 x1 y1 L : K) (hne : (x0, y0) ≠ (x1, y1)) (hL : 0 ≤ L)
    (hdist : L * L = (x1 - x0) * (x1 - x0) + (y1 - y0) * (y1 - y0)) :
    getT x0 y0 x1 y1 L = Matrix.reindex finSumFinEquiv finSumFinEquiv
      (Matrix.fromBlocks (rotationBlock ((x1 - x0) / L) ((y1 - y0) / L)) 0 0
        (rotationBlock ((x1 - x0) / L) ((y1 - y0) / L))) ∧
    (getT x0 y0 x1 y1 L).transpose * getT x0 y0 x1 y1 L = 1 ∧
    getT x0 y0 x1 y1 L * (getT x0 y0 x1 y1 L).transpose = 1 ∧
    (getT x0 y0 x1 y1 L)⁻¹ = (getT x0 y0 x1 y1 L).transpose := by
  have hcs := (direction_cosines x0 y0 x1 y1 L hne hL hdist).2
  have ho := rotationMatrix_orthogonal _ _ hcs
  exact ⟨rotationMatrix_eq_blocks _ _, ho.1, ho.2, Matrix.inv_eq_left_inv ho.1⟩

theorem getT_orthogonal_witness :
    ((0 : ℚ), (0 : ℚ)) ≠ (3, 4) ∧ (0 : ℚ) ≤ 5 ∧
    (5 : ℚ) * 5 = (3 - 0) * (3 - 0) + (4 - 0) * (4 - 0) ∧
    (getT (0 : ℚ) 0 3 4 5).transpose * getT (0 : ℚ) 0 3 4 5 = 1 ∧
    getT (0 : ℚ) 0 3 4 5 * (getT (0 : ℚ) 0 3 4 5).transpose = 1 :=
  have hne : ((0 : ℚ), (0 : ℚ)) ≠ (3, 4) := by
    intro hc
    have h1 := congrArg Prod.fst hc
    norm_num at h1
  have h := getT_orthogonal (0 : ℚ) 0 3 4 5 hne (by norm_num) (by norm_num)
  ⟨hne, by norm_num, by norm_num, h.2.1, h.2.2.1⟩

end TransformationClaims

/-! ## Projection of the distributed loads (`loadPlane`) -/

section LoadPlaneClaims

variable {K : Type} [LinearOrderedField K]

end LoadPlaneClaims

section SolveClaims

variable {K : Type} [LinearOrderedField K]

theorem rotationMatrix_mulVec (c s : K) (v : Fin 6 → K) :
    (rotationMatrix c s).mulVec v =
      ![c * v 0 + s * v 1, -s * v 0 + c * v 1, v 2,
        c * v 3 + s * v 4, -s * v 3 + c * v 4, v 5] := by
  funext i
  simp only [Matrix.mulVec, Matrix.dotProduct, Fin.sum_univ_six]
  fin_cases i
  · show c * v 0 + s * v 1 + 0 * v 2 + 0 * v 3 + 0 * v 4 + 0 * v 5 = c * v 0 + s * v 1
    simp
  · show -s * v 0 + c * v 1 + 0 * v 2 + 0 * v 3 + 0 * v 4 + 0 * v 5 = -s * v 0 + c * v 1
    simp
  · show 0 * v 0 + 0 * v 1 + 1 * v 2 + 0 * v 3 + 0 * v 4 + 0 * v 5 = v 2
    simp
  · show 0 * v 0 + 0 * v 1 + 0 * v 2 + c * v 3 + s * v 4 + 0 * v 5 = c * v 3 + s * v 4
    simp
  · show 0 * v 0 + 0 * v 1 + 0 * v 2 + -s * v 3 + c * v 4 + 0 * v 5 = -s * v 3 + c * v 4
    simp
  · show 0 * v 0 + 0 * v 1 + 0 * v 2 + 0 * v 3 + 0 * v 4 + 1 * v 5 = v 5
    simp

theorem rotationMatrix_mulVec_lit (c s g0 g1 g2 g3 g4 g5 : K) :
    (rotationMatrix c s).mulVec ![g0, g1, g2, g3, g4, g5] =
      ![c * g0 + s * g1, -s * g0 + c * g1, g2, c * g3 + s * g4, -s * g3 + c * g4, g5] := by
  rw [rotationMatrix_mulVec]
  rfl

theorem getLocalStiffness_mulVec_lit (EA EI L v0 v1 v2 v3 v4 v5 : K) :
    (getLocalStiffness EA EI L).mulVec ![v0, v1, v2, v3, v4, v5] =
      ![EA / L * v0 + -(EA / L) * v3,
        12 * EI / L ^ 3 * v1 + 6 * EI / L ^ 2 * v2 + -(12 * EI / L ^ 3) * v4 +
          6 * EI / L ^ 2 * v5,
        6 * EI / L ^ 2 * v1 + 4 * EI / L * v2 + -(6 * EI / L ^ 2) * v4 + 2 * EI / L * v5,
        -(EA / L) * v0 + EA / L * v3,
        -(12 * EI / L ^ 3) * v1 + -(6 * EI / L ^ 2) * v2 + 12 * EI / L ^ 3 * v4 +
          -(6 * EI / L ^ 2) * v5,
        6 * EI / L ^ 2 * v1 + 2 * EI / L * v2 + -(6 * EI / L ^ 2) * v4 + 4 * EI / L * v5] := by
  rw [getLocalStiffness_mulVec]
  rfl

/-- A rigid-body motion of the two end nodes produces no local end forces. -/
theorem localStiffness_rigid (EA EI L x0 y0 x1 y1 a b w : K) (hL : L ≠ 0)
    (hdist : L * L = (x1 - x0) * (x1 - x0) + (y1 - y0) * (y1 - y0)) :
    (getLocalStiffness EA EI L).mulVec
      ((getT x0 y0 x1 y1 L).mulVec
        ![a - w * y0, b + w * x0, w, a - w * y1, b + w * x1, w]) = 0 := by
  have h2 : (x1 - x0) / L * (x1 - x0) + (y1 - y0) / L * (y1 - y0) = L := by
    field_simp
    linear_combination -hdist
  have hp : 12 * EI / L ^ 3 * L = 2 * (6 * EI / L ^ 2) := by
    field_simp
    ring
  have hq : 6 * EI / L ^ 2 * L = 4 * EI / L + 2 * EI / L := by
    field_simp
    ring
  unfold getT
  rw [rotationMatrix_mulVec_lit, getLocalStiffness_mulVec_lit]
  apply vec6_eq_zero
  · ring1
  · linear_combination (-(12 * EI / L ^ 3) * w) * h2 + (-w) * hp
  · linear_combination (-(6 * EI / L ^ 2) * w) * h2 + (-w) * hq
  · ring1
  · linear_combination (12 * EI / L ^ 3 * w) * h2 + w * hp
  · linear_combination (-(6 * EI / L ^ 2) * w) * h2 + (-w) * hq

theorem gatherMatrix_mulVec (S : TStructure K) (e : TElement K) (r : Nat → K) (a : Fin 6)
    (ha : e.equations a < S.size) :
    (gatherMatrix S e).mulVec (fun I => r I.val) a = r (e.equations a) := by
  simp only [Matrix.mulVec, Matrix.dotProduct, gatherMatrix, Matrix.of_apply]
  rw [Finset.sum_eq_single (⟨e.equations a, ha⟩ : Fin S.size)]
  · simp
  · intro J _ hJ
    have hne : e.equations a ≠ J.val := fun hc => hJ (Fin.ext hc.symm)
    simp [hne]
  · intro hc
    exact absurd (Finset.mem_univ _) hc

theorem rigidDisplacement_values (S : TStructure K) (m : Fin 3 → K) (i : Nat) :
    rigidDisplacement S m (3 * i) = m 0 - m 2 * S.nodeY i ∧
    rigidDisplacement S m (3 * i + 1) = m 1 + m 2 * S.nodeX i ∧
    rigidDisplacement S m (3 * i + 2) = m 2 := by
  have e0 : (3 * i) % 3 = 0 := by omega
  have e1 : (3 * i + 1) % 3 = 1 := by omega
  have e2 : (3 * i + 2) % 3 = 2 := by omega
  have d0 : (3 * i) / 3 = i := by omega
  have d1 : (3 * i + 1) / 3 = i := by omega
  refine ⟨?_, ?_, ?_⟩
  · simp [rigidDisplacement, e0, d0]
  · simp [rigidDisplacement, e1, d1]
  · simp [rigidDisplacement, e2]

theorem getEquations_eq_equations (nodeCount : Nat) (e : TElement K)
    (h0 : e.node0ID < nodeCount) (h1 : e.node1ID < nodeCount) :
    getEquations nodeCount e.node0ID e.node1ID = some e.equations :=
  getEquations_eq nodeCount e.node0ID e.node1ID h0 h1

theorem equations_lt (S : TStructure K) (e : TElement K) (h0 : e.node0ID < S.nodes.length)
    (h1 : e.node1ID < S.nodes.length) (a : Fin 6) : e.equations a < S.size := by
  unfold TStructure.size
  fin_cases a
  · show 3 * e.node0ID < _; omega
  · show 3 * e.node0ID + 1 < _; omega
  · show 3 * e.node0ID + 2 < _; omega
  · show 3 * e.node1ID < _; omega
  · show 3 * e.node1ID + 1 < _; omega
  · show 3 * e.node1ID + 2 < _; omega

theorem gatherMatrix_rigid (S : TStructure K) (e : TElement K) (m : Fin 3 → K)
    (h0 : e.node0ID < S.nodes.length) (h1 : e.node1ID < S.nodes.length) :
    (gatherMatrix S e).mulVec (fun I => rigidDisplacement S m I.val) =
      ![m 0 - m 2 * S.nodeY e.node0ID, m 1 + m 2 * S.nodeX e.node0ID, m 2,
        m 0 - m 2 * S.nodeY e.node1ID, m 1 + m 2 * S.nodeX e.node1ID, m 2] := by
  funext a
  rw [gatherMatrix_mulVec S e (rigidDisplacement S m) a (equations_lt S e h0 h1 a)]
  obtain ⟨r0, r1, r2⟩ := rigidDisplacement_values S m e.node0ID
  obtain ⟨r3, r4, r5⟩ := rigidDisplacement_values S m e.node1ID
  fin_cases a
  · exact r0
  · exact r1
  · exact r2
  · exact r3
  · exact r4
  · exact r5

/-- The scattered stiffness of a valid element annihilates every rigid-body motion. -/
theorem scatterElement_rigid (S : TStructure K) (e : TElement K) (m : Fin 3 → K)
    (h0 : e.node0ID < S.nodes.length) (h1 : e.node1ID < S.nodes.length) (hL : e.L ≠ 0)
    (hdist : e.L * e.L =
      (S.nodeX e.node1ID - S.nodeX e.node0ID) * (S.nodeX e.node1ID - S.nodeX e.node0ID) +
      (S.nodeY e.node1ID - S.nodeY e.node0ID) * (S.nodeY e.node1ID - S.nodeY e.node0ID)) :
    (scatterElement S e).mulVec (fun I => rigidDisplacement S m I.val) = 0 := by
  unfold scatterElement getGlobalStiffness
  rw [← Matrix.mulVec_mulVec, gatherMatrix_rigid S e m h0 h1, ← Matrix.mulVec_mulVec,
    ← Matrix.mulVec_mulVec, ← Matrix.mulVec_mulVec,
    localStiffness_rigid _ _ _ _ _ _ _ _ _ _ hL hdist]
  simp

theorem sum_mulVec_eq_zero {n : Type} [Fintype n] (Ms : List (Matrix n n K)) (v : n → K)
    (h : ∀ M ∈ Ms, M.mulVec v = 0) : Ms.sum.mulVec v = 0 := by
  induction Ms with
  | nil => simp
  | cons M rest ih =>
    rw [List.sum_cons, Matrix.add_mulVec, h M (List.mem_cons_self _ _),
      ih (fun M2 hM2 => h M2 (List.mem_cons_of_mem _ hM2)), add_zero]

theorem assembleK_rigid (S : TStructure K) (m : Fin 3 → K) (hgeom : ValidGeometry S) :
    (assembleK S).mulVec (fun I => rigidDisplacement S m I.val) = 0 := by
  unfold assembleK
  apply sum_mulVec_eq_zero
  intro M hM
  obtain ⟨e, he, rfl⟩ := List.mem_map.mp hM
  obtain ⟨h0, h1, hL, hdist⟩ := hgeom e he
  exact scatterElement_rigid S e m h0 h1 (ne_of_gt hL) hdist

theorem exists_kernel_of_rank_lt {r : Nat} (A : Matrix (Fin r) (Fin 3) K) (h : A.rank < 3) :
    ∃ m : Fin 3 → K, m ≠ 0 ∧ A.mulVec m = 0 := by
  have hsum := LinearMap.finrank_range_add_finrank_ker A.mulVecLin
  rw [Module.finrank_fin_fun] at hsum
  have hker : 0 < Module.finrank K (LinearMap.ker A.mulVecLin) := by
    have hr : Module.finrank K (LinearMap.range A.mulVecLin) < 3 := h
    omega
  obtain ⟨x, hx⟩ := Module.finrank_pos_iff_exists_ne_zero.mp hker
  refine ⟨x.val, ?_, ?_⟩
  · intro hc
    exact hx (Subtype.ext hc)
  · have := x.property
    rwa [LinearMap.mem_ker, Matrix.mulVecLin_apply] at this

theorem restraintRow_dot (S : TStructure K) (m : Fin 3 → K)
    (hm : (restraintMatrix S).mulVec m = 0) (row : Fin 3 → K) (hrow : row ∈ restraintRows S) :
    row 0 * m 0 + row 1 * m 1 + row 2 * m 2 = 0 := by
  obtain ⟨r, hr⟩ := List.mem_iff_get.mp hrow
  have h := congrFun hm r
  simp only [Matrix.mulVec, Matrix.dotProduct, Fin.sum_univ_three, restraintMatrix,
    Matrix.of_apply, Pi.zero_apply] at h
  rw [hr] at h
  exact h

theorem rigidDisplacement_restrained (S : TStructure K) (m : Fin 3 → K)
    (hm : (restraintMatrix S).mulVec m = 0) (d : Nat) (hd : isRestrained S d = true) :
    rigidDisplacement S m d = 0 := by
  unfold isRestrained at hd
  obtain ⟨s, hs, hflag⟩ := List.any_eq_true.mp hd
  rw [Bool.and_eq_true, decide_eq_true_eq] at hflag
  obtain ⟨hid, hk⟩ := hflag
  have hnat : s.nodeID.toNat = d / 3 := by rw [hid]; exact Int.toNat_ofNat _
  have hmem : ∀ row : Fin 3 → K,
      row ∈ ((if s.restrictsFx then [![1, 0, -(S.nodeY s.nodeID.toNat)]] else []) ++
        (if s.restrictsFy then [![0, 1, S.nodeX s.nodeID.toNat]] else []) ++
        (if s.restrictsM then [![0, 0, 1]] else []) : List (Fin 3 → K)) →
      row ∈ restraintRows S := by
    intro row hrow
    unfold restraintRows
    exact List.mem_flatMap.mpr ⟨s, hs, hrow⟩
  unfold rigidDisplacement
  by_cases h0 : d % 3 = 0
  · rw [if_pos h0] at hk ⊢
    have h := restraintRow_dot S m hm ![1, 0, -(S.nodeY s.nodeID.toNat)]
      (hmem _ (by simp [hk]))
    rw [hnat] at h
    simp at h
    linear_combination h
  · by_cases h1 : d % 3 = 1
    · rw [if_neg h0, if_pos h1] at hk ⊢
      have h := restraintRow_dot S m hm ![0, 1, S.nodeX s.nodeID.toNat]
        (hmem _ (by simp [hk]))
      rw [hnat] at h
      simp at h
      linear_combination h
    · rw [if_neg h0, if_neg h1] at hk ⊢
      have h := restraintRow_dot S m hm ![0, 0, 1] (hmem _ (by simp [hk]))
      simp at h
      exact h

theorem rigidDisplacement_free_ne_zero (S : TStructure K) (m : Fin 3 → K) (hm0 : m ≠ 0)
    (hm : (restraintMatrix S).mulVec m = 0) (hnodes : 0 < S.nodes.length) :
    ∃ I : {I : Fin S.size // isRestrained S I.val = false},
      rigidDisplacement S m I.val.val ≠ 0 := by
  have hex : ∃ d, d < 3 ∧ rigidDisplacement S m d ≠ 0 := by
    by_contra hc
    push_neg at hc
    have r0 := hc 0 (by norm_num)
    have r1 := hc 1 (by norm_num)
    have r2 := hc 2 (by norm_num)
    simp [rigidDisplacement] at r0 r1 r2
    apply hm0
    funext k
    fin_cases k
    · show m 0 = 0
      rw [r2] at r0; simpa using r0
    · show m 1 = 0
      rw [r2] at r1; simpa using r1
    · exact r2
  obtain ⟨d, hd3, hd⟩ := hex
  have hlt : d < S.size := by unfold TStructure.size; omega
  have hfree : isRestrained S d = false := by
    by_contra hc
    rw [Bool.not_eq_false] at hc
    exact hd (rigidDisplacement_restrained S m hm d hc)
  exact ⟨⟨⟨d, hlt⟩, hfree⟩, hd⟩

theorem reducedStiffness_det_eq_zero (S : TStructure K) (hnodes : 0 < S.nodes.length)
    (hgeom : ValidGeometry S) (hrank : (restraintMatrix S).rank < 3) :
    (reducedStiffness S).det = 0 := by
  obtain ⟨m, hm0, hm⟩ := exists_kernel_of_rank_lt (restraintMatrix S) hrank
  obtain ⟨I0, hI0⟩ := rigidDisplacement_free_ne_zero S m hm0 hm hnodes
  apply Matrix.exists_mulVec_eq_zero_iff.mp
  refine ⟨fun I => rigidDisplacement S m I.val.val, ?_, ?_⟩
  · intro hc
    exact hI0 (congrFun hc I0)
  · funext I
    have hK := congrFun (assembleK_rigid S m hgeom) I.val
    simp only [Matrix.mulVec, Matrix.dotProduct, Pi.zero_apply] at hK ⊢
    simp only [reducedStiffness, Matrix.submatrix_apply]
    rw [← hK]
    have hfilter : ∑ J ∈ Finset.univ.filter (fun J : Fin S.size => isRestrained S J.val = false),
        assembleK S I.val J * rigidDisplacement S m J.val =
        ∑ J : Fin S.size, assembleK S I.val J * rigidDisplacement S m J.val := by
      apply Finset.sum_filter_of_ne
      intro J _ hJ
      by_contra hc
      rw [Bool.not_eq_false] at hc
      exact hJ (by rw [rigidDisplacement_restrained S m hm J.val hc, mul_zero])
    rw [← hfilter]
    exact (Finset.sum_subtype (Finset.univ.filter
      (fun J : Fin S.size => isRestrained S J.val = false)) (by simp)
      (fun J : Fin S.size => assembleK S I.val J * rigidDisplacement S m J.val)).symm

/-- C13: for a structure with at least one node and a valid geometry whose supports
restrain fewer than 3 independent components (the rank of the restraint rows is below 3),
`solve` reports `UnstableStructure` and returns no displacement vector, whatever the loads
are, so the caller stores no displacement vector for it. -/
theorem solve_unstable (S : TStructure K) (F : Fin S.size → K)
    (hnodes : 0 < S.nodes.length) (hgeom : ValidGeometry S)
    (hrank : (restraintMatrix S).rank < 3) :
    solve S F = Except.error SolveError.UnstableStructure ∧
    (∀ D, solve S F ≠ Except.ok D) ∧
    storeDisplacements S F = Except.error SolveError.UnstableStructure := by
  have hdet := reducedStiffness_det_eq_zero S hnodes hgeom hrank
  have hsolve : solve S F = Except.error SolveError.UnstableStructure := by
    unfold solve
    rw [if_pos hdet]
  refine ⟨hsolve, ?_, ?_⟩
  · intro D hD
    rw [hsolve] at hD
    cases hD
  · unfold storeDisplacements
    rw [hsolve]

end SolveClaims

theorem solve_unstable_witness :
    0 < (⟨[TNode.new 0 0, TNode.new 2 0], [⟨0, 1, 1, 1, 2⟩],
          [⟨0, false, true, false⟩, ⟨1, false, true, false⟩]⟩ : TStructure ℚ).nodes.length ∧
    ValidGeometry (⟨[TNode.new 0 0, TNode.new 2 0], [⟨0, 1, 1, 1, 2⟩],
          [⟨0, false, true, false⟩, ⟨1, false, true, false⟩]⟩ : TStructure ℚ) ∧
    (restraintMatrix (⟨[TNode.new 0 0, TNode.new 2 0], [⟨0, 1, 1, 1, 2⟩],
          [⟨0, false, true, false⟩, ⟨1, false, true, false⟩]⟩ : TStructure ℚ)).rank < 3 ∧
    storeDisplacements (⟨[TNode.new 0 0, TNode.new 2 0], [⟨0, 1, 1, 1, 2⟩],
          [⟨0, false, true, false⟩, ⟨1, false, true, false⟩]⟩ : TStructure ℚ)
        (fun I => if I.val = 4 then 3 else 0) =
      Except.error SolveError.UnstableStructure := by
  have hn : 0 < (⟨[TNode.new 0 0, TNode.new 2 0], [⟨0, 1, 1, 1, 2⟩],
      [⟨0, false, true, false⟩, ⟨1, false, true, false⟩]⟩ : TStructure ℚ).nodes.length := by
    decide
  have hg : ValidGeometry (⟨[TNode.new 0 0, TNode.new 2 0], [⟨0, 1, 1, 1, 2⟩],
      [⟨0, false, true, false⟩, ⟨1, false, true, false⟩]⟩ : TStructure ℚ) := by
    intro e he
    simp only [List.mem_singleton] at he
    subst he
    refine ⟨by decide, by decide, by norm_num, ?_⟩
    simp [TStructure.nodeX, TStructure.nodeY, TNode.getX, TNode.getY, TNode.new]
  have hr : (restraintMatrix (⟨[TNode.new 0 0, TNode.new 2 0], [⟨0, 1, 1, 1, 2⟩],
      [⟨0, false, true, false⟩, ⟨1, false, true, false⟩]⟩ : TStructure ℚ)).rank < 3 := by
    refine lt_of_le_of_lt (Matrix.rank_le_card_height _) ?_
    rw [Fintype.card_fin]
    simp [restraintRows]
  exact ⟨hn, hg, hr, (solve_unstable _ _ hn hg hr).2.2⟩

/-! ## Labels of the axial and shear diagrams -/

section LabelClaims
variable {K : Type} [LinearOrderedField K]

end LabelClaims

/-! ## Bounds of the drawing scales -/

section ScaleBoundClaims
variable {K : Type} [LinearOrderedField K]

theorem reciprocalOrZero_mul_le (l : List K) (x : K) (hx : x ∈ l) :
    reciprocalOrZero (maxAbs l) * |x| ≤ 1 := by
  unfold reciprocalOrZero
  split_ifs with h
  · simp
  · have hpos : 0 < maxAbs l := lt_of_le_of_ne (maxAbs_nonneg l) (Ne.symm h)
    rw [one_div, inv_mul_le_iff₀ hpos, mul_one]
    exact abs_le_maxAbs l x hx

theorem reciprocalOrZero_mul_attained (l : List K) (hne : ∃ x ∈ l, x ≠ 0) :
    ∃ x ∈ l, reciprocalOrZero (maxAbs l) * |x| = 1 := by
  obtain ⟨y, hy, hy0⟩ := hne
  have hpos : 0 < maxAbs l :=
    lt_of_lt_of_le (abs_pos.mpr hy0) (abs_le_maxAbs l y hy)
  rcases maxAbs_attained l with h0 | ⟨x, hx, hxe⟩
  · exact absurd h0 (ne_of_gt hpos)
  · refine ⟨x, hx, ?_⟩
    unfold reciprocalOrZero
    rw [if_neg (ne_of_gt hpos), hxe, one_div, inv_mul_cancel₀ (ne_of_gt hpos)]

theorem ordinate_le (drawingSize s x : K) (hd : 0 ≤ drawingSize) (hs : 0 ≤ s)
    (h : s * |x| ≤ 1) : |drawingSize * s * x| ≤ drawingSize := by
  rw [abs_mul, abs_mul, abs_of_nonneg hd, abs_of_nonneg hs, mul_assoc]
  calc drawingSize * (s * |x|) ≤ drawingSize * 1 := mul_le_mul_of_nonneg_left h hd
    _ = drawingSize := mul_one _

theorem reciprocalOrZero_nonneg (l : List K) : 0 ≤ reciprocalOrZero (maxAbs l) := by
  unfold reciprocalOrZero
  split_ifs
  · exact le_rfl
  · exact div_nonneg zero_le_one (maxAbs_nonneg l)

theorem mem_flatMap_pair {α : Type} (l : List α) (f g : α → K) (a : α) (ha : a ∈ l) :
    f a ∈ l.flatMap (fun b => [f b, g b]) ∧ g a ∈ l.flatMap (fun b => [f b, g b]) := by
  constructor
  · exact List.mem_flatMap.mpr ⟨a, ha, by simp⟩
  · exact List.mem_flatMap.mpr ⟨a, ha, by simp⟩

theorem attained_pair {α : Type} (l : List α) (f g : α → K)
    (hne : ∃ a ∈ l, f a ≠ 0 ∨ g a ≠ 0) :
    ∃ a ∈ l,
      reciprocalOrZero (maxAbs (l.flatMap fun b => [f b, g b])) * |f a| = 1 ∨
      reciprocalOrZero (maxAbs (l.flatMap fun b => [f b, g b])) * |g a| = 1 := by
  obtain ⟨a, ha, hfg⟩ := hne
  have hex : ∃ x ∈ l.flatMap (fun b => [f b, g b]), x ≠ 0 := by
    rcases hfg with h | h
    · exact ⟨f a, (mem_flatMap_pair l f g a ha).1, h⟩
    · exact ⟨g a, (mem_flatMap_pair l f g a ha).2, h⟩
  obtain ⟨x, hx, hx1⟩ := reciprocalOrZero_mul_attained _ hex
  obtain ⟨b, hb, hxb⟩ := List.mem_flatMap.mp hx
  simp only [List.mem_cons, List.mem_singleton, List.not_mem_nil, or_false] at hxb
  rcases hxb with rfl | rfl
  · exact ⟨b, hb, Or.inl hx1⟩
  · exact ⟨b, hb, Or.inr hx1⟩

/-- Exact-arithmetic form of the bounds of the drawing scales (in binary64 the roundings
of `1. / max` and of the products change them, see `initializeLoadScalesDouble`): after
`initializeLoadScales` every normalised quantity is bounded by 1 in
magnitude: `scale[0]*|end intensity| <= 1` for every distributed load,
`scale[1]*|axial end force|`, `scale[2]*|shear end force|` and `scale[3]*|end moment|`
are `<= 1` for every element, and `scale[4]*|D entry| <= 1`; the bound 1 is attained by an
entry of a kind whenever that kind has a non-zero entry; hence, for a non-negative
`drawingSize`, an end ordinate `drawingSize * scale * value` never exceeds `drawingSize`
in magnitude. -/
theorem scales_normalise (loads : List (TDistributedLoad K))
    (internalLoads : List (Fin 6 → K)) (D : List K) :
    ∃ scale : Fin 5 → K, initializeLoadScales loads internalLoads D = some scale ∧
      (∀ load ∈ loads, scale 0 * |load.node0Load| ≤ 1 ∧ scale 0 * |load.node1Load| ≤ 1) ∧
      (∀ em ∈ internalLoads,
        (scale 1 * |em 0| ≤ 1 ∧ scale 1 * |em 3| ≤ 1) ∧
        (scale 2 * |em 1| ≤ 1 ∧ scale 2 * |em 4| ≤ 1) ∧
        (scale 3 * |em 2| ≤ 1 ∧ scale 3 * |em 5| ≤ 1)) ∧
      (∀ x ∈ D, scale 4 * |x| ≤ 1) ∧
      ((∃ load ∈ loads, load.node0Load ≠ 0 ∨ load.node1Load ≠ 0) →
        ∃ load ∈ loads, scale 0 * |load.node0Load| = 1 ∨ scale 0 * |load.node1Load| = 1) ∧
      ((∃ em ∈ internalLoads, em 0 ≠ 0 ∨ em 3 ≠ 0) →
        ∃ em ∈ internalLoads, scale 1 * |em 0| = 1 ∨ scale 1 * |em 3| = 1) ∧
      ((∃ em ∈ internalLoads, em 1 ≠ 0 ∨ em 4 ≠ 0) →
        ∃ em ∈ internalLoads, scale 2 * |em 1| = 1 ∨ scale 2 * |em 4| = 1) ∧
      ((∃ em ∈ internalLoads, em 2 ≠ 0 ∨ em 5 ≠ 0) →
        ∃ em ∈ internalLoads, scale 3 * |em 2| = 1 ∨ scale 3 * |em 5| = 1) ∧
      ((∃ x ∈ D, x ≠ 0) → ∃ x ∈ D, scale 4 * |x| = 1) ∧
      (∀ drawingSize : K, 0 ≤ drawingSize → ∀ em ∈ internalLoads,
        (|drawingSize * scale 1 * em 0| ≤ drawingSize ∧
          |drawingSize * scale 1 * em 3| ≤ drawingSize) ∧
        (|drawingSize * scale 2 * em 1| ≤ drawingSize ∧
          |drawingSize * scale 2 * em 4| ≤ drawingSize) ∧
        (|drawingSize * scale 3 * em 2| ≤ drawingSize ∧
          |drawingSize * scale 3 * em 5| ≤ drawingSize)) := by
  have hval : initializeLoadScales loads internalLoads D =
      some ![reciprocalOrZero
               (maxAbs (loads.flatMap fun load => [load.node0Load, load.node1Load])),
             reciprocalOrZero (maxAbs (internalLoads.flatMap fun em => [em 0, em 3])),
             reciprocalOrZero (maxAbs (internalLoads.flatMap fun em => [em 1, em 4])),
             reciprocalOrZero (maxAbs (internalLoads.flatMap fun em => [em 2, em 5])),
             reciprocalOrZero (maxAbs D)] := by
    unfold initializeLoadScales
    simp only [scaleOfMax_eq, maxDistributedLoad_eq, maxInternalLoads_eq, maxDisplacement_eq]
  have hb : ∀ (a b : Fin 6) (em : Fin 6 → K), em ∈ internalLoads →
      reciprocalOrZero (maxAbs (internalLoads.flatMap fun em => [em a, em b])) * |em a| ≤ 1 ∧
      reciprocalOrZero (maxAbs (internalLoads.flatMap fun em => [em a, em b])) * |em b| ≤ 1 := by
    intro a b em hem
    have hm := mem_flatMap_pair internalLoads (fun em => em a) (fun em => em b) em hem
    exact ⟨reciprocalOrZero_mul_le _ _ hm.1, reciprocalOrZero_mul_le _ _ hm.2⟩
  refine ⟨_, hval, ?_, ?_, ?_, ?_, ?_, ?_, ?_, ?_, ?_⟩
  · intro load hload
    have hm := mem_flatMap_pair loads (fun l => l.node0Load) (fun l => l.node1Load) load hload
    exact ⟨reciprocalOrZero_mul_le _ _ hm.1, reciprocalOrZero_mul_le _ _ hm.2⟩
  · intro em hem
    exact ⟨hb 0 3 em hem, hb 1 4 em hem, hb 2 5 em hem⟩
  · intro x hx
    exact reciprocalOrZero_mul_le D x hx
  · exact attained_pair loads (fun l => l.node0Load) (fun l => l.node1Load)
  · exact attained_pair internalLoads (fun em => em 0) (fun em => em 3)
  · exact attained_pair internalLoads (fun em => em 1) (fun em => em 4)
  · exact attained_pair internalLoads (fun em => em 2) (fun em => em 5)
  · exact reciprocalOrZero_mul_attained D
  · intro drawingSize hd em hem
    exact ⟨⟨ordinate_le _ _ _ hd (reciprocalOrZero_nonneg _) (hb 0 3 em hem).1,
        ordinate_le _ _ _ hd (reciprocalOrZero_nonneg _) (hb 0 3 em hem).2⟩,
      ⟨ordinate_le _ _ _ hd (reciprocalOrZero_nonneg _) (hb 1 4 em hem).1,
        ordinate_le _ _ _ hd (reciprocalOrZero_nonneg _) (hb 1 4 em hem).2⟩,
      ⟨ordinate_le _ _ _ hd (reciprocalOrZero_nonneg _) (hb 2 5 em hem).1,
        ordinate_le _ _ _ hd (reciprocalOrZero_nonneg _) (hb 2 5 em hem).2⟩⟩

theorem scales_normalise_witness :
    ∃ scale : Fin 5 → ℚ,
      initializeLoadScales [⟨0, 2, -4, false⟩] [![1, -3, 5, 0, 2, -8], ![0, 0, 0, 0, 0, 0]]
        ([] : List ℚ) = some scale ∧
      ∃ em ∈ ([![1, -3, 5, 0, 2, -8], ![0, 0, 0, 0, 0, 0]] : List (Fin 6 → ℚ)),
        scale 3 * |em 2| = 1 ∨ scale 3 * |em 5| = 1 := by
  obtain ⟨scale, hs, _, _, _, _, _, _, hm, _⟩ :=
    scales_normalise ([⟨0, 2, -4, false⟩] : List (TDistributedLoad ℚ))
      [![1, -3, 5, 0, 2, -8], ![0, 0, 0, 0, 0, 0]] ([] : List ℚ)
  exact ⟨scale, hs, hm ⟨![1, -3, 5, 0, 2, -8], by simp, Or.inl (by norm_num)⟩⟩

end ScaleBoundClaims

/-! ## Arrows of the distributed loads, rigid-body motion of the displaced shape -/

section ArrowClaims
variable {K : Type} [LinearOrderedField K]

/-- C23: in `populateAppliedLoadsScene`, for every distributed load with at least one
non-zero end intensity, the divisor chosen (the end intensity of larger magnitude) is
non-zero and the arrow lengths are `arrow0Length = loadScale*w0` and
`arrow1Length = loadScale*w1`; a division by zero is reached exactly for a load with both
end intensities equal to 0. -/
theorem arrowLengths_spec (loadScale : K) (distributedLoad : TDistributedLoad K) :
    (distributedLoad.node0Load ≠ 0 ∨ distributedLoad.node1Load ≠ 0 →
      arrowDivisor distributedLoad ≠ 0 ∧
      arrowLengths loadScale distributedLoad =
        some (loadScale * distributedLoad.node0Load,
              loadScale * distributedLoad.node1Load)) ∧
    (arrowLengths loadScale distributedLoad = none ↔
      distributedLoad.node0Load = 0 ∧ distributedLoad.node1Load = 0) := by
  have key : (distributedLoad.node0Load ≠ 0 ∨ distributedLoad.node1Load ≠ 0) →
      arrowDivisor distributedLoad ≠ 0 := by
    intro hne
    unfold arrowDivisor
    split_ifs with h
    · intro h0
      rw [h0, abs_zero] at h
      have h1 : distributedLoad.node1Load = 0 := abs_eq_zero.mp (le_antisymm h (abs_nonneg _))
      rcases hne with hc | hc
      · exact hc h0
      · exact hc h1
    · intro h1
      rw [h1, abs_zero] at h
      exact h (abs_nonneg _)
  have hval : arrowDivisor distributedLoad ≠ 0 →
      arrowLengths loadScale distributedLoad =
        some (loadScale * distributedLoad.node0Load,
              loadScale * distributedLoad.node1Load) := by
    intro hd
    unfold arrowDivisor at hd
    unfold arrowLengths
    by_cases h : |distributedLoad.node0Load| ≥ |distributedLoad.node1Load|
    · rw [if_pos h] at hd
      simp only [if_pos h, checkedDiv, if_neg hd, Option.map_some', Option.some.injEq,
        Prod.mk.injEq, true_and]
      field_simp
      ring
    · rw [if_neg h] at hd
      simp only [if_neg h, checkedDiv, if_neg hd, Option.map_some', Option.some.injEq,
        Prod.mk.injEq, and_true]
      field_simp
      ring
  refine ⟨fun hne => ⟨key hne, hval (key hne)⟩, ?_, ?_⟩
  · intro hnone
    by_contra hc
    have hne : distributedLoad.node0Load ≠ 0 ∨ distributedLoad.node1Load ≠ 0 := by
      by_contra hboth
      push_neg at hboth
      exact hc hboth
    rw [hval (key hne)] at hnone
    cases hnone
  · rintro ⟨h0, h1⟩
    simp [arrowLengths, checkedDiv, h0, h1]

theorem arrowLengths_spec_witness :
    ((2 : ℚ) ≠ 0 ∨ (-4 : ℚ) ≠ 0) ∧
    arrowDivisor (⟨0, 2, -4, false⟩ : TDistributedLoad ℚ) ≠ 0 ∧
    arrowLengths (10 : ℚ) ⟨0, 2, -4, false⟩ = some (10 * 2, 10 * -4) ∧
    arrowLengths (10 : ℚ) ⟨0, 0, 0, false⟩ = none :=
  ⟨Or.inl (by norm_num),
    ((arrowLengths_spec (10 : ℚ) ⟨0, 2, -4, false⟩).1 (Or.inl (by norm_num))).1,
    ((arrowLengths_spec (10 : ℚ) ⟨0, 2, -4, false⟩).1 (Or.inl (by norm_num))).2,
    (arrowLengths_spec (10 : ℚ) ⟨0, 0, 0, false⟩).2.mpr ⟨rfl, rfl⟩⟩

end ArrowClaims

/-! ## The sampling loop of the displaced shape -/

section CurveClaims
variable {K : Type} [LinearOrderedField K]

theorem map_range'_head? {α : Type} (f : Nat → α) (n : Nat) :
    ((List.range' 0 (n + 1)).map f).head? = some (f 0) := by
  simp [List.range'_succ]

theorem map_range'_getLast? {α : Type} (f : Nat → α) (n : Nat) :
    ((List.range' 0 (n + 1)).map f).getLast? = some (f n) := by
  rw [List.range'_concat]
  simp

theorem curveLoop_run (env : TGraphicsEnv K) (L : K) (d : Fin 6 → K)
    (len uScale angle : K) (hlen : 0 < len) (m : Nat) :
    ∀ (k fuel : Nat), k + m = 1001 → m + 1 ≤ fuel →
      curveLoop env L d len (len / 1000) uScale angle fuel ((k : K) * (len / 1000)) =
        some ((List.range' k m).map fun j : Nat =>
          curvePoint env L d len uScale angle ((j : K) * (len / 1000))) := by
  induction m with
  | zero =>
    intro k fuel hk hf
    obtain ⟨f, rfl⟩ : ∃ f, fuel = f + 1 := ⟨fuel - 1, by omega⟩
    have hk2 : k = 1001 := by omega
    subst hk2
    have hlt : len < ((1001 : Nat) : K) * (len / 1000) := by
      have h1 : ((1001 : Nat) : K) * (len / 1000) = len + len / 1000 := by
        push_cast
        field_simp
        ring
      rw [h1]
      exact lt_add_of_pos_right len (by positivity)
    simp only [curveLoop, if_neg (not_le.mpr hlt)]
    rfl
  | succ m ih =>
    intro k fuel hk hf
    obtain ⟨f, rfl⟩ : ∃ f, fuel = f + 1 := ⟨fuel - 1, by omega⟩
    have hk2 : k ≤ 1000 := by omega
    have hle : (k : K) * (len / 1000) ≤ len := by
      have hkK : (k : K) ≤ 1000 := by exact_mod_cast hk2
      calc (k : K) * (len / 1000) ≤ 1000 * (len / 1000) :=
            mul_le_mul_of_nonneg_right hkK (le_of_lt (by positivity))
        _ = len := by field_simp
    have hnext : (k : K) * (len / 1000) + len / 1000 = ((k + 1 : Nat) : K) * (len / 1000) := by
      push_cast
      ring
    simp only [curveLoop, if_pos hle]
    rw [hnext, ih (k + 1) f (by omega) (by omega)]
    simp [List.range'_succ]

theorem curveLoop_zero_length (env : TGraphicsEnv K) (L : K) (d : Fin 6 → K)
    (uScale angle : K) (fuel : Nat) :
    curveLoop env L d 0 0 uScale angle fuel 0 = none := by
  induction fuel with
  | zero => rfl
  | succ f ih =>
    simp only [curveLoop, le_refl, if_true, add_zero]
    rw [ih]
    rfl

/-- C24: in `populateDisplacement`, for every element whose drawn length
`displacementLength` is positive, the curve-sampling loop terminates (every run with at
least 1002 evaluations of its condition returns) and takes exactly 1001 samples, at
`u = k * step` for `k = 0, ..., 1000`, the first at `u = 0` and the last at
`u = displacementLength`, where the scaled coordinate is `L`; for an element of zero drawn
length the step is 0 and the loop condition never becomes false: no number of evaluations
ends the loop. -/
theorem curve_sampling (env : TGraphicsEnv K) (e : DrawnElement K) (d : Fin 6 → K) :
    (0 < env.lineLength e.x0 e.y0 e.x1 e.y1 →
      ∀ fuel, 1002 ≤ fuel →
        ∃ pts, displacementCurve env e d fuel = some pts ∧
          pts.length = 1001 ∧
          pts.map CurvePoint.u = (List.range 1001).map
            (fun k : Nat => (k : K) * (env.lineLength e.x0 e.y0 e.x1 e.y1 / 1000)) ∧
          pts.head?.map CurvePoint.u = some 0 ∧
          pts.getLast?.map CurvePoint.u = some (env.lineLength e.x0 e.y0 e.x1 e.y1) ∧
          pts.getLast?.map CurvePoint.scaledU = some e.L) ∧
    (env.lineLength e.x0 e.y0 e.x1 e.y1 = 0 →
      ∀ fuel, displacementCurve env e d fuel = none) := by
  constructor
  · intro hlen fuel hfuel
    have hne : env.lineLength e.x0 e.y0 e.x1 e.y1 ≠ 0 := ne_of_gt hlen
    have hrun := curveLoop_run env e.L d (env.lineLength e.x0 e.y0 e.x1 e.y1)
      (e.L / env.lineLength e.x0 e.y0 e.x1 e.y1)
      (env.lineAngle e.x0 e.y0 e.x1 e.y1 * env.PI / 180) hlen 1001 0 fuel (by norm_num)
      (by omega)
    rw [Nat.cast_zero, zero_mul] at hrun
    have hhead := map_range'_head? (fun j : Nat =>
      curvePoint env e.L d (env.lineLength e.x0 e.y0 e.x1 e.y1)
        (e.L / env.lineLength e.x0 e.y0 e.x1 e.y1)
        (env.lineAngle e.x0 e.y0 e.x1 e.y1 * env.PI / 180)
        ((j : K) * (env.lineLength e.x0 e.y0 e.x1 e.y1 / 1000))) 1000
    have hlast := map_range'_getLast? (fun j : Nat =>
      curvePoint env e.L d (env.lineLength e.x0 e.y0 e.x1 e.y1)
        (e.L / env.lineLength e.x0 e.y0 e.x1 e.y1)
        (env.lineAngle e.x0 e.y0 e.x1 e.y1 * env.PI / 180)
        ((j : K) * (env.lineLength e.x0 e.y0 e.x1 e.y1 / 1000))) 1000
    refine ⟨_, hrun, ?_, ?_, ?_, ?_, ?_⟩
    · rw [List.length_map, List.length_range']
    · rw [List.map_map, List.range_eq_range']
      rfl
    · rw [hhead]
      simp [curvePoint]
    · rw [hlast]
      simp only [Option.map_some', curvePoint, Option.some.injEq]
      push_cast
      field_simp
    · rw [hlast]
      simp only [Option.map_some', curvePoint, Option.some.injEq]
      push_cast
      field_simp
  · intro hzero fuel
    unfold displacementCurve
    simp only [hzero, zero_div]
    exact curveLoop_zero_length env e.L d _ _ fuel

theorem curve_sampling_witness :
    (0 : ℚ) < horizontalEnv.lineLength 0 0 2 0 ∧
    (∃ pts, displacementCurve horizontalEnv ⟨0, 0, 2, 0, 3, ![0, 0, 0, 0, 0, 0]⟩
        ![0, 1, 0, 0, 2, 0] 1002 = some pts ∧ pts.length = 1001) ∧
    horizontalEnv.lineLength 1 0 1 0 = 0 ∧
    displacementCurve horizontalEnv ⟨1, 0, 1, 0, 3, ![0, 0, 0, 0, 0, 0]⟩
        ![0, 1, 0, 0, 2, 0] 5000 = none := by
  have h1 : (0 : ℚ) < horizontalEnv.lineLength 0 0 2 0 := by norm_num [horizontalEnv]
  have h2 : horizontalEnv.lineLength 1 0 1 0 = 0 := by norm_num [horizontalEnv]
  obtain ⟨pts, hp, hlen, _⟩ :=
    (curve_sampling horizontalEnv ⟨0, 0, 2, 0, 3, ![0, 0, 0, 0, 0, 0]⟩
      ![0, 1, 0, 0, 2, 0]).1 h1 1002 (le_refl _)
  exact ⟨h1, ⟨pts, hp, hlen⟩, h2,
    (curve_sampling horizontalEnv ⟨1, 0, 1, 0, 3, ![0, 0, 0, 0, 0, 0]⟩
      ![0, 1, 0, 0, 2, 0]).2 h2 5000⟩

end CurveClaims

/-! ## Locality and homogeneity of the diagram coefficients -/

section SceneClaims
variable {K : Type} [LinearOrderedField K]

/-- C26: the axial, shear and bending-moment values computed for element `i` depend only
on that element's data and on the distributed loads whose `elementID` equals `i`: two runs
of a builder whose element lists agree at index `i` and whose load lists agree on the
loads referencing element `i` (in the same order) give identical results for element `i`,
whatever the other elements and the other loads are. -/
theorem element_results_local (env : TGraphicsEnv K) (drawingSize : K)
    (fLoadDrawingScales : Fin 5 → K) (elements1 elements2 : List (DrawnElement K))
    (loads1 loads2 : List (TDistributedLoad K)) (i : Nat) (e : DrawnElement K)
    (h1 : elements1[i]? = some e) (h2 : elements2[i]? = some e)
    (hloads : (loads1.filter fun ld => ld.elementID = (i : Int)) =
      loads2.filter fun ld => ld.elementID = (i : Int)) :
    (populateAxialForceDiagramScene env drawingSize fLoadDrawingScales elements1 loads1)[i]? =
      (populateAxialForceDiagramScene env drawingSize fLoadDrawingScales elements2 loads2)[i]? ∧
    (populateShearForceDiagramScene env drawingSize fLoadDrawingScales elements1 loads1)[i]? =
      (populateShearForceDiagramScene env drawingSize fLoadDrawingScales elements2 loads2)[i]? ∧
    (populateBendingMomentDiagramScene env drawingSize fLoadDrawingScales elements1
        loads1)[i]? =
      (populateBendingMomentDiagramScene env drawingSize fLoadDrawingScales elements2
        loads2)[i]? ∧
    (populateAxialForceDiagramScene env drawingSize fLoadDrawingScales elements1
        loads1)[i]?.map Prod.fst =
      some (axialDiagram env (drawingSize * fLoadDrawingScales 1) i e
        (loads1.filter fun ld => ld.elementID = (i : Int))) ∧
    (populateShearForceDiagramScene env drawingSize fLoadDrawingScales elements1
        loads1)[i]?.map Prod.fst =
      some (shearDiagram env (drawingSize * fLoadDrawingScales 2) i e
        (loads1.filter fun ld => ld.elementID = (i : Int))) ∧
    (populateBendingMomentDiagramScene env drawingSize fLoadDrawingScales elements1
        loads1)[i]? =
      some (bendingMomentCoefficients env (drawingSize * fLoadDrawingScales 3) i e
        (loads1.filter fun ld => ld.elementID = (i : Int))) := by
  have hA : ∀ s, axialDiagram env s i e loads1 = axialDiagram env s i e loads2 := by
    intro s
    simp only [axialDiagram]
    rw [axialCoefficients_filter env s i e loads1, axialCoefficients_filter env s i e loads2,
      hloads]
  have hS : ∀ s, shearCoefficients env s i e loads1 = shearCoefficients env s i e loads2 := by
    intro s
    rw [shearCoefficients_filter env s i e loads1, shearCoefficients_filter env s i e loads2,
      hloads]
  have hA1 : ∀ s, axialDiagram env s i e loads1 =
      axialDiagram env s i e (loads1.filter fun ld => ld.elementID = (i : Int)) := by
    intro s
    simp only [axialDiagram]
    rw [axialCoefficients_filter env s i e loads1]
  have hS1 : ∀ s, shearCoefficients env s i e loads1 =
      shearCoefficients env s i e (loads1.filter fun ld => ld.elementID = (i : Int)) :=
    fun s => shearCoefficients_filter env s i e loads1
  refine ⟨?_, ?_, ?_, ?_, ?_, ?_⟩
  · simp only [populateAxialForceDiagramScene, List.getElem?_mapIdx, h1, h2, Option.map_some',
      hA]
  · simp only [populateShearForceDiagramScene, List.getElem?_mapIdx, h1, h2, Option.map_some',
      shearDiagram, hS]
  · simp only [populateBendingMomentDiagramScene, List.getElem?_mapIdx, h1, h2,
      Option.map_some', bendingMomentCoefficients, hS]
  · simp only [populateAxialForceDiagramScene, List.getElem?_mapIdx, h1, Option.map_some']
    rw [← hA1]
  · simp only [populateShearForceDiagramScene, List.getElem?_mapIdx, h1, Option.map_some',
      shearDiagram]
    rw [← hS1]
  · simp only [populateBendingMomentDiagramScene, List.getElem?_mapIdx, h1, Option.map_some',
      bendingMomentCoefficients]
    rw [← hS1]

theorem element_results_local_witness :
    (populateShearForceDiagramScene horizontalEnv 50 ![1, 1, 1, 1, 1]
        [⟨0, 0, 2, 0, 2, ![4, 1, 0, -3, 2, 0]⟩, ⟨2, 0, 4, 0, 2, ![1, 1, 1, 1, 1, 1]⟩]
        [⟨1, 1, 1, false⟩, ⟨0, 2, 3, false⟩])[0]? =
      (populateShearForceDiagramScene horizontalEnv 50 ![1, 1, 1, 1, 1]
        [⟨0, 0, 2, 0, 2, ![4, 1, 0, -3, 2, 0]⟩]
        [⟨0, 2, 3, false⟩, ⟨5, 7, 7, true⟩])[0]? :=
  (element_results_local horizontalEnv 50 ![1, 1, 1, 1, 1]
    [⟨0, 0, 2, 0, 2, ![4, 1, 0, -3, 2, 0]⟩, ⟨2, 0, 4, 0, 2, ![1, 1, 1, 1, 1, 1]⟩]
    [⟨0, 0, 2, 0, 2, ![4, 1, 0, -3, 2, 0]⟩]
    [⟨1, 1, 1, false⟩, ⟨0, 2, 3, false⟩] [⟨0, 2, 3, false⟩, ⟨5, 7, 7, true⟩]
    0 ⟨0, 0, 2, 0, 2, ![4, 1, 0, -3, 2, 0]⟩ rfl rfl (by decide)).2.1

/-! ### Homogeneity in the drawing scale -/

end SceneClaims

/-! ## Binary64 bounds of the drawing scales -/

section Binary64Claims

theorem roundHalfEven_le (q : ℚ) : (roundHalfEven q : ℚ) ≤ q + 1 / 2 := by
  unfold roundHalfEven
  have h1 := Int.floor_le q
  have h2 := Int.lt_floor_add_one q
  split_ifs with h h' h''
  · linarith
  · push_cast; linarith
  · linarith
  · push_cast; linarith

theorem le_roundHalfEven (q : ℚ) : q - 1 / 2 ≤ (roundHalfEven q : ℚ) := by
  unfold roundHalfEven
  have h1 := Int.floor_le q
  have h2 := Int.lt_floor_add_one q
  split_ifs with h h' h''
  · linarith
  · push_cast; linarith
  · linarith
  · push_cast; linarith

theorem floor_le_roundHalfEven (q : ℚ) : ⌊q⌋ ≤ roundHalfEven q := by
  unfold roundHalfEven
  split_ifs <;> omega

theorem roundHalfEven_le_floor_add_one (q : ℚ) : roundHalfEven q ≤ ⌊q⌋ + 1 := by
  unfold roundHalfEven
  split_ifs <;> omega

theorem roundHalfEven_intCast (n : ℤ) : roundHalfEven (n : ℚ) = n := by
  unfold roundHalfEven
  rw [Int.floor_intCast, sub_self, if_pos (by norm_num)]

theorem roundHalfEven_mono {p q : ℚ} (h : p ≤ q) : roundHalfEven p ≤ roundHalfEven q := by
  have hf : ⌊p⌋ ≤ ⌊q⌋ := Int.floor_mono h
  rcases lt_or_eq_of_le hf with hlt | heq
  · calc roundHalfEven p ≤ ⌊p⌋ + 1 := roundHalfEven_le_floor_add_one p
      _ ≤ ⌊q⌋ := hlt
      _ ≤ roundHalfEven q := floor_le_roundHalfEven q
  · unfold roundHalfEven
    rw [heq]
    have hr : p - ⌊q⌋ ≤ q - ⌊q⌋ := by linarith
    split_ifs <;> first | omega | (exfalso; linarith)

/-- The nearest integer when it is strictly nearest. -/
theorem roundHalfEven_eq_of_abs_lt (q : ℚ) (n : ℤ) (h : |q - n| < 1 / 2) :
    roundHalfEven q = n := by
  rw [abs_lt] at h
  have h1 := le_roundHalfEven q
  have h2 := roundHalfEven_le q
  have h3 : ((roundHalfEven q - n : ℤ) : ℚ) < 1 := by push_cast; linarith
  have h4 : (-1 : ℚ) < ((roundHalfEven q - n : ℤ) : ℚ) := by push_cast; linarith
  have h5 : roundHalfEven q - n < 1 := by exact_mod_cast h3
  have h6 : -1 < roundHalfEven q - n := by exact_mod_cast h4
  omega

/-- A tie goes to the even neighbour below. -/
theorem roundHalfEven_tie_even (n : ℤ) (hn : n % 2 = 0) :
    roundHalfEven ((n : ℚ) + 1 / 2) = n := by
  have hfl : ⌊(n : ℚ) + 1 / 2⌋ = n := by
    rw [Int.floor_eq_iff]
    constructor <;> linarith
  unfold roundHalfEven
  rw [hfl]
  have : (n : ℚ) + 1 / 2 - n = 1 / 2 := by ring
  rw [this, if_neg (lt_irrefl _), if_neg (lt_irrefl _), if_pos hn]

theorem two_zpow_pos (z : ℤ) : (0 : ℚ) < 2 ^ z := zpow_pos (by norm_num) z

theorem two_zpow_mono {y z : ℤ} (h : y ≤ z) : (2 : ℚ) ^ y ≤ 2 ^ z :=
  zpow_le_zpow_right₀ (by norm_num) h

theorem log_eq_of_binade (a : ℚ) (e : ℤ) (h1 : 2 ^ e ≤ a) (h2 : a < 2 ^ (e + 1)) :
    Int.log 2 a = e := by
  have ha : 0 < a := lt_of_lt_of_le (two_zpow_pos e) h1
  have hle : e ≤ Int.log 2 a := by
    rw [← Int.zpow_le_iff_le_log (by norm_num) ha]
    simpa using h1
  have hlt : Int.log 2 a < e + 1 := by
    rw [← Int.lt_zpow_iff_log_lt (by norm_num) ha]
    simpa using h2
  omega

theorem zpow_log_le (a : ℚ) (ha : 0 < a) : (2 : ℚ) ^ Int.log 2 a ≤ a := by
  simpa using Int.zpow_log_le_self (b := 2) (by norm_num) ha

theorem lt_zpow_log_succ (a : ℚ) : a < (2 : ℚ) ^ (Int.log 2 a + 1) := by
  simpa using Int.lt_zpow_succ_log_self (b := 2) (by norm_num) a

theorem ulpExponent_eq (a : ℚ) (e : ℤ) (he : -1022 ≤ e) (h1 : 2 ^ e ≤ a)
    (h2 : a < 2 ^ (e + 1)) : ulpExponent a = e - 52 := by
  unfold ulpExponent
  rw [log_eq_of_binade a e h1 h2, max_eq_left he]

theorem ulpExponent_subnormal (a : ℚ) (ha : 0 < a) (h : a < 2 ^ (-1022 : ℤ)) :
    ulpExponent a = -1074 := by
  unfold ulpExponent
  have hlt : Int.log 2 a < -1022 := by
    rw [← Int.lt_zpow_iff_log_lt (by norm_num) ha]
    simpa using h
  rw [max_eq_right (le_of_lt hlt)]
  norm_num

theorem roundMagnitude_zero : roundMagnitude 0 = 0 := by
  unfold roundMagnitude
  rw [zero_div]
  have h := roundHalfEven_intCast 0
  rw [Int.cast_zero] at h
  rw [h, Int.cast_zero, zero_mul]

theorem roundMagnitude_nonneg (a : ℚ) (ha : 0 ≤ a) : 0 ≤ roundMagnitude a := by
  unfold roundMagnitude
  apply mul_nonneg _ (le_of_lt (two_zpow_pos _))
  have h0 : (0 : ℚ) ≤ a / 2 ^ ulpExponent a := div_nonneg ha (le_of_lt (two_zpow_pos _))
  have h := roundHalfEven_mono h0
  have hz := roundHalfEven_intCast 0
  rw [Int.cast_zero] at hz
  rw [hz] at h
  exact_mod_cast h

/-- Every magnitude is below the top of its binade. -/
theorem lt_binade_top (a : ℚ) : a < 2 ^ (ulpExponent a + 53) := by
  refine lt_of_lt_of_le (lt_zpow_log_succ a) (two_zpow_mono ?_)
  unfold ulpExponent
  have := le_max_left (Int.log 2 a) (-1022)
  omega

/-- A magnitude outside the subnormal range is at least the bottom of its binade. -/
theorem binade_bottom_le (a : ℚ) (ha : 0 < a) (h : -1074 < ulpExponent a) :
    (2 : ℚ) ^ (ulpExponent a + 52) ≤ a := by
  have hl : ulpExponent a + 52 = Int.log 2 a := by
    unfold ulpExponent at h ⊢
    rcases le_total (Int.log 2 a) (-1022) with h' | h'
    · rw [max_eq_right h'] at h
      omega
    · rw [max_eq_left h']
      omega
  rw [hl]
  exact zpow_log_le a ha

theorem two_zpow_add (y z : ℤ) : (2 : ℚ) ^ (y + z) = 2 ^ y * 2 ^ z :=
  zpow_add₀ (by norm_num) y z

theorem cast_two_pow (n : ℕ) : (((2 : ℤ) ^ n : ℤ) : ℚ) = (2 : ℚ) ^ (n : ℤ) := by
  rw [Int.cast_pow, Int.cast_ofNat, zpow_natCast]

theorem roundMagnitude_le_top (a : ℚ) :
    roundMagnitude a ≤ 2 ^ (ulpExponent a + 53) := by
  unfold roundMagnitude
  have hx : a / 2 ^ ulpExponent a ≤ (((2 : ℤ) ^ 53 : ℤ) : ℚ) := by
    rw [cast_two_pow, div_le_iff₀ (two_zpow_pos _), ← two_zpow_add, add_comm]
    exact le_of_lt (lt_binade_top a)
  have h := roundHalfEven_mono hx
  rw [roundHalfEven_intCast] at h
  have hq : ((roundHalfEven (a / 2 ^ ulpExponent a) : ℤ) : ℚ) ≤ 2 ^ ((53 : ℕ) : ℤ) := by
    rw [← cast_two_pow]
    exact_mod_cast h
  calc (roundHalfEven (a / 2 ^ ulpExponent a) : ℚ) * 2 ^ ulpExponent a
      ≤ 2 ^ ((53 : ℕ) : ℤ) * 2 ^ ulpExponent a :=
        mul_le_mul_of_nonneg_right hq (le_of_lt (two_zpow_pos _))
    _ = 2 ^ (ulpExponent a + 53) := by
        rw [← two_zpow_add, add_comm]
        rfl

theorem bottom_le_roundMagnitude (a : ℚ) (h : (2 : ℚ) ^ (ulpExponent a + 52) ≤ a) :
    (2 : ℚ) ^ (ulpExponent a + 52) ≤ roundMagnitude a := by
  unfold roundMagnitude
  have hx : (((2 : ℤ) ^ 52 : ℤ) : ℚ) ≤ a / 2 ^ ulpExponent a := by
    rw [cast_two_pow, le_div_iff₀ (two_zpow_pos _), ← two_zpow_add, add_comm]
    exact h
  have h' := roundHalfEven_mono hx
  rw [roundHalfEven_intCast] at h'
  have hq : (2 : ℚ) ^ ((52 : ℕ) : ℤ) ≤ ((roundHalfEven (a / 2 ^ ulpExponent a) : ℤ) : ℚ) := by
    rw [← cast_two_pow]
    exact_mod_cast h'
  calc (2 : ℚ) ^ (ulpExponent a + 52) = 2 ^ ((52 : ℕ) : ℤ) * 2 ^ ulpExponent a := by
        rw [← two_zpow_add, add_comm]
        rfl
    _ ≤ (roundHalfEven (a / 2 ^ ulpExponent a) : ℚ) * 2 ^ ulpExponent a :=
        mul_le_mul_of_nonneg_right hq (le_of_lt (two_zpow_pos _))

theorem ulpExponent_mono {a b : ℚ} (ha : 0 < a) (h : a ≤ b) :
    ulpExponent a ≤ ulpExponent b := by
  unfold ulpExponent
  have := Int.log_mono_right (b := 2) ha h
  have := max_le_max this (le_refl (-1022 : ℤ))
  omega

theorem ulpExponent_ge (a : ℚ) : -1074 ≤ ulpExponent a := by
  unfold ulpExponent
  have := le_max_right (Int.log 2 a) (-1022)
  omega

/-- Rounding is monotone on magnitudes. -/
theorem roundMagnitude_mono {a b : ℚ} (ha : 0 ≤ a) (h : a ≤ b) :
    roundMagnitude a ≤ roundMagnitude b := by
  rcases eq_or_lt_of_le ha with h0 | hpos
  · rw [← h0, roundMagnitude_zero]
    exact roundMagnitude_nonneg b (le_trans ha h)
  · have hb : 0 < b := lt_of_lt_of_le hpos h
    rcases eq_or_lt_of_le (ulpExponent_mono hpos h) with he | hlt
    · unfold roundMagnitude
      rw [← he]
      apply mul_le_mul_of_nonneg_right _ (le_of_lt (two_zpow_pos _))
      have : a / 2 ^ ulpExponent a ≤ b / 2 ^ ulpExponent a :=
        div_le_div_of_nonneg_right h (le_of_lt (two_zpow_pos _))
      exact_mod_cast roundHalfEven_mono this
    · have hbn : -1074 < ulpExponent b := lt_of_le_of_lt (ulpExponent_ge a) hlt
      calc roundMagnitude a ≤ 2 ^ (ulpExponent a + 53) := roundMagnitude_le_top a
        _ ≤ 2 ^ (ulpExponent b + 52) := two_zpow_mono (by omega)
        _ ≤ roundMagnitude b := bottom_le_roundMagnitude b (binade_bottom_le b hb hbn)

/-- In the normal range the rounding error is at most `2^-53` relative. -/
theorem roundMagnitude_error (a : ℚ) (h : (2 : ℚ) ^ (-1022 : ℤ) ≤ a) :
    |roundMagnitude a - a| ≤ 2 ^ (-53 : ℤ) * a := by
  have ha : 0 < a := lt_of_lt_of_le (two_zpow_pos _) h
  have hlog : -1022 ≤ Int.log 2 a := by
    rw [← Int.zpow_le_iff_le_log (by norm_num) ha]
    simpa using h
  have hk : ulpExponent a = Int.log 2 a - 52 := by
    unfold ulpExponent
    rw [max_eq_left hlog]
  have hbot : (2 : ℚ) ^ (ulpExponent a + 52) ≤ a := by
    rw [hk, sub_add_cancel]
    exact zpow_log_le a ha
  have hp := two_zpow_pos (ulpExponent a)
  have h1 := roundHalfEven_le (a / 2 ^ ulpExponent a)
  have h2 := le_roundHalfEven (a / 2 ^ ulpExponent a)
  have hhalf : (2 : ℚ) ^ (-53 : ℤ) * 2 ^ (ulpExponent a + 52) = 1 / 2 * 2 ^ ulpExponent a := by
    rw [add_comm, zpow_add₀ (by norm_num : (2 : ℚ) ≠ 0)]
    norm_num
    ring
  have hbound : 1 / 2 * 2 ^ ulpExponent a ≤ 2 ^ (-53 : ℤ) * a := by
    rw [← hhalf]
    exact mul_le_mul_of_nonneg_left hbot (le_of_lt (two_zpow_pos _))
  have hmul : a / 2 ^ ulpExponent a * 2 ^ ulpExponent a = a :=
    div_mul_cancel₀ a (ne_of_gt hp)
  unfold roundMagnitude
  rw [abs_le]
  constructor
  · nlinarith
  · nlinarith

theorem roundValue_of_nonneg {q : ℚ} (h : 0 ≤ q) : roundValue q = roundMagnitude q :=
  if_neg (not_lt.mpr h)

theorem abs_roundValue (q : ℚ) : |roundValue q| = roundMagnitude |q| := by
  unfold roundValue
  split_ifs with h
  · rw [abs_neg, abs_of_nonneg (roundMagnitude_nonneg _ (by linarith)), abs_of_neg h]
  · rw [abs_of_nonneg (roundMagnitude_nonneg _ (not_lt.mp h)), abs_of_nonneg (not_lt.mp h)]

theorem roundDouble_eq_some {q : ℚ} (h : roundMagnitude |q| < 2 ^ 1024) :
    roundDouble q = some (roundValue q) := by
  unfold roundDouble
  rw [if_pos (by rw [abs_roundValue]; exact h)]

/-- Evaluation of the rounding at a magnitude with a strictly nearest neighbour. -/
theorem roundMagnitude_eq (a : ℚ) (e n : ℤ) (he : -1022 ≤ e) (h1 : 2 ^ e ≤ a)
    (h2 : a < 2 ^ (e + 1)) (hn : |a / 2 ^ (e - 52) - n| < 1 / 2) :
    roundMagnitude a = n * 2 ^ (e - 52) := by
  unfold roundMagnitude
  rw [ulpExponent_eq a e he h1 h2, roundHalfEven_eq_of_abs_lt _ n hn]

/-- Evaluation of the rounding at a tie above an even neighbour. -/
theorem roundMagnitude_tie (a : ℚ) (e n : ℤ) (he : -1022 ≤ e) (h1 : 2 ^ e ≤ a)
    (h2 : a < 2 ^ (e + 1)) (hn : a / 2 ^ (e - 52) = n + 1 / 2) (hev : n % 2 = 0) :
    roundMagnitude a = n * 2 ^ (e - 52) := by
  unfold roundMagnitude
  rw [ulpExponent_eq a e he h1 h2, hn, roundHalfEven_tie_even n hev]

theorem roundMagnitude_one_add : roundMagnitude (1 + 2 ^ (-53 : ℤ)) = 1 := by
  rw [roundMagnitude_tie _ 0 (2 ^ 52) (by norm_num) (by norm_num) (by norm_num)
    (by norm_num) (by norm_num)]
  norm_num

theorem roundMagnitude_one_sub : roundMagnitude (1 - 2 ^ (-53 : ℤ)) = 1 - 2 ^ (-53 : ℤ) := by
  rw [roundMagnitude_eq _ (-1) (2 ^ 53 - 1) (by norm_num) (by norm_num) (by norm_num)
    (by norm_num)]
  norm_num

theorem roundDouble_zero : roundDouble 0 = some 0 := by
  have h : roundValue 0 = 0 := by
    rw [roundValue_of_nonneg le_rfl, roundMagnitude_zero]
  unfold roundDouble
  rw [h, abs_zero, if_pos (by norm_num)]

/-- The scale of a maximum in the normal range: finite and within `2^-53` relative of the
reciprocal. -/
theorem scaleOfMaxDouble_bounds (m : ℚ) (h1 : (2 : ℚ) ^ (-1022 : ℤ) ≤ m)
    (h2 : m ≤ 2 ^ (1022 : ℤ)) :
    ∃ s, scaleOfMaxDouble m = some s ∧
      (1 - 2 ^ (-53 : ℤ)) / m ≤ s ∧ s ≤ (1 + 2 ^ (-53 : ℤ)) / m := by
  have hm : 0 < m := lt_of_lt_of_le (two_zpow_pos _) h1
  have hinv : (2 : ℚ) ^ (-1022 : ℤ) ≤ 1 / m := by
    rw [le_div_iff₀ hm]
    calc (2 : ℚ) ^ (-1022 : ℤ) * m ≤ 2 ^ (-1022 : ℤ) * 2 ^ (1022 : ℤ) :=
          mul_le_mul_of_nonneg_left h2 (le_of_lt (two_zpow_pos _))
      _ = 1 := by rw [← two_zpow_add]; norm_num
  have hinv2 : 1 / m ≤ 2 ^ (1022 : ℤ) := by
    rw [div_le_iff₀ hm]
    calc (1 : ℚ) = 2 ^ (1022 : ℤ) * 2 ^ (-1022 : ℤ) := by rw [← two_zpow_add]; norm_num
      _ ≤ 2 ^ (1022 : ℤ) * m := mul_le_mul_of_nonneg_left h1 (le_of_lt (two_zpow_pos _))
  have hpos : 0 ≤ 1 / m := le_of_lt (div_pos one_pos hm)
  have herr := roundMagnitude_error (1 / m) hinv
  rw [abs_le] at herr
  have hup : roundMagnitude (1 / m) ≤ (1 + 2 ^ (-53 : ℤ)) / m := by
    have : (1 + 2 ^ (-53 : ℤ)) / m = 1 / m + 2 ^ (-53 : ℤ) * (1 / m) := by ring
    rw [this]
    linarith [herr.2]
  have hlo : (1 - 2 ^ (-53 : ℤ)) / m ≤ roundMagnitude (1 / m) := by
    have : (1 - 2 ^ (-53 : ℤ)) / m = 1 / m - 2 ^ (-53 : ℤ) * (1 / m) := by ring
    rw [this]
    linarith [herr.1]
  have hfin : roundMagnitude |1 / m| < 2 ^ 1024 := by
    rw [abs_of_nonneg hpos]
    have h3 : (1 + 2 ^ (-53 : ℤ)) / m = (1 + 2 ^ (-53 : ℤ)) * (1 / m) := by ring
    have h4 : (1 + (2 : ℚ) ^ (-53 : ℤ)) * (1 / m) ≤ (1 + 2 ^ (-53 : ℤ)) * 2 ^ (1022 : ℤ) :=
      mul_le_mul_of_nonneg_left hinv2 (by norm_num)
    have h5 : (1 + (2 : ℚ) ^ (-53 : ℤ)) * 2 ^ (1022 : ℤ) < 2 ^ 1024 := by norm_num
    linarith
  refine ⟨roundValue (1 / m), ?_, ?_, ?_⟩
  · unfold scaleOfMaxDouble divDouble
    rw [if_neg (ne_of_gt hm), if_neg (ne_of_gt hm), roundDouble_eq_some hfin]
  · rw [roundValue_of_nonneg hpos]
    exact hlo
  · rw [roundValue_of_nonneg hpos]
    exact hup

/-- A product that is at most `1 + 2^-53` before rounding is a finite double at most 1. -/
theorem normalised_le_one (s m x : ℚ) (hm : 0 < m) (hs0 : 0 ≤ s)
    (hs : s ≤ (1 + 2 ^ (-53 : ℤ)) / m) (hx : |x| ≤ m) :
    ∃ p, normalised s x = some p ∧ p ≤ 1 := by
  have hprod : s * |x| ≤ 1 + 2 ^ (-53 : ℤ) := by
    calc s * |x| ≤ (1 + 2 ^ (-53 : ℤ)) / m * m :=
          mul_le_mul hs hx (abs_nonneg x) (div_nonneg (by norm_num) (le_of_lt hm))
      _ = 1 + 2 ^ (-53 : ℤ) := div_mul_cancel₀ _ (ne_of_gt hm)
  have hnn : 0 ≤ s * |x| := mul_nonneg hs0 (abs_nonneg x)
  have hle : roundMagnitude (s * |x|) ≤ 1 := by
    rw [← roundMagnitude_one_add]
    exact roundMagnitude_mono hnn hprod
  refine ⟨roundValue (s * |x|), ?_, ?_⟩
  · unfold normalised mulDouble
    apply roundDouble_eq_some
    rw [abs_of_nonneg hnn]
    exact lt_of_le_of_lt hle (by norm_num)
  · rw [roundValue_of_nonneg hnn]
    exact hle

/-- The product of the scale and the maximum itself is within `2^-53` of 1. -/
theorem normalised_ge (s m x : ℚ) (hm : 0 < m) (hs1 : (1 - 2 ^ (-53 : ℤ)) / m ≤ s)
    (hs : s ≤ (1 + 2 ^ (-53 : ℤ)) / m) (hx : |x| = m) :
    ∃ p, normalised s x = some p ∧ 1 - 2 ^ (-53 : ℤ) ≤ p := by
  have hs0 : 0 ≤ s := le_trans (div_nonneg (by norm_num) (le_of_lt hm)) hs1
  obtain ⟨p, hp, _⟩ := normalised_le_one s m x hm hs0 hs (le_of_eq hx)
  have hnn : 0 ≤ s * |x| := mul_nonneg hs0 (abs_nonneg x)
  have hprod : 1 - 2 ^ (-53 : ℤ) ≤ s * |x| := by
    rw [hx]
    calc 1 - 2 ^ (-53 : ℤ) = (1 - 2 ^ (-53 : ℤ)) / m * m :=
          (div_mul_cancel₀ _ (ne_of_gt hm)).symm
      _ ≤ s * m := mul_le_mul_of_nonneg_right hs1 (le_of_lt hm)
  have hge : 1 - 2 ^ (-53 : ℤ) ≤ roundMagnitude (s * |x|) := by
    rw [← roundMagnitude_one_sub]
    exact roundMagnitude_mono (by norm_num) hprod
  refine ⟨p, hp, ?_⟩
  have hp2 : normalised s x = some (roundValue (s * |x|)) := by
    unfold normalised mulDouble
    apply roundDouble_eq_some
    rw [abs_of_nonneg hnn]
    obtain ⟨p2, hp2, hle⟩ := normalised_le_one s m x hm hs0 hs (le_of_eq hx)
    unfold normalised mulDouble roundDouble at hp2
    split_ifs at hp2 with hfin
    rw [abs_roundValue, abs_of_nonneg hnn] at hfin
    exact hfin
  rw [hp2] at hp
  have hpe : roundValue (s * |x|) = p := Option.some.inj hp
  rw [← hpe, roundValue_of_nonneg hnn]
  exact hge

theorem normalised_zero (x : ℚ) : normalised 0 x = some 0 := by
  unfold normalised mulDouble
  rw [zero_mul, roundDouble_zero]

theorem endOrdinate_zero (drawingSize v : ℚ) : endOrdinate drawingSize 0 v = some 0 := by
  unfold endOrdinate mulDouble
  rw [mul_zero, roundDouble_zero, Option.some_bind, zero_mul, roundDouble_zero]

theorem endOrdinate_value_zero (drawingSize s L : ℚ) (h : mulDouble drawingSize s = some L) :
    endOrdinate drawingSize s 0 = some 0 := by
  unfold endOrdinate
  rw [h, Option.some_bind]
  unfold mulDouble
  rw [mul_zero, roundDouble_zero]

/-- The end ordinate exceeds `drawingSize` by at most three roundings. -/
theorem endOrdinate_le (drawingSize s m v : ℚ) (hD0 : 0 ≤ drawingSize)
    (hD : NormalRange drawingSize) (hm : 0 < m) (hs0 : 0 ≤ s)
    (hs : s ≤ (1 + 2 ^ (-53 : ℤ)) / m) (hv : |v| ≤ m)
    (hp : NormalRange (drawingSize * s)) :
    ∃ o, endOrdinate drawingSize s v = some o ∧ |o| ≤ drawingSize * (1 + 2 ^ (-51 : ℤ)) := by
  obtain ⟨hD1, hD2⟩ := hD
  obtain ⟨hp1, hp2⟩ := hp
  rw [abs_of_nonneg hD0] at hD1 hD2
  have hpnn : 0 ≤ drawingSize * s := mul_nonneg hD0 hs0
  rw [abs_of_nonneg hpnn] at hp1 hp2
  have hu : (2 : ℚ) ^ (-53 : ℤ) = 1 / 9007199254740992 := by norm_num
  have hu2 : (2 : ℚ) ^ (-51 : ℤ) = 1 / 2251799813685248 := by norm_num
  -- loadScale
  have herr := roundMagnitude_error (drawingSize * s) hp1
  rw [abs_le] at herr
  have hL0 : 0 ≤ roundMagnitude (drawingSize * s) := roundMagnitude_nonneg _ hpnn
  have hLup : roundMagnitude (drawingSize * s) ≤
      (1 + 2 ^ (-53 : ℤ)) * (drawingSize * s) := by linarith [herr.2]
  have h1022 : (2 : ℚ) ^ (1022 : ℤ) = 2 ^ 1022 := by norm_num
  have hLfin : roundMagnitude |drawingSize * s| < 2 ^ 1024 := by
    rw [abs_of_nonneg hpnn]
    have : (1 + (2 : ℚ) ^ (-53 : ℤ)) * (drawingSize * s) ≤
        (1 + 2 ^ (-53 : ℤ)) * 2 ^ (1022 : ℤ) :=
      mul_le_mul_of_nonneg_left hp2 (by norm_num)
    have h5 : (1 + (2 : ℚ) ^ (-53 : ℤ)) * 2 ^ (1022 : ℤ) < 2 ^ 1024 := by norm_num
    linarith
  have hmul : mulDouble drawingSize s = some (roundMagnitude (drawingSize * s)) := by
    unfold mulDouble
    rw [roundDouble_eq_some hLfin, roundValue_of_nonneg hpnn]
  -- the exact product before the last rounding
  have hsm : s * m ≤ 1 + 2 ^ (-53 : ℤ) := by
    calc s * m ≤ (1 + 2 ^ (-53 : ℤ)) / m * m := mul_le_mul_of_nonneg_right hs (le_of_lt hm)
      _ = 1 + 2 ^ (-53 : ℤ) := div_mul_cancel₀ _ (ne_of_gt hm)
  have hy : roundMagnitude (drawingSize * s) * |v| ≤
      drawingSize * ((1 + 2 ^ (-53 : ℤ)) * (1 + 2 ^ (-53 : ℤ))) := by
    calc roundMagnitude (drawingSize * s) * |v|
        ≤ (1 + 2 ^ (-53 : ℤ)) * (drawingSize * s) * m :=
          mul_le_mul hLup hv (abs_nonneg v) (mul_nonneg (by norm_num) hpnn)
      _ = drawingSize * ((1 + 2 ^ (-53 : ℤ)) * (s * m)) := by ring
      _ ≤ drawingSize * ((1 + 2 ^ (-53 : ℤ)) * (1 + 2 ^ (-53 : ℤ))) :=
          mul_le_mul_of_nonneg_left (mul_le_mul_of_nonneg_left hsm (by norm_num)) hD0
  have hynn : 0 ≤ roundMagnitude (drawingSize * s) * |v| := mul_nonneg hL0 (abs_nonneg v)
  have hB : (2 : ℚ) ^ (-1022 : ℤ) ≤
      drawingSize * ((1 + 2 ^ (-53 : ℤ)) * (1 + 2 ^ (-53 : ℤ))) := by
    have : drawingSize ≤ drawingSize * ((1 + 2 ^ (-53 : ℤ)) * (1 + 2 ^ (-53 : ℤ))) := by
      rw [hu]
      nlinarith
    linarith
  have herrB := roundMagnitude_error _ hB
  rw [abs_le] at herrB
  have hfinal : roundMagnitude (roundMagnitude (drawingSize * s) * |v|) ≤
      drawingSize * (1 + 2 ^ (-51 : ℤ)) := by
    have h1 := roundMagnitude_mono hynn hy
    have h2 : roundMagnitude (drawingSize * ((1 + 2 ^ (-53 : ℤ)) * (1 + 2 ^ (-53 : ℤ)))) ≤
        drawingSize * (1 + 2 ^ (-51 : ℤ)) := by
      have := herrB.2
      rw [hu] at this ⊢
      rw [hu2]
      nlinarith
    exact le_trans h1 h2
  have habs : |roundMagnitude (drawingSize * s) * v| =
      roundMagnitude (drawingSize * s) * |v| := by
    rw [abs_mul, abs_of_nonneg hL0]
  refine ⟨roundValue (roundMagnitude (drawingSize * s) * v), ?_, ?_⟩
  · unfold endOrdinate
    rw [hmul, Option.some_bind]
    unfold mulDouble
    apply roundDouble_eq_some
    rw [habs]
    have h6 : drawingSize * (1 + (2 : ℚ) ^ (-51 : ℤ)) ≤ 2 ^ (1022 : ℤ) * (1 + 2 ^ (-51 : ℤ)) :=
      mul_le_mul_of_nonneg_right hD2 (by norm_num)
    have h7 : (2 : ℚ) ^ (1022 : ℤ) * (1 + 2 ^ (-51 : ℤ)) < 2 ^ 1024 := by norm_num
    linarith
  · rw [abs_roundValue, habs]
    exact hfinal

/-- The scale of a list whose maximum is zero or in the normal range, with the bounds it
gives. -/
theorem scale_of_list (l : List ℚ) (h : maxAbs l ≠ 0 → NormalRange (maxAbs l)) :
    ∃ s, scaleOfMaxDouble (maxAbs l) = some s ∧
      (∀ x ∈ l, ∃ p ∈ normalised s x, p ≤ 1) ∧
      ((∃ x ∈ l, x ≠ 0) → ∃ x ∈ l, ∃ p ∈ normalised s x, 1 - 2 ^ (-53 : ℤ) ≤ p) ∧
      (∀ drawingSize : ℚ, 0 ≤ drawingSize → NormalRange drawingSize →
        (s ≠ 0 → NormalRange (drawingSize * s)) → ∀ x ∈ l, ∀ v : ℚ, |v| = |x| →
          ∃ o ∈ endOrdinate drawingSize s v, |o| ≤ drawingSize * (1 + 2 ^ (-51 : ℤ))) := by
  rcases eq_or_lt_of_le (maxAbs_nonneg l) with h0 | hpos
  · have hz : ∀ x ∈ l, x = 0 := by
      intro x hx
      have := abs_le_maxAbs l x hx
      rw [← h0] at this
      exact abs_eq_zero.mp (le_antisymm this (abs_nonneg x))
    refine ⟨0, ?_, ?_, ?_, ?_⟩
    · unfold scaleOfMaxDouble
      rw [if_pos h0.symm]
    · intro x _
      exact ⟨0, normalised_zero x, by norm_num⟩
    · rintro ⟨x, hx, hne⟩
      exact absurd (hz x hx) hne
    · intro drawingSize hD0 _ _ x _ v _
      refine ⟨0, endOrdinate_zero drawingSize v, ?_⟩
      rw [abs_zero]
      exact mul_nonneg hD0 (by norm_num)
  · obtain ⟨hr1, hr2⟩ := h (ne_of_gt hpos)
    rw [abs_of_pos hpos] at hr1 hr2
    obtain ⟨s, hs, hlo, hup⟩ := scaleOfMaxDouble_bounds (maxAbs l) hr1 hr2
    have hs0 : 0 ≤ s := le_trans (div_nonneg (by norm_num) (le_of_lt hpos)) hlo
    have hsne : s ≠ 0 := by
      have : 0 < (1 - (2 : ℚ) ^ (-53 : ℤ)) / maxAbs l := div_pos (by norm_num) hpos
      exact ne_of_gt (lt_of_lt_of_le this hlo)
    refine ⟨s, hs, ?_, ?_, ?_⟩
    · intro x hx
      exact normalised_le_one s (maxAbs l) x hpos hs0 hup (abs_le_maxAbs l x hx)
    · intro _
      rcases maxAbs_attained l with h0 | ⟨x0, hx0, hx0e⟩
      · exact absurd h0 (ne_of_gt hpos)
      · exact ⟨x0, hx0, normalised_ge s (maxAbs l) x0 hpos hlo hup hx0e⟩
    · intro drawingSize hD0 hD hp x hx v hv
      exact endOrdinate_le drawingSize s (maxAbs l) v hD0 hD hpos hs0 hup
        (by rw [hv]; exact abs_le_maxAbs l x hx) (hp hsne)

/-- Evaluation of `roundDouble` at a positive value with a strictly nearest double. -/
theorem roundDouble_eq (a : ℚ) (e n : ℤ) (he : -1022 ≤ e) (h1 : 2 ^ e ≤ a)
    (h2 : a < 2 ^ (e + 1)) (hn : |a / 2 ^ (e - 52) - n| < 1 / 2)
    (hfin : (n : ℚ) * 2 ^ (e - 52) < 2 ^ 1024) :
    roundDouble a = some ((n : ℚ) * 2 ^ (e - 52)) := by
  have ha : 0 ≤ a := le_trans (le_of_lt (two_zpow_pos e)) h1
  have hr := roundMagnitude_eq a e n he h1 h2 hn
  rw [roundDouble_eq_some (by rw [abs_of_nonneg ha, hr]; exact hfin),
    roundValue_of_nonneg ha, hr]

/-- Evaluation of `roundDouble` at a negative value with a strictly nearest double. -/
theorem roundDouble_neg_eq (a : ℚ) (e n : ℤ) (he : -1022 ≤ e) (h1 : 2 ^ e ≤ a)
    (h2 : a < 2 ^ (e + 1)) (hn : |a / 2 ^ (e - 52) - n| < 1 / 2)
    (hfin : (n : ℚ) * 2 ^ (e - 52) < 2 ^ 1024) :
    roundDouble (-a) = some (-((n : ℚ) * 2 ^ (e - 52))) := by
  have ha : 0 < a := lt_of_lt_of_le (two_zpow_pos e) h1
  have hr := roundMagnitude_eq a e n he h1 h2 hn
  have hv : roundValue (-a) = -roundMagnitude a := by
    unfold roundValue
    rw [if_pos (by linarith), neg_neg]
  rw [roundDouble_eq_some (by rw [abs_neg, abs_of_pos ha, hr]; exact hfin), hv, hr]

theorem initializeLoadScalesDouble_eq (loads : List (TDistributedLoad ℚ))
    (internalLoads : List (Fin 6 → ℚ)) (D : List ℚ) (s0 s1 s2 s3 s4 : ℚ)
    (h0 : scaleOfMaxDouble
      (maxAbs (loads.flatMap fun load => [load.node0Load, load.node1Load])) = some s0)
    (h1 : scaleOfMaxDouble (maxAbs (internalLoads.flatMap fun em => [em 0, em 3])) = some s1)
    (h2 : scaleOfMaxDouble (maxAbs (internalLoads.flatMap fun em => [em 1, em 4])) = some s2)
    (h3 : scaleOfMaxDouble (maxAbs (internalLoads.flatMap fun em => [em 2, em 5])) = some s3)
    (h4 : scaleOfMaxDouble (maxAbs D) = some s4) :
    initializeLoadScalesDouble loads internalLoads D = some ![s0, s1, s2, s3, s4] := by
  unfold initializeLoadScalesDouble
  simp only [maxDistributedLoad_eq, maxInternalLoads_eq, maxDisplacement_eq, h0, h1, h2, h3, h4]

theorem pair_nearly_attained {α : Type} (l : List α) (f g : α → ℚ) (s : ℚ)
    (h : (∃ x ∈ l.flatMap (fun b => [f b, g b]), x ≠ 0) →
      ∃ x ∈ l.flatMap (fun b => [f b, g b]), ∃ p ∈ normalised s x, 1 - 2 ^ (-53 : ℤ) ≤ p)
    (hne : ∃ a ∈ l, f a ≠ 0 ∨ g a ≠ 0) :
    ∃ a ∈ l, (∃ p ∈ normalised s (f a), 1 - 2 ^ (-53 : ℤ) ≤ p) ∨
      (∃ p ∈ normalised s (g a), 1 - 2 ^ (-53 : ℤ) ≤ p) := by
  obtain ⟨a, ha, hfg⟩ := hne
  have hex : ∃ x ∈ l.flatMap (fun b => [f b, g b]), x ≠ 0 := by
    rcases hfg with h' | h'
    · exact ⟨f a, (mem_flatMap_pair l f g a ha).1, h'⟩
    · exact ⟨g a, (mem_flatMap_pair l f g a ha).2, h'⟩
  obtain ⟨x, hx, hp⟩ := h hex
  obtain ⟨b, hb, hxb⟩ := List.mem_flatMap.mp hx
  simp only [List.mem_cons, List.mem_singleton, List.not_mem_nil, or_false] at hxb
  rcases hxb with rfl | rfl
  · exact ⟨b, hb, Or.inl hp⟩
  · exact ⟨b, hb, Or.inr hp⟩

/-- C22 (amended): in binary64 arithmetic (round to nearest, ties to even), when each
maximum found by `initializeLoadScales` is zero or lies in the normal range together with
its reciprocal (`2^-1022 <= max <= 2^1022`), the five scales are finite doubles; every
normalised quantity `scale[k] * |entry|` is a finite double `<= 1`; for each kind with a
non-zero entry some entry reaches at least `1 - 2^-53` (the value 1 itself need not be
reached); and for a `drawingSize >= 0` of the normal range whose
`loadScale = drawingSize * scale[k]` is in the normal range, an end ordinate
`loadScale * value` is a finite double of magnitude at most `drawingSize * (1 + 2^-51)`
(`drawingSize` itself can be exceeded). -/
theorem scales_binary64_bounds (loads : List (TDistributedLoad ℚ))
    (internalLoads : List (Fin 6 → ℚ)) (D : List ℚ)
    (hload : maxDistributedLoad loads ≠ 0 → NormalRange (maxDistributedLoad loads))
    (haxial : (maxInternalLoads internalLoads).1 ≠ 0 →
      NormalRange (maxInternalLoads internalLoads).1)
    (hshear : (maxInternalLoads internalLoads).2.1 ≠ 0 →
      NormalRange (maxInternalLoads internalLoads).2.1)
    (hmoment : (maxInternalLoads internalLoads).2.2 ≠ 0 →
      NormalRange (maxInternalLoads internalLoads).2.2)
    (hD : maxDisplacement D ≠ 0 → NormalRange (maxDisplacement D)) :
    ∃ scale : Fin 5 → ℚ, initializeLoadScalesDouble loads internalLoads D = some scale ∧
      (∀ load ∈ loads, (∃ p ∈ normalised (scale 0) load.node0Load, p ≤ 1) ∧
        (∃ p ∈ normalised (scale 0) load.node1Load, p ≤ 1)) ∧
      (∀ em ∈ internalLoads,
        ((∃ p ∈ normalised (scale 1) (em 0), p ≤ 1) ∧
          (∃ p ∈ normalised (scale 1) (em 3), p ≤ 1)) ∧
        ((∃ p ∈ normalised (scale 2) (em 1), p ≤ 1) ∧
          (∃ p ∈ normalised (scale 2) (em 4), p ≤ 1)) ∧
        ((∃ p ∈ normalised (scale 3) (em 2), p ≤ 1) ∧
          (∃ p ∈ normalised (scale 3) (em 5), p ≤ 1))) ∧
      (∀ x ∈ D, ∃ p ∈ normalised (scale 4) x, p ≤ 1) ∧
      ((∃ load ∈ loads, load.node0Load ≠ 0 ∨ load.node1Load ≠ 0) →
        ∃ load ∈ loads,
          (∃ p ∈ normalised (scale 0) load.node0Load, 1 - 2 ^ (-53 : ℤ) ≤ p) ∨
          (∃ p ∈ normalised (scale 0) load.node1Load, 1 - 2 ^ (-53 : ℤ) ≤ p)) ∧
      ((∃ em ∈ internalLoads, em 0 ≠ 0 ∨ em 3 ≠ 0) →
        ∃ em ∈ internalLoads,
          (∃ p ∈ normalised (scale 1) (em 0), 1 - 2 ^ (-53 : ℤ) ≤ p) ∨
          (∃ p ∈ normalised (scale 1) (em 3), 1 - 2 ^ (-53 : ℤ) ≤ p)) ∧
      ((∃ em ∈ internalLoads, em 1 ≠ 0 ∨ em 4 ≠ 0) →
        ∃ em ∈ internalLoads,
          (∃ p ∈ normalised (scale 2) (em 1), 1 - 2 ^ (-53 : ℤ) ≤ p) ∨
          (∃ p ∈ normalised (scale 2) (em 4), 1 - 2 ^ (-53 : ℤ) ≤ p)) ∧
      ((∃ em ∈ internalLoads, em 2 ≠ 0 ∨ em 5 ≠ 0) →
        ∃ em ∈ internalLoads,
          (∃ p ∈ normalised (scale 3) (em 2), 1 - 2 ^ (-53 : ℤ) ≤ p) ∨
          (∃ p ∈ normalised (scale 3) (em 5), 1 - 2 ^ (-53 : ℤ) ≤ p)) ∧
      ((∃ x ∈ D, x ≠ 0) → ∃ x ∈ D, ∃ p ∈ normalised (scale 4) x, 1 - 2 ^ (-53 : ℤ) ≤ p) ∧
      (∀ drawingSize : ℚ, 0 ≤ drawingSize → NormalRange drawingSize →
        ∀ em ∈ internalLoads,
          ((scale 1 ≠ 0 → NormalRange (drawingSize * scale 1)) →
            (∃ o ∈ endOrdinate drawingSize (scale 1) (-em 0),
              |o| ≤ drawingSize * (1 + 2 ^ (-51 : ℤ))) ∧
            (∃ o ∈ endOrdinate drawingSize (scale 1) (-em 3),
              |o| ≤ drawingSize * (1 + 2 ^ (-51 : ℤ)))) ∧
          ((scale 2 ≠ 0 → NormalRange (drawingSize * scale 2)) →
            (∃ o ∈ endOrdinate drawingSize (scale 2) (em 1),
              |o| ≤ drawingSize * (1 + 2 ^ (-51 : ℤ))) ∧
            (∃ o ∈ endOrdinate drawingSize (scale 2) (em 4),
              |o| ≤ drawingSize * (1 + 2 ^ (-51 : ℤ)))) ∧
          ((scale 3 ≠ 0 → NormalRange (drawingSize * scale 3)) →
            (∃ o ∈ endOrdinate drawingSize (scale 3) (em 2),
              |o| ≤ drawingSize * (1 + 2 ^ (-51 : ℤ))) ∧
            (∃ o ∈ endOrdinate drawingSize (scale 3) (em 5),
              |o| ≤ drawingSize * (1 + 2 ^ (-51 : ℤ))))) := by
  rw [maxDistributedLoad_eq] at hload
  rw [maxInternalLoads_eq] at haxial hshear hmoment
  rw [maxDisplacement_eq] at hD
  obtain ⟨s0, hs0, hb0, ha0, _⟩ := scale_of_list _ hload
  obtain ⟨s1, hs1, hb1, ha1, ho1⟩ := scale_of_list _ haxial
  obtain ⟨s2, hs2, hb2, ha2, ho2⟩ := scale_of_list _ hshear
  obtain ⟨s3, hs3, hb3, ha3, ho3⟩ := scale_of_list _ hmoment
  obtain ⟨s4, hs4, hb4, ha4, _⟩ := scale_of_list D hD
  have hmem : ∀ (a b : Fin 6) (em : Fin 6 → ℚ), em ∈ internalLoads →
      em a ∈ internalLoads.flatMap (fun em => [em a, em b]) ∧
      em b ∈ internalLoads.flatMap (fun em => [em a, em b]) :=
    fun a b em hem => mem_flatMap_pair internalLoads (fun em => em a) (fun em => em b) em hem
  refine ⟨![s0, s1, s2, s3, s4],
    initializeLoadScalesDouble_eq loads internalLoads D s0 s1 s2 s3 s4 hs0 hs1 hs2 hs3 hs4,
    ?_, ?_, ?_, ?_, ?_, ?_, ?_, ?_, ?_⟩
  · intro load hload
    have hm := mem_flatMap_pair loads (fun l => l.node0Load) (fun l => l.node1Load) load hload
    exact ⟨hb0 _ hm.1, hb0 _ hm.2⟩
  · intro em hem
    exact ⟨⟨hb1 _ (hmem 0 3 em hem).1, hb1 _ (hmem 0 3 em hem).2⟩,
      ⟨hb2 _ (hmem 1 4 em hem).1, hb2 _ (hmem 1 4 em hem).2⟩,
      ⟨hb3 _ (hmem 2 5 em hem).1, hb3 _ (hmem 2 5 em hem).2⟩⟩
  · exact hb4
  · exact pair_nearly_attained loads (fun l => l.node0Load) (fun l => l.node1Load) s0 ha0
  · exact pair_nearly_attained internalLoads (fun em => em 0) (fun em => em 3) s1 ha1
  · exact pair_nearly_attained internalLoads (fun em => em 1) (fun em => em 4) s2 ha2
  · exact pair_nearly_attained internalLoads (fun em => em 2) (fun em => em 5) s3 ha3
  · exact ha4
  · intro drawingSize hD0 hDn em hem
    refine ⟨fun hp => ?_, fun hp => ?_, fun hp => ?_⟩
    · exact ⟨ho1 drawingSize hD0 hDn hp _ (hmem 0 3 em hem).1 _ (abs_neg _),
        ho1 drawingSize hD0 hDn hp _ (hmem 0 3 em hem).2 _ (abs_neg _)⟩
    · exact ⟨ho2 drawingSize hD0 hDn hp _ (hmem 1 4 em hem).1 _ rfl,
        ho2 drawingSize hD0 hDn hp _ (hmem 1 4 em hem).2 _ rfl⟩
    · exact ⟨ho3 drawingSize hD0 hDn hp _ (hmem 2 5 em hem).1 _ rfl,
        ho3 drawingSize hD0 hDn hp _ (hmem 2 5 em hem).2 _ rfl⟩

theorem roundHalfEven_tie_odd (n : ℤ) (hn : n % 2 = 1) :
    roundHalfEven ((n : ℚ) + 1 / 2) = n + 1 := by
  have hfl : ⌊(n : ℚ) + 1 / 2⌋ = n := by
    rw [Int.floor_eq_iff]
    constructor <;> linarith
  unfold roundHalfEven
  rw [hfl]
  have : (n : ℚ) + 1 / 2 - n = 1 / 2 := by ring
  rw [this, if_neg (lt_irrefl _), if_neg (lt_irrefl _), if_neg (by omega)]

/-- Evaluation of `roundDouble` at a positive subnormal value with a strictly nearest
double. -/
theorem roundDouble_subnormal_eq (a : ℚ) (n : ℤ) (ha : 0 < a) (h : a < 2 ^ (-1022 : ℤ))
    (hn : |a / 2 ^ (-1074 : ℤ) - n| < 1 / 2) (hfin : (n : ℚ) * 2 ^ (-1074 : ℤ) < 2 ^ 1024) :
    roundDouble a = some ((n : ℚ) * 2 ^ (-1074 : ℤ)) := by
  have hr : roundMagnitude a = n * 2 ^ (-1074 : ℤ) := by
    unfold roundMagnitude
    rw [ulpExponent_subnormal a ha h, roundHalfEven_eq_of_abs_lt _ n hn]
  rw [roundDouble_eq_some (by rw [abs_of_pos ha, hr]; exact hfin),
    roundValue_of_nonneg (le_of_lt ha), hr]

/-- Evaluation of `roundDouble` at a positive tie above an odd neighbour. -/
theorem roundDouble_tie_odd (a : ℚ) (e n : ℤ) (he : -1022 ≤ e) (h1 : 2 ^ e ≤ a)
    (h2 : a < 2 ^ (e + 1)) (hn : a / 2 ^ (e - 52) = n + 1 / 2) (hodd : n % 2 = 1)
    (hfin : ((n + 1 : ℤ) : ℚ) * 2 ^ (e - 52) < 2 ^ 1024) :
    roundDouble a = some (((n + 1 : ℤ) : ℚ) * 2 ^ (e - 52)) := by
  have ha : 0 ≤ a := le_trans (le_of_lt (two_zpow_pos e)) h1
  have hr : roundMagnitude a = ((n + 1 : ℤ) : ℚ) * 2 ^ (e - 52) := by
    unfold roundMagnitude
    rw [ulpExponent_eq a e he h1 h2, hn, roundHalfEven_tie_odd n hodd]
  rw [roundDouble_eq_some (by rw [abs_of_nonneg ha, hr]; exact hfin),
    roundValue_of_nonneg ha, hr]

theorem scaleOfMaxDouble_eleven :
    scaleOfMaxDouble 11 = some (3275345183542179 / 36028797018963968) := by
  unfold scaleOfMaxDouble divDouble
  rw [if_neg (by norm_num), if_neg (by norm_num),
    roundDouble_eq (1 / 11) (-4) 6550690367084358 (by norm_num) (by norm_num) (by norm_num)
      (by rw [abs_lt]; constructor <;> norm_num) (by norm_num)]
  norm_num

theorem scaleOfMaxDouble_fortyNine :
    scaleOfMaxDouble 49 = some (5882252574524729 / 288230376151711744) := by
  unfold scaleOfMaxDouble divDouble
  rw [if_neg (by norm_num), if_neg (by norm_num),
    roundDouble_eq (1 / 49) (-6) 5882252574524729 (by norm_num) (by norm_num) (by norm_num)
      (by rw [abs_lt]; constructor <;> norm_num) (by norm_num)]
  norm_num

theorem scaleOfMaxDouble_zero : scaleOfMaxDouble 0 = some 0 :=
  if_pos rfl

/-- The scales of the run with the single element end force 11 and the single
displacement 49: `scale[1]` is the double nearest to `1/11` and `scale[4]` the double
nearest to `1/49`. -/
theorem initializeLoadScalesDouble_example :
    initializeLoadScalesDouble [] [![11, 0, 0, 0, 0, 0]] [49] =
      some ![0, 3275345183542179 / 36028797018963968, 0, 0,
        5882252574524729 / 288230376151711744] := by
  apply initializeLoadScalesDouble_eq
  · exact scaleOfMaxDouble_zero
  · show scaleOfMaxDouble (maxAbs [(11 : ℚ), 0]) = _
    have : maxAbs [(11 : ℚ), 0] = 11 := by norm_num [maxAbs]
    rw [this]
    exact scaleOfMaxDouble_eleven
  · show scaleOfMaxDouble (maxAbs [(0 : ℚ), 0]) = _
    have : maxAbs [(0 : ℚ), 0] = 0 := by norm_num [maxAbs]
    rw [this]
    exact scaleOfMaxDouble_zero
  · show scaleOfMaxDouble (maxAbs [(0 : ℚ), 0]) = _
    have : maxAbs [(0 : ℚ), 0] = 0 := by norm_num [maxAbs]
    rw [this]
    exact scaleOfMaxDouble_zero
  · have : maxAbs ([49] : List ℚ) = 49 := by norm_num [maxAbs]
    rw [this]
    exact scaleOfMaxDouble_fortyNine

/-- C22, counterexample: a binary64 run of `initializeLoadScales` with one element whose
internal loads are `[11, 0, 0, 0, 0, 0]`, no distributed load and the displacement vector
`[49]`.  `scale[4]` is the double nearest to `1/49` and the normalised quantity of the only
displacement is `1 - 2^-53` (0.9999999999999999), so the displacements have a non-zero
entry and none of them attains 1.  `scale[1]` is the double nearest to `1/11`, and with
`drawingSize = 50` the constant coefficient `loadScale * -axialLoadAtNode0` of the axial
diagram is `-(50 + 2^-47)` (-50.00000000000001), which exceeds `drawingSize` in
magnitude. -/
theorem scales_binary64_counterexample :
    ∃ scale : Fin 5 → ℚ,
      initializeLoadScalesDouble [] [![11, 0, 0, 0, 0, 0]] [49] = some scale ∧
      normalised (scale 4) 49 = some (1 - 2 ^ (-53 : ℤ)) ∧
      (1 - 2 ^ (-53 : ℤ) : ℚ) < 1 ∧
      endOrdinate 50 (scale 1) (-11) = some (-(50 + 2 ^ (-47 : ℤ))) ∧
      (50 : ℚ) < |-(50 + 2 ^ (-47 : ℤ))| := by
  refine ⟨_, initializeLoadScalesDouble_example, ?_, by norm_num, ?_, ?_⟩
  · show normalised (5882252574524729 / 288230376151711744) 49 = _
    unfold normalised mulDouble
    rw [roundDouble_eq _ (-1) 9007199254740991 (by norm_num) (by norm_num) (by norm_num)
      (by rw [abs_lt]; constructor <;> norm_num) (by norm_num)]
    norm_num
  · show endOrdinate 50 (3275345183542179 / 36028797018963968) (-11) = _
    unfold endOrdinate mulDouble
    rw [roundDouble_eq _ 2 5117726849284655 (by norm_num) (by norm_num) (by norm_num)
      (by rw [abs_lt]; constructor <;> norm_num) (by norm_num), Option.some_bind, mul_neg,
      roundDouble_neg_eq _ 5 7036874417766401 (by norm_num) (by norm_num) (by norm_num)
      (by rw [abs_lt]; constructor <;> norm_num) (by norm_num)]
    norm_num
  · rw [abs_neg, abs_of_pos (by norm_num)]
    norm_num

/-- The upper end of the normal range is needed: the single displacement `7 * 2^1021` is a
finite double whose reciprocal is subnormal; its scale is `1286742750677285 * 2^-1074` and
its normalised quantity is `1 + 2^-51`, above 1. -/
theorem normalised_above_one :
    ∃ scale : Fin 5 → ℚ,
      initializeLoadScalesDouble [] [] [7 * 2 ^ 1021] = some scale ∧
      normalised (scale 4) (7 * 2 ^ 1021) = some (1 + 2 ^ (-51 : ℤ)) := by
  have hs : scaleOfMaxDouble (7 * 2 ^ 1021) =
      some (1286742750677285 * 2 ^ (-1074 : ℤ)) := by
    unfold scaleOfMaxDouble divDouble
    rw [if_neg (by norm_num), if_neg (by norm_num),
      roundDouble_subnormal_eq _ 1286742750677285 (by norm_num) (by norm_num)
        (by rw [abs_lt]; constructor <;> norm_num) (by norm_num)]
    norm_num
  refine ⟨![0, 0, 0, 0, 1286742750677285 * 2 ^ (-1074 : ℤ)], ?_, ?_⟩
  · apply initializeLoadScalesDouble_eq
    · exact scaleOfMaxDouble_zero
    · exact scaleOfMaxDouble_zero
    · exact scaleOfMaxDouble_zero
    · exact scaleOfMaxDouble_zero
    · have : maxAbs ([7 * 2 ^ 1021] : List ℚ) = 7 * 2 ^ 1021 := by norm_num [maxAbs]
      rw [this]
      exact hs
  · show normalised (1286742750677285 * 2 ^ (-1074 : ℤ)) (7 * 2 ^ 1021) = _
    unfold normalised mulDouble
    rw [roundDouble_tie_odd _ 0 4503599627370497 (by norm_num) (by norm_num) (by norm_num)
      (by norm_num) (by norm_num) (by norm_num)]
    norm_num

theorem initializeLoadScalesDouble_none (loads : List (TDistributedLoad ℚ))
    (internalLoads : List (Fin 6 → ℚ)) (D : List ℚ)
    (h : scaleOfMaxDouble (maxDisplacement D) = none) :
    initializeLoadScalesDouble loads internalLoads D = none := by
  unfold initializeLoadScalesDouble
  dsimp only
  rw [h]
  cases scaleOfMaxDouble (maxDistributedLoad loads) <;>
  cases scaleOfMaxDouble (maxInternalLoads internalLoads).1 <;>
  cases scaleOfMaxDouble (maxInternalLoads internalLoads).2.1 <;>
  cases scaleOfMaxDouble (maxInternalLoads internalLoads).2.2 <;> rfl

/-- The lower end of the normal range is needed: for the single displacement `2^-1074`, the
smallest positive double, `1. / maxDisplacement` overflows and `scale[4]` is not a finite
double. -/
theorem scale_overflow : initializeLoadScalesDouble [] [] [2 ^ (-1074 : ℤ)] = none := by
  have hm : maxDisplacement ([2 ^ (-1074 : ℤ)] : List ℚ) = 2 ^ (-1074 : ℤ) := by
    rw [maxDisplacement_eq]
    norm_num [maxAbs]
  have hr : roundMagnitude (2 ^ (1074 : ℤ)) = 2 ^ (1074 : ℤ) := by
    rw [roundMagnitude_eq _ 1074 (2 ^ 52) (by norm_num) (by norm_num) (by norm_num)
      (by norm_num)]
    norm_num
  have hinv : (1 : ℚ) / 2 ^ (-1074 : ℤ) = 2 ^ (1074 : ℤ) := by norm_num
  apply initializeLoadScalesDouble_none
  rw [hm]
  unfold scaleOfMaxDouble divDouble roundDouble
  rw [if_neg (by norm_num), if_neg (by norm_num), hinv,
    roundValue_of_nonneg (by norm_num), hr, if_neg (by norm_num)]

/-- The normal range of `drawingSize` and `loadScale` is needed: with the single shear end
force 1024 (so `scale[2] = 2^-10`) and the subnormal `drawingSize = 614 * 2^-1074`, the
product `loadScale = drawingSize * scale[2]` rounds up to `2^-1074` and the end ordinate is
`1024 * 2^-1074`, far above `drawingSize`. -/
theorem endOrdinate_subnormal :
    ∃ scale : Fin 5 → ℚ,
      initializeLoadScalesDouble [] [![0, 1024, 0, 0, 0, 0]] [] = some scale ∧
      endOrdinate (614 * 2 ^ (-1074 : ℤ)) (scale 2) 1024 = some (1024 * 2 ^ (-1074 : ℤ)) ∧
      (614 * 2 ^ (-1074 : ℤ) : ℚ) * (1 + 2 ^ (-51 : ℤ)) < |1024 * 2 ^ (-1074 : ℤ)| := by
  have hs : scaleOfMaxDouble 1024 = some (1 / 1024) := by
    unfold scaleOfMaxDouble divDouble
    rw [if_neg (by norm_num), if_neg (by norm_num),
      roundDouble_eq (1 / 1024) (-10) 4503599627370496 (by norm_num) (by norm_num)
        (by norm_num) (by norm_num) (by norm_num)]
    norm_num
  refine ⟨![0, 0, 1 / 1024, 0, 0], ?_, ?_, ?_⟩
  · apply initializeLoadScalesDouble_eq
    · exact scaleOfMaxDouble_zero
    · show scaleOfMaxDouble (maxAbs [(0 : ℚ), 0]) = _
      have : maxAbs [(0 : ℚ), 0] = 0 := by norm_num [maxAbs]
      rw [this]
      exact scaleOfMaxDouble_zero
    · show scaleOfMaxDouble (maxAbs [(1024 : ℚ), 0]) = _
      have : maxAbs [(1024 : ℚ), 0] = 1024 := by norm_num [maxAbs]
      rw [this]
      exact hs
    · show scaleOfMaxDouble (maxAbs [(0 : ℚ), 0]) = _
      have : maxAbs [(0 : ℚ), 0] = 0 := by norm_num [maxAbs]
      rw [this]
      exact scaleOfMaxDouble_zero
    · exact scaleOfMaxDouble_zero
  · show endOrdinate (614 * 2 ^ (-1074 : ℤ)) (1 / 1024) 1024 = _
    unfold endOrdinate mulDouble
    rw [roundDouble_subnormal_eq _ 1 (by norm_num) (by norm_num)
      (by rw [abs_lt]; constructor <;> norm_num) (by norm_num), Option.some_bind,
      roundDouble_subnormal_eq _ 1024 (by norm_num) (by norm_num)
      (by rw [abs_lt]; constructor <;> norm_num) (by norm_num)]
    norm_num
  · rw [abs_of_pos (by norm_num)]
    norm_num

theorem scales_binary64_bounds_witness :
    ∃ scale : Fin 5 → ℚ,
      initializeLoadScalesDouble [] [![11, 0, 0, 0, 0, 0]] [49] = some scale ∧
      (∃ p ∈ normalised (scale 4) 49, p ≤ 1) ∧
      (∃ x ∈ ([49] : List ℚ), ∃ p ∈ normalised (scale 4) x, 1 - 2 ^ (-53 : ℤ) ≤ p) ∧
      ∃ o ∈ endOrdinate 50 (scale 1) (-11), |o| ≤ 50 * (1 + 2 ^ (-51 : ℤ)) := by
  have hm : maxInternalLoads ([![11, 0, 0, 0, 0, 0]] : List (Fin 6 → ℚ)) = (11, 0, 0) := by
    rw [maxInternalLoads_eq]
    show (maxAbs [(11 : ℚ), 0], maxAbs [(0 : ℚ), 0], maxAbs [(0 : ℚ), 0]) = _
    norm_num [maxAbs]
  obtain ⟨scale, hs, _, _, hb, _, _, _, _, ha, ho⟩ :=
    scales_binary64_bounds [] [![11, 0, 0, 0, 0, 0]] [49]
      (fun h => absurd rfl h)
      (fun _ => by rw [hm]; norm_num [NormalRange])
      (fun h => absurd (by rw [hm]) h)
      (fun h => absurd (by rw [hm]) h)
      (fun _ => by rw [maxDisplacement_eq]; norm_num [maxAbs, NormalRange])
  have hscale : scale = ![0, 3275345183542179 / 36028797018963968, 0, 0,
      5882252574524729 / 288230376151711744] :=
    Option.some.inj (hs.symm.trans initializeLoadScalesDouble_example)
  have hn : NormalRange (50 * scale 1) := by
    rw [hscale]
    show NormalRange (50 * (3275345183542179 / 36028797018963968))
    unfold NormalRange
    rw [abs_of_pos (by norm_num)]
    constructor <;> norm_num
  exact ⟨scale, hs, hb 49 (List.mem_singleton.mpr rfl),
    ha ⟨49, List.mem_singleton.mpr rfl, by norm_num⟩,
    ((ho 50 (by norm_num) (by norm_num [NormalRange]) ![11, 0, 0, 0, 0, 0]
      (List.mem_singleton.mpr rfl)).1 (fun _ => hn)).1⟩

end Binary64Claims

end JStatics
